import Mathlib

/-!
# Fichain core: state transition, receipts, block processing, proposer schedule,
transaction pool, encodings, blooms, block validator, block builder and fiat reserve

A shallow embedding of
* `Core/state_processor/state_transition.go` (`IntrinsicGas`, `StateTransition`),
* `Core/state_processor/state_processor.go` (`ApplyTransaction`, `Process`),
* `Core/receipt/receipt.go` (`NewReceipt`, `boolToUint32`),
* `Core/consensus/poa_consensus/proposer_schedule.go` (`UpdateSchedule`, `GetProposer`),
* `Core/transaction_pool/transaction_pool.go` (`TransactionPool`),
* `Core/block/block_header.go`, `block_hash_data.go`, `block_body.go` (`Proto`, `FromProto`,
  `ToHashData`, `Hash`),
* `Core/transaction/transaction.go` (`Hash`, `calculateHash`, `SetSign`, `Proto`, `FromProto`),
* `Core/bloom/bloom.go` (`bloom9`, `LogsBloom`, `CreateBloom`, `BloomLookup`, `BytesToBloom`),
* `Core/block_validator/block_validator.go` (`ValidateBody`, `ValidateState`),
* `Core/block_builder/block_builder.go` (`applyTransaction`, `GenerateBlock`),
* `Core/transaction_validator/transaction_validator.go` (`DeepVerify`),
* `Core/consensus/poa_consensus/fiat_reserve.go` (`FiatReserve`).

Machine integers (`uint64`) are natural numbers reduced modulo `2 ^ 64` wherever the
Go code can wrap; `*big.Int` values are integers.
-/

namespace Fichain

/-! ## Basic types -/

/-- A `common.Address` (20 bytes), read as a number; `0` is the zero address `common.Address{}`. -/
abbrev Address := Nat

/-- A `common.Hash` (32 bytes), read as a number. -/
abbrev Hash := Nat

/-- A byte of transaction data. -/
abbrev Byte := Fin 256

/-- The zero address `common.Address{}`. -/
def zeroAddress : Address := 0

/-- The number of `uint64` values. -/
def uint64Size : Nat := 2 ^ 64

/-- Go `math.MaxUint64`. -/
def MaxUint64 : Nat := 2 ^ 64 - 1

/-- The error values of `Core/errors/errors.go` that the embedded code can return, together
with the "not signed yet" error of `Transaction.From`, the "no proposer found for block
height" error of `GetProposer` and the "transaction already exists in mempool" error of
`AddTransaction`. -/
inductive Error where
  | ErrOutOfGas
  | ErrDepth
  | ErrInsufficientBalance
  | ErrContractAddressCollision
  | ErrGasLimitReached
  | ErrInsufficientBalanceForGas
  | ErrNonceTooHigh
  | ErrNonceTooLow
  | ErrExecutionReverted
  | ErrMaxCodeSizeExceeded
  | ErrNotSigned
  | ErrNoProposer (blockHeight : Nat)
  | ErrAlreadyInMempool
  deriving DecidableEq, Repr

/-! ## Intrinsic gas -/

/-- Modelled from the spec: `params.TxGas`, the base gas of a call (the `params` constants are
not part of the sources at hand); the spec gives `21000`. -/
def TxGas : Nat := 21000

/-- Modelled from the spec: `params.TxGasContractCreation`; the spec gives `53000`. -/
def TxGasContractCreation : Nat := 53000

/-- Modelled from the spec: `params.TxDataNonZeroGas`; the spec gives `68` per non-zero byte. -/
def TxDataNonZeroGas : Nat := 68

/-- Modelled from the spec: `params.TxDataZeroGas`; the spec gives `4` per zero byte. -/
def TxDataZeroGas : Nat := 4

/-- The number of non-zero bytes of `data`: the counting loop of `IntrinsicGas`. A Go slice has
fewer than `2 ^ 63` elements, so the `uint64` counter never wraps. -/
def nonZeroBytes (data : List Byte) : Nat :=
  data.countP (fun byt => byt != 0)

/-- The function `IntrinsicGas` of `state_transition.go`: the returned gas and the error. The two
`gas += ...` updates are `uint64` additions. -/
def IntrinsicGas (data : List Byte) (contractCreation : Bool) : Nat × Option Error :=
  let gas := if contractCreation then TxGasContractCreation else TxGas
  if data.length > 0 then
    let nz := nonZeroBytes data
    if (MaxUint64 - gas) / TxDataNonZeroGas < nz then
      (0, some Error.ErrOutOfGas)
    else
      let gas1 := (gas + nz * TxDataNonZeroGas) % uint64Size
      let z := data.length - nz
      if (MaxUint64 - gas1) / TxDataZeroGas < z then
        (0, some Error.ErrOutOfGas)
      else
        ((gas1 + z * TxDataZeroGas) % uint64Size, none)
  else
    (gas, none)

/-! ## State database, transactions and the virtual machine -/

/-- Modelled from the spec: an account of the state DB (section 4.3 of the spec; the `state`
package is not among the sources): balance, nonce, code and per-account storage. -/
structure Account where
  balance : Int
  nonce : Nat
  code : List Byte
  storage : Nat → Nat

/-- Modelled from the spec: the account that `create_account` makes: zero balance, zero nonce,
no code, empty storage. -/
def Account.empty : Account :=
  { balance := 0, nonce := 0, code := [], storage := fun _ => 0 }

/-- The content fields of `log.Log` (`Core/log/log.go`). -/
structure Log where
  Address : Address
  Topics : List Hash
  Data : List Byte

/-- Modelled from the spec: the state DB of section 4.3: the accounts that exist, the refund
counter, the log-emission context bound by `prepare`, and the logs by transaction hash. -/
structure StateDB where
  accounts : Address → Option Account
  refund : Nat
  thash : Hash
  bhash : Hash
  txIndex : Nat
  logs : Hash → List Log

namespace StateDB

/-- Modelled from the spec: `exist(a)`. -/
def Exist (s : StateDB) (a : Address) : Bool :=
  (s.accounts a).isSome

/-- Replace the account stored at `a`. -/
def setAccount (s : StateDB) (a : Address) (acc : Account) : StateDB :=
  { s with accounts := fun b => if b = a then some acc else s.accounts b }

/-- The account at `a`, or a new empty one (the state object that a setter creates on demand). -/
def getOrNew (s : StateDB) (a : Address) : Account :=
  (s.accounts a).getD Account.empty

/-- Modelled from the spec: `create_account(a)`. -/
def CreateAccount (s : StateDB) (a : Address) : StateDB :=
  s.setAccount a Account.empty

/-- Modelled from the spec: `get_balance(a)`; an account that does not exist has balance `0`. -/
def GetBalance (s : StateDB) (a : Address) : Int :=
  match s.accounts a with
  | some acc => acc.balance
  | none => 0

/-- Modelled from the spec: `get_nonce(a)`; an account that does not exist has nonce `0`. -/
def GetNonce (s : StateDB) (a : Address) : Nat :=
  match s.accounts a with
  | some acc => acc.nonce
  | none => 0

/-- Modelled from the spec: `get_code(a)`. -/
def GetCode (s : StateDB) (a : Address) : List Byte :=
  match s.accounts a with
  | some acc => acc.code
  | none => []

/-- Modelled from the spec: `get_state(a, key)`. -/
def GetState (s : StateDB) (a : Address) (key : Nat) : Nat :=
  match s.accounts a with
  | some acc => acc.storage key
  | none => 0

/-- Modelled from the spec: `set_nonce(a, n)`. -/
def SetNonce (s : StateDB) (a : Address) (n : Nat) : StateDB :=
  s.setAccount a { s.getOrNew a with nonce := n }

/-- Modelled from the spec: `add_balance(a, v)`. -/
def AddBalance (s : StateDB) (a : Address) (v : Int) : StateDB :=
  s.setAccount a { s.getOrNew a with balance := (s.getOrNew a).balance + v }

/-- Modelled from the spec: `sub_balance(a, v)`; `buyGas` calls it only after checking that the
balance covers `v`. -/
def SubBalance (s : StateDB) (a : Address) (v : Int) : StateDB :=
  s.setAccount a { s.getOrNew a with balance := (s.getOrNew a).balance - v }

/-- Modelled from the spec: the refund counter read by `refundGas`. -/
def GetRefund (s : StateDB) : Nat :=
  s.refund

/-- Modelled from the spec: `prepare(tx_hash, block_hash, tx_index)`. -/
def Prepare (s : StateDB) (thash bhash : Hash) (ti : Nat) : StateDB :=
  { s with thash := thash, bhash := bhash, txIndex := ti }

/-- Modelled from the spec: `get_logs(tx_hash)`. -/
def GetLogs (s : StateDB) (h : Hash) : List Log :=
  s.logs h

end StateDB

/-- The fields of `transaction.Transaction` that the state transition reads. `hash` is the value
of `Hash()` and `sender` the result of `From(params.TempChainId)` (`none` when the signature
recovery returns an error); both are computed by the `crypto` package, which is not among the
sources. -/
structure Transaction where
  hash : Hash
  toAddress : Address
  nonce : Nat
  amount : Int
  data : List Byte
  gas : Nat
  gasPrice : Int
  sender : Option Address
  deriving DecidableEq

/-- The integer fields of a transaction fit their Go type `uint64`. -/
def Transaction.WellFormed (tx : Transaction) : Prop :=
  tx.nonce < uint64Size ∧ tx.gas < uint64Size

instance (tx : Transaction) : Decidable tx.WellFormed := by
  unfold Transaction.WellFormed; infer_instance

/-- The struct `block.BlockHeader` (`Core/block/block_header.go`); `Bloom` is `none` for a nil
pointer. -/
structure BlockHeader where
  Height : Nat
  ParentHash : Hash
  StateRoot : Hash
  TransactionsRoot : Hash
  ReceiptRoot : Hash
  UncleHash : Hash
  Bloom : Option Int
  Timestamp : Nat
  Prevrandao : Hash
  Proposer : Address
  Signature : List Byte
  ExtraData : List Byte
  GasUsed : Nat
  deriving DecidableEq

/-- The EVM context built by `evm.NewEVMContext(from, tx.GasPrice(), header, bc, *author)`. -/
structure EVMContext where
  Origin : Address
  GasPrice : Int
  Coinbase : Address
  Header : BlockHeader

/-- What `vm.Call` and `vm.Create` return: the output, the created address (`Create` only), the
gas left over, the VM error, and the state DB as the VM left it. -/
structure VMResult where
  ret : List Byte
  contractAddr : Address
  leftOverGas : Nat
  err : Option Error
  state : StateDB

/-- Modelled from the spec: the collaborators that are not among the sources: the EVM interpreter
(`vm.Call`, `vm.Create` of the `evm` package, "a standard Ethereum-compatible interpreter"),
`statedb.Finalise(true)`, `crypto.CreateAddress`, `crypto.Keccak256`, and the constant
`params.TempGasLimit` returned by `Block.GasLimit()`. -/
structure Host where
  Call : EVMContext → StateDB → Address → Address → List Byte → Nat → Int → VMResult
  Create : EVMContext → StateDB → Address → List Byte → Nat → Int → VMResult
  Finalise : StateDB → StateDB
  CreateAddress : Address → Nat → Address
  Keccak256 : List Byte → List Byte
  TempGasLimit : Nat

/-- Modelled from the spec: `GasPool.SubGas`: "subtract `tx.gas_limit` from the block gas pool
(fail `GasLimitReached` on underflow)" (the `gas_pool` package is not among the sources). -/
def SubGas (gp amount : Nat) : Option Nat :=
  if gp < amount then none else some (gp - amount)

/-- Modelled from the spec: `GasPool.AddGas`: "add the remaining gas back to the block gas pool",
a `uint64` addition. -/
def AddGas (gp amount : Nat) : Nat :=
  (gp + amount) % uint64Size

/-! ## The state transition (`state_transition.go`) -/

/-- The mutable fields of the struct `StateTransition`; the transaction and the EVM context do
not change and are passed as arguments. `NewStateTransition` leaves `gas` and `initialGas` zero. -/
structure StateTransition where
  gp : Nat
  gas : Nat
  initialGas : Nat
  state : StateDB

/-- The function `NewStateTransition(evm, tx, gp)` for the state DB of `evm`. -/
def NewStateTransition (statedb : StateDB) (gp : Nat) : StateTransition :=
  { gp := gp, gas := 0, initialGas := 0, state := statedb }

namespace StateTransition

/-- The method `from` (a reserved word here, hence `sender`): the sender recovered from the transaction (the recovery error is dropped,
leaving the zero address), whose account is created when it does not exist. -/
def sender (tx : Transaction) (st : StateTransition) : Address × StateTransition :=
  let f := tx.sender.getD zeroAddress
  if !st.state.Exist f then (f, { st with state := st.state.CreateAccount f }) else (f, st)

/-- The method `to` (a reserved word here, hence `recipient`): the recipient, whose account is created when it does not exist; the zero
address for a contract creation. -/
def recipient (tx : Transaction) (st : StateTransition) : Address × StateTransition :=
  if tx.toAddress = zeroAddress then (zeroAddress, st)
  else if !st.state.Exist tx.toAddress then
    (tx.toAddress, { st with state := st.state.CreateAccount tx.toAddress })
  else (tx.toAddress, st)

/-- The method `useGas`. -/
def useGas (st : StateTransition) (amount : Nat) : Option Error × StateTransition :=
  if st.gas < amount then (some Error.ErrOutOfGas, st)
  else (none, { st with gas := st.gas - amount })

/-- The method `buyGas`. -/
def buyGas (tx : Transaction) (st : StateTransition) : Option Error × StateTransition :=
  let (sender, st1) := st.sender tx
  let mgval : Int := (tx.gas : Int) * tx.gasPrice
  if st1.state.GetBalance sender < mgval then (some Error.ErrInsufficientBalanceForGas, st1)
  else
    match SubGas st1.gp tx.gas with
    | none => (some Error.ErrGasLimitReached, st1)
    | some gp1 =>
      (none, { gp := gp1, gas := (st1.gas + tx.gas) % uint64Size, initialGas := tx.gas,
               state := st1.state.SubBalance sender mgval })

/-- The method `preCheck`. -/
def preCheck (tx : Transaction) (st : StateTransition) : Option Error × StateTransition :=
  let (sender, st1) := st.sender tx
  let nonce := st1.state.GetNonce sender
  if nonce < tx.nonce then (some Error.ErrNonceTooHigh, st1)
  else if nonce > tx.nonce then (some Error.ErrNonceTooLow, st1)
  else st1.buyGas tx

/-- The method `gasUsed`: the `uint64` difference `st.initialGas - st.gas`. -/
def gasUsed (st : StateTransition) : Nat :=
  (st.initialGas + uint64Size - st.gas % uint64Size) % uint64Size

/-- The method `refundGas`. -/
def refundGas (tx : Transaction) (st : StateTransition) : StateTransition :=
  let refund0 := st.gasUsed / 2
  let refund := if refund0 > st.state.GetRefund then st.state.GetRefund else refund0
  let st1 := { st with gas := (st.gas + refund) % uint64Size }
  let (sender, st2) := st1.sender tx
  let remaining : Int := (st2.gas : Int) * tx.gasPrice
  let st3 := { st2 with state := st2.state.AddBalance sender remaining }
  { st3 with gp := AddGas st3.gp st3.gas }

end StateTransition

/-- What `TransitionDb` returns (`ret`, `usedGas`, `failed`, `err`), together with the state DB
and the block gas pool as the call left them. -/
structure TransitionResult where
  ret : List Byte
  usedGas : Nat
  failed : Bool
  err : Option Error
  state : StateDB
  gp : Nat

/-- The recipient address and the state transition that `TransitionDb` hands to `vm.Call`: the
sender nonce has been incremented (a `uint64` increment) and the recipient account created if
need be (`st.to()`). -/
def StateTransition.callInput (tx : Transaction) (sender : Address) (st : StateTransition) :
    Address × StateTransition :=
  let nonce1 := (st.state.GetNonce sender + 1) % uint64Size
  let st1 := { st with state := st.state.SetNonce sender nonce1 }
  st1.recipient tx

/-- The call of the virtual machine inside `TransitionDb`, on the state transition `st` that has
paid the intrinsic gas: `vm.Create` for a contract creation; otherwise the sender nonce is
incremented, the recipient account is created if need be, and `vm.Call` runs. -/
def runVM (host : Host) (ctx : EVMContext) (tx : Transaction) (sender : Address)
    (st : StateTransition) : VMResult :=
  if tx.toAddress = zeroAddress then
    host.Create ctx st.state sender tx.data st.gas tx.amount
  else
    let (toAddr, st2) := st.callInput tx sender
    host.Call ctx st2.state sender toAddr tx.data st2.gas tx.amount

/-- The method `TransitionDb`. The error of `IntrinsicGas` is overwritten by the result of
`useGas`, as in the source (`gas, err := IntrinsicGas(...)` followed by
`if err = st.useGas(gas); err != nil`). -/
def TransitionDb (host : Host) (ctx : EVMContext) (tx : Transaction)
    (st0 : StateTransition) : TransitionResult :=
  match st0.preCheck tx with
  | (some e, st) =>
    { ret := [], usedGas := 0, failed := false, err := some e, state := st.state, gp := st.gp }
  | (none, st1) =>
    let (sender, st2) := st1.sender tx
    let gas := (IntrinsicGas tx.data (tx.toAddress == zeroAddress)).1
    match st2.useGas gas with
    | (some e, st3) =>
      { ret := [], usedGas := 0, failed := false, err := some e, state := st3.state, gp := st3.gp }
    | (none, st3) =>
      let r := runVM host ctx tx sender st3
      let st4 : StateTransition := { st3 with gas := r.leftOverGas, state := r.state }
      if r.err = some Error.ErrInsufficientBalance then
        { ret := [], usedGas := 0, failed := false, err := r.err, state := st4.state,
          gp := st4.gp }
      else
        let st5 := st4.refundGas tx
        let fee : Int := (st5.gasUsed : Int) * tx.gasPrice
        let st6 := { st5 with state := st5.state.AddBalance ctx.Coinbase fee }
        { ret := r.ret, usedGas := st6.gasUsed, failed := r.err.isSome, err := none,
          state := st6.state, gp := st6.gp }

/-- The function `ApplyMessage`. -/
def ApplyMessage (host : Host) (ctx : EVMContext) (statedb : StateDB) (tx : Transaction)
    (gp : Nat) : TransitionResult :=
  TransitionDb host ctx tx (NewStateTransition statedb gp)

/-! ## Receipts and blooms (`receipt.go`, `bloom.go`) -/

/-- The struct `receipt.Receipt`. `LogsBloom` holds the 256 bytes of the bloom, read as a
big-endian number. -/
structure Receipt where
  TxHash : Hash
  PostState : Hash
  BlockHash : Hash
  BlockNumber : Nat
  TxIndex : Nat
  From : Address
  To : Address
  Amount : Int
  CumulativeGasUsed : Nat
  GasUsed : Nat
  ContractAddress : Address
  Logs : List Log
  LogsBloom : Nat
  Status : Nat

/-- The constant `RECEIP_STATUS_SUCCESS`. -/
def RECEIP_STATUS_SUCCESS : Nat := 1

/-- The constant `RECEIP_STATUS_REVERT`. -/
def RECEIP_STATUS_REVERT : Nat := 2

/-- The function `boolToUint32`. -/
def boolToUint32 (ok : Bool) : Nat :=
  if ok then 1 else 0

/-- The conversion `common.BytesToHash`: the bytes read big-endian, keeping the last 32. -/
def BytesToHash (b : List Byte) : Hash :=
  (b.foldl (fun n x => n * 256 + x.val) 0) % 2 ^ 256

/-- The function `NewReceipt`; the fields it does not set are zero. -/
def NewReceipt (postState : List Byte) (failed : Bool) (cumulativeGasUsed : Nat) : Receipt :=
  { TxHash := 0, PostState := BytesToHash postState, BlockHash := 0, BlockNumber := 0,
    TxIndex := 0, From := 0, To := 0, Amount := 0, CumulativeGasUsed := cumulativeGasUsed,
    GasUsed := 0, ContractAddress := zeroAddress, Logs := [], LogsBloom := 0,
    Status := boolToUint32 (!failed) }

/-- The `len` bytes of `n`, big-endian (`Address.Bytes()` for `len = 20`, `Hash.Bytes()` for
`len = 32`). -/
def bytesBE (len n : Nat) : List Byte :=
  (List.range len).map (fun i => Fin.ofNat (n / 256 ^ (len - 1 - i)))

/-- The function `bloom9`, over the Keccak-256 function of the `crypto` package. -/
def bloom9 (keccak : List Byte → List Byte) (b : List Byte) : Nat :=
  let h := keccak b
  ([0, 2, 4] : List Nat).foldl
    (fun r i => r ||| (1 <<< (((h.getD (i + 1) 0).val + ((h.getD i 0).val <<< 8)) &&& 2047))) 0

/-- The function `LogsBloom`. -/
def LogsBloom (keccak : List Byte → List Byte) (logs : List Log) : Nat :=
  logs.foldl
    (fun bin log =>
      log.Topics.foldl (fun bin1 b => bin1 ||| bloom9 keccak (bytesBE 32 b))
        (bin ||| bloom9 keccak (bytesBE 20 log.Address)))
    0

/-- The function `CreateBloom`: the 256-byte array is represented by the number it holds
big-endian, so `BytesToBloom(bin.Bytes())` is `bin` (every bit set by `bloom9` is below 2048). -/
def CreateBloom (keccak : List Byte → List Byte) (receipts : List Receipt) : Nat :=
  receipts.foldl (fun bin receipt => bin ||| LogsBloom keccak receipt.Logs) 0

/-! ## Applying transactions and processing blocks (`state_processor.go`) -/

/-- What `ApplyTransaction` returns and leaves behind: on an error `(nil, 0, err)`, with the
state DB and the gas pool as the call left them (`*usedGas` is untouched); on success
`(rc, gas, nil)`, with the state DB, the gas pool and `*usedGas` after the call. -/
inductive ApplyResult where
  | failure (err : Error) (statedb : StateDB) (gp : Nat)
  | success (rc : Receipt) (gas : Nat) (statedb : StateDB) (gp : Nat) (usedGas : Nat)

/-- The function `evm.NewEVMContext(from, tx.GasPrice(), header, bc, *author)`. -/
def NewEVMContext (sender : Address) (gasPrice : Int) (header : BlockHeader)
    (author : Address) : EVMContext :=
  { Origin := sender, GasPrice := gasPrice, Coinbase := author, Header := header }

/-- The receipt that `ApplyTransaction` builds once `ApplyMessage` has returned without error:
`failed` and `gas` are what `ApplyMessage` returned, `usedGas1` is `*usedGas` after the
addition, `statedb1` the state DB after `Finalise`, `origin` is `vmenv.Context.Origin`. -/
def makeReceipt (host : Host) (tx : Transaction) (origin : Address) (failed : Bool)
    (gas usedGas1 : Nat) (statedb1 : StateDB) : Receipt :=
  let rc0 := NewReceipt [] failed usedGas1
  let rc1 := { rc0 with TxHash := tx.hash, GasUsed := gas }
  let rc2 :=
    if tx.toAddress = zeroAddress then
      { rc1 with ContractAddress := host.CreateAddress origin tx.nonce }
    else rc1
  let rc3 := { rc2 with Logs := statedb1.GetLogs tx.hash }
  { rc3 with LogsBloom := CreateBloom host.Keccak256 [rc3] }

/-- The function `ApplyTransaction`; `author` is `*author`, `usedGas` is `*usedGas`. -/
def ApplyTransaction (host : Host) (author : Address) (gp : Nat) (statedb : StateDB)
    (header : BlockHeader) (tx : Transaction) (usedGas : Nat) : ApplyResult :=
  match tx.sender with
  | none => ApplyResult.failure Error.ErrNotSigned statedb gp
  | some sender =>
    let context := NewEVMContext sender tx.gasPrice header author
    let r := ApplyMessage host context statedb tx gp
    match r.err with
    | some e => ApplyResult.failure e r.state r.gp
    | none =>
      let statedb1 := host.Finalise r.state
      let usedGas1 := (usedGas + r.usedGas) % uint64Size
      ApplyResult.success (makeReceipt host tx context.Origin r.failed r.usedGas usedGas1 statedb1)
        r.usedGas statedb1 r.gp usedGas1

/-- The receipt that `ApplyTransaction` returned, if any. -/
def ApplyResult.receipt : ApplyResult → Option Receipt
  | ApplyResult.failure _ _ _ => none
  | ApplyResult.success rc _ _ _ _ => some rc

/-- The error that `ApplyTransaction` returned, if any. -/
def ApplyResult.err : ApplyResult → Option Error
  | ApplyResult.failure e _ _ => some e
  | ApplyResult.success _ _ _ _ _ => none

/-- The struct `block.Block`. -/
structure Block where
  Header : BlockHeader
  Transactions : List Transaction
  Uncles : List BlockHeader

/-- What `Process` returns (`receipts`, `allLogs`, `*usedGas`, `err`), and the state DB as the
call left it. -/
structure ProcessResult where
  receipts : List Receipt
  logs : List Log
  usedGas : Nat
  err : Option Error
  statedb : StateDB

/-- The loop of `Process` over the transactions that remain, `i` being the index of the next
one. -/
def Process.loop (host : Host) (header : BlockHeader) :
    List Transaction → Nat → List Receipt → List Log → Nat → Nat → StateDB → ProcessResult
  | [], _, receipts, allLogs, usedGas, _, statedb =>
    { receipts := receipts, logs := allLogs, usedGas := usedGas, err := none,
      statedb := statedb }
  | tx :: rest, i, receipts, allLogs, usedGas, gp, statedb =>
    match ApplyTransaction host header.Proposer gp
        (statedb.Prepare tx.hash header.ParentHash i) header tx usedGas with
    | ApplyResult.failure e statedb1 _ =>
      { receipts := [], logs := [], usedGas := 0, err := some e, statedb := statedb1 }
    | ApplyResult.success rc _ statedb1 gp1 usedGas1 =>
      Process.loop host header rest (i + 1) (receipts ++ [rc]) (allLogs ++ rc.Logs) usedGas1
        gp1 statedb1

/-- The method `StateProcessor.Process`; the gas pool starts at `block.GasLimit()`, which is
`params.TempGasLimit`. -/
def Process (host : Host) (block : Block) (statedb : StateDB) : ProcessResult :=
  Process.loop host block.Header block.Transactions 0 [] [] 0 (AddGas 0 host.TempGasLimit)
    statedb

/-- The run of `ApplyTransaction` over the transactions of a block, as `Process` makes it: the
receipt and the gas used that each call returns, up to the first error, and that error. -/
def applyAll (host : Host) (header : BlockHeader) :
    List Transaction → Nat → Nat → Nat → StateDB → List (Receipt × Nat) × Option Error
  | [], _, _, _, _ => ([], none)
  | tx :: rest, i, usedGas, gp, statedb =>
    match ApplyTransaction host header.Proposer gp
        (statedb.Prepare tx.hash header.ParentHash i) header tx usedGas with
    | ApplyResult.failure e _ _ => ([], some e)
    | ApplyResult.success rc gas statedb1 gp1 usedGas1 =>
      ((rc, gas) :: (applyAll host header rest (i + 1) usedGas1 gp1 statedb1).1,
        (applyAll host header rest (i + 1) usedGas1 gp1 statedb1).2)

/-- The running totals `acc + g_0`, `acc + g_0 + g_1`, ... of a list of gas amounts. -/
def runningTotals : Nat → List Nat → List Nat
  | _, [] => []
  | acc, g :: gs => (acc + g) :: runningTotals (acc + g) gs

/-- The virtual machine returns no more gas than it is given. -/
def Host.GasSound (host : Host) : Prop :=
  (∀ ctx st caller addr input gas value,
    (host.Call ctx st caller addr input gas value).leftOverGas ≤ gas) ∧
  (∀ ctx st caller code gas value,
    (host.Create ctx st caller code gas value).leftOverGas ≤ gas)

/-! ## Proposer schedule (`proposer_schedule.go`) -/

/-- The local struct `authority` of `UpdateSchedule`. -/
structure Authority where
  address : Address
  weight : Int

/-- The struct `ProposerSchedule`: the map from block height to proposer. -/
structure ProposerSchedule where
  schedule : Nat → Option Address

/-- The method `GetProposer`: the proposer and no error, or the zero address and an error. -/
def GetProposer (ps : ProposerSchedule) (blockHeight : Nat) : Address × Option Error :=
  match ps.schedule blockHeight with
  | some proposer => (proposer, none)
  | none => (zeroAddress, some (Error.ErrNoProposer blockHeight))

/-- The value `assignedBlocks.Uint64()` computed in the inner loop of `UpdateSchedule`:
`weight * TempEpochLength / totalWeight` in `big.Int` (Euclidean division), then the low 64 bits
of its absolute value; `none` stands for the run-time panic of `Div` on a zero divisor. -/
def assignedBlocks (epochLength : Nat) (weight totalWeight : Int) : Option Nat :=
  if totalWeight = 0 then none
  else some (Int.natAbs (weight * (epochLength : Int) / totalWeight) % uint64Size)

/-- The inner loop of `UpdateSchedule` for one height: the first authority, in sorted order,
that has been assigned fewer blocks than its share (`some none` when there is none, `none` for
the panic). -/
def selectAuthority (epochLength : Nat) (totalWeight : Int) (authoritiesAssigned : Address → Nat) :
    List Authority → Option (Option Address)
  | [] => some none
  | auth :: rest =>
    match assignedBlocks epochLength auth.weight totalWeight with
    | none => none
    | some q =>
      if authoritiesAssigned auth.address < q then some (some auth.address)
      else selectAuthority epochLength totalWeight authoritiesAssigned rest

/-- The outer loop of `UpdateSchedule` over the heights that remain; the counter of the selected
authority is a `uint64`. -/
def assignHeights (epochLength : Nat) (totalWeight : Int) (sortedAuthorities : List Authority) :
    List Nat → (Nat → Option Address) → (Address → Nat) → Option (Nat → Option Address)
  | [], schedule, _ => some schedule
  | blockHeight :: rest, schedule, authoritiesAssigned =>
    match selectAuthority epochLength totalWeight authoritiesAssigned sortedAuthorities with
    | none => none
    | some none =>
      assignHeights epochLength totalWeight sortedAuthorities rest schedule authoritiesAssigned
    | some (some a) =>
      assignHeights epochLength totalWeight sortedAuthorities rest
        (fun k => if k = blockHeight then some a else schedule k)
        (fun b => if b = a then (authoritiesAssigned a + 1) % uint64Size
          else authoritiesAssigned b)

/-- The authorities in the order of `sort.SliceStable` with `less(i, j)` being
`weight_i > weight_j`: descending weight, equal weights in their order of enumeration. -/
def sortAuthorities (l : List Authority) : List Authority :=
  l.insertionSort (fun a b => a.weight ≥ b.weight)

/-- The heights that the loop `for blockHeight := fromBlock; blockHeight <
fromBlock+TempEpochLength; blockHeight++` visits, the bound being a `uint64` sum. -/
def scheduleHeights (epochLength fromBlock : Nat) : List Nat :=
  List.range' fromBlock ((fromBlock + epochLength) % uint64Size - fromBlock)

/-- The method `UpdateSchedule` on a new schedule, for `params.TempEpochLength = epochLength`
(the constant is not among the sources) and the validator map enumerated as the list
`authoritiesWithWeight` of its entries (a Go map: the addresses are distinct, the order is that
in which `range` happens to visit them). The result is the schedule left in `ps` (the returned
error is always nil), or `none` for a run-time panic. The two Keccak hashes that the source
computes from the salt, the total weight and the height are never read, so they are left out. -/
def UpdateSchedule (epochLength : Nat) (_salt : List Byte) (fromBlock : Nat)
    (authoritiesWithWeight : List (Address × Int)) : Option ProposerSchedule :=
  let sortedAuthorities := sortAuthorities
    (authoritiesWithWeight.map (fun p => { address := p.1, weight := p.2 }))
  let totalWeight := (sortedAuthorities.map (fun auth => auth.weight)).foldl (· + ·) 0
  (assignHeights epochLength totalWeight sortedAuthorities
    (scheduleHeights epochLength fromBlock) (fun _ => none) (fun _ => 0)).map
    (fun schedule => { schedule := schedule })

/-- The share of an authority as the inner loop computes it when the total weight is not
zero. -/
def quotaOf (epochLength : Nat) (totalWeight : Int) (auth : Authority) : Nat :=
  Int.natAbs (auth.weight * (epochLength : Int) / totalWeight) % uint64Size

/-- The number of blocks that the authorities of `l` are still owed: the sum of
`quota - assigned`. -/
def deficit (epochLength : Nat) (totalWeight : Int) (l : List Authority)
    (assigned : Address → Nat) : Nat :=
  (l.map (fun auth => quotaOf epochLength totalWeight auth - assigned auth.address)).sum

/-- The counters after one more block has been assigned to `a`. -/
def bump (assigned : Address → Nat) (a : Address) : Address → Nat :=
  fun b => if b = a then (assigned a + 1) % uint64Size else assigned b

/-- The number of heights in `[fromBlock, fromBlock + epochLength)` that the schedule gives to
the validator `v`. -/
def heightsOf (ps : ProposerSchedule) (epochLength fromBlock : Nat) (v : Address) : Nat :=
  (List.range' fromBlock epochLength).countP (fun h => ps.schedule h == some v)

/-- The quota of the claim: `floor(weight * EPOCH_LENGTH / sum of all weights)`. -/
def floorQuota (epochLength : Nat) (validators : List (Address × Int)) (weight : Int) : Nat :=
  Int.toNat (weight * (epochLength : Int) / (validators.map Prod.snd).sum)

/-- The sum of the quotas of the claim over all validators. -/
def quotaSum (epochLength : Nat) (validators : List (Address × Int)) : Nat :=
  (validators.map (fun p => floorQuota epochLength validators p.2)).sum

/-- A validator map with two validators of equal weight, enumerated with `1` first. -/
def tiedAuthorities : List (Address × Int) :=
  [(1, 100), (2, 100)]

/-- The validator map of `tiedAuthorities`, enumerated with `2` first. -/
def tiedAuthoritiesSwapped : List (Address × Int) :=
  [(2, 100), (1, 100)]

/-- The validators of the test `TestProposerSchedule`: `0xabc123` with weight 50, `0xdef456`
with weight 100 and `0x789012` with weight 200. -/
def testAuthorities : List (Address × Int) :=
  [(0xabc123, 50), (0xdef456, 100), (0x789012, 200)]

/-! ## Statement vocabulary and concrete inputs -/

/-- The state DB in which the account of `a` exists: unchanged when it already does, and with
a new empty account otherwise (the effect of the method `from`). -/
def StateDB.ensure (s : StateDB) (a : Address) : StateDB :=
  if s.Exist a then s else s.CreateAccount a

/-- Every balance, nonce, code and storage slot, the refund counter and the logs read the same
in `s` and `t`. -/
def StateDB.SameReads (s t : StateDB) : Prop :=
  (∀ a, s.GetBalance a = t.GetBalance a) ∧ (∀ a, s.GetNonce a = t.GetNonce a) ∧
  (∀ a, s.GetCode a = t.GetCode a) ∧ (∀ a k, s.GetState a k = t.GetState a k) ∧
  s.refund = t.refund ∧ s.logs = t.logs

/-- The state DB with no account. -/
def StateDB.init : StateDB :=
  { accounts := fun _ => none, refund := 0, thash := 0, bhash := 0, txIndex := 0,
    logs := fun _ => [] }

/-- A header with every field zero. -/
def BlockHeader.zero : BlockHeader :=
  { Height := 0, ParentHash := 0, StateRoot := 0, TransactionsRoot := 0, ReceiptRoot := 0,
    UncleHash := 0, Bloom := none, Timestamp := 0, Prevrandao := 0, Proposer := 0,
    Signature := [], ExtraData := [], GasUsed := 0 }

/-- A small interpreter on which the definitions can be evaluated: a call moves `value` from the
caller to the recipient and uses no gas (it fails with `ErrInsufficientBalance` when the caller
cannot pay); a creation increments the caller nonce, then reverts with all gas used when the
init code is empty, and otherwise stores the init code at the created address. -/
def simpleHost : Host where
  Call := fun _ s caller addr _ gas value =>
    if s.GetBalance caller < value then
      { ret := [], contractAddr := 0, leftOverGas := gas,
        err := some Error.ErrInsufficientBalance, state := s }
    else
      { ret := [], contractAddr := 0, leftOverGas := gas, err := none,
        state := (s.SubBalance caller value).AddBalance addr value }
  Create := fun _ s caller code gas value =>
    if s.GetBalance caller < value then
      { ret := [], contractAddr := 0, leftOverGas := gas,
        err := some Error.ErrInsufficientBalance, state := s }
    else
      let s1 := s.SetNonce caller (s.GetNonce caller + 1)
      if code = [] then
        { ret := [], contractAddr := 0, leftOverGas := 0,
          err := some Error.ErrExecutionReverted, state := s1 }
      else
        let addr := caller + s.GetNonce caller + 1
        { ret := code, contractAddr := addr, leftOverGas := gas, err := none,
          state := ((s1.SubBalance caller value).AddBalance addr value).setAccount addr
            { Account.empty with balance := value, nonce := 1, code := code } }
  Finalise := fun s => s
  CreateAddress := fun a n => a + n + 1
  Keccak256 := fun b => b
  TempGasLimit := 10000000

/-- The EVM context of a transaction from `origin` in a block proposed by `coinbase`. -/
def simpleCtx (origin coinbase : Address) (price : Int) : EVMContext :=
  { Origin := origin, GasPrice := price, Coinbase := coinbase, Header := BlockHeader.zero }

/-- A call transaction from address `1` to address `3`. -/
def callTx (nonce : Nat) (amount : Int) (gas : Nat) (price : Int) : Transaction :=
  { hash := 77, toAddress := 3, nonce := nonce, amount := amount, data := [], gas := gas,
    gasPrice := price, sender := some 1 }

/-- A contract creation from address `1` with the given init code. -/
def createTx (nonce : Nat) (code : List Byte) (gas : Nat) (price : Int) : Transaction :=
  { hash := 78, toAddress := zeroAddress, nonce := nonce, amount := 0, data := code, gas := gas,
    gasPrice := price, sender := some 1 }

/-- A block of two calls from address `1` (nonces `5` and `6`). -/
def twoCallBlock : Block :=
  { Header := { BlockHeader.zero with Proposer := 2 },
    Transactions := [callTx 5 10 30000 20, callTx 6 10 30000 20], Uncles := [] }

/-- A state DB in which only address `1` exists, with the given balance and nonce. -/
def fundedState (balance : Int) (nonce : Nat) : StateDB :=
  StateDB.init.setAccount 1 { Account.empty with balance := balance, nonce := nonce }

/-- The state transition on which `TransitionDb` invokes the virtual machine: after the
pre-check, the second call of `from` and the payment of the intrinsic gas. -/
def StateTransition.beforeVM (tx : Transaction) (st0 : StateTransition) : StateTransition :=
  (((st0.preCheck tx).2.sender tx).2.useGas
    (IntrinsicGas tx.data (tx.toAddress == zeroAddress)).1).2

/-- The result of the virtual machine call that `TransitionDb` makes. -/
def vmResult (host : Host) (ctx : EVMContext) (tx : Transaction) (st0 : StateTransition) :
    VMResult :=
  runVM host ctx tx ((st0.preCheck tx).2.sender tx).1 (st0.beforeVM tx)

/-- The refund of the claim: `min(state.refund_counter, (gas_limit - remaining) / 2)`, with the
refund counter read from the state that the virtual machine left. -/
def refundOf (tx : Transaction) (r : VMResult) : Nat :=
  min r.state.GetRefund ((tx.gas - r.leftOverGas) / 2)

/-! ## Transaction pool (`transaction_pool.go`) -/

/-- The struct `TransactionPool` (the mutex serialises the methods and is left out). -/
structure TransactionPool where
  transactions : List Transaction

/-- The function `NewTransactionPool`. -/
def NewTransactionPool : TransactionPool :=
  { transactions := [] }

/-- The key under which `GetPendingTransactions` files a transaction: the result of
`tx.From(params.TempChainId)`, which is the zero address when the recovery fails (the error is
only logged). -/
def senderKey (tx : Transaction) : Address :=
  tx.sender.getD zeroAddress

namespace TransactionPool

/-- The method `AddTransaction`: the returned error and the pool afterwards. -/
def AddTransaction (m : TransactionPool) (tx : Transaction) : Option Error × TransactionPool :=
  if m.transactions.any (fun existing => existing.hash == tx.hash) then
    (some Error.ErrAlreadyInMempool, m)
  else
    (none, { transactions := m.transactions ++ [tx] })

/-- The first loop of `GetPendingTransactions`: `grouped[from] = append(grouped[from], tx)` for
every pooled transaction in order; a key that is absent from the Go map has the empty list. -/
def grouped (txs : List Transaction) : Address → List Transaction :=
  txs.foldl
    (fun g tx => fun a => if a = senderKey tx then g (senderKey tx) ++ [tx] else g a)
    (fun _ => [])

/-- The method `GetPendingTransactions`. The library call `sort.Slice(sorted, less)` with
`less(i, j)` being `sorted[i].Nonce() < sorted[j].Nonce()` is the argument `sortSlice`: it is
not a stable sort, so the order among equal nonces is not fixed by the source. A key is in the
returned map exactly when its list is not empty. -/
def GetPendingTransactions (sortSlice : List Transaction → List Transaction)
    (m : TransactionPool) : Address → List Transaction :=
  fun a =>
    match grouped m.transactions a with
    | [] => []
    | tx :: rest => sortSlice (tx :: rest)

/-- The method `RemoveTransactions` (it always returns nil): the pool afterwards. -/
def RemoveTransactions (m : TransactionPool) (txs : List Transaction) : TransactionPool :=
  { transactions :=
      m.transactions.filter (fun tx => !(txs.any (fun r => r.hash == tx.hash))) }

/-- The method `Size`. -/
def Size (m : TransactionPool) : Nat :=
  m.transactions.length

/-- The method `Clear`. -/
def Clear (_m : TransactionPool) : TransactionPool :=
  { transactions := [] }

end TransactionPool

/-- A call of one of the mutating methods of the pool. -/
inductive PoolOp where
  | add (tx : Transaction)
  | remove (txs : List Transaction)
  | clear

/-- The pool after one call (the error of `AddTransaction` is dropped). -/
def PoolOp.apply (m : TransactionPool) : PoolOp → TransactionPool
  | PoolOp.add tx => (m.AddTransaction tx).2
  | PoolOp.remove txs => m.RemoveTransactions txs
  | PoolOp.clear => m.Clear

/-- The pool after a sequence of calls. -/
def runOps (ops : List PoolOp) (m : TransactionPool) : TransactionPool :=
  ops.foldl PoolOp.apply m

/-- The pool after `AddTransaction` has been called on each of `txs` in turn. -/
def addAll (txs : List Transaction) (m : TransactionPool) : TransactionPool :=
  txs.foldl (fun m1 tx => (m1.AddTransaction tx).2) m

/-- A sort by nonce with which `GetPendingTransactions` can be evaluated. -/
def sortByNonce (l : List Transaction) : List Transaction :=
  l.insertionSort (fun x y => x.nonce ≤ y.nonce)

/-- A transfer from address `1` with the given hash, nonce and amount. -/
def poolTx (hash nonce : Nat) (amount : Int) : Transaction :=
  { hash := hash, toAddress := 3, nonce := nonce, amount := amount, data := [], gas := 21000,
    gasPrice := 20, sender := some 1 }

/-! ## Encodings of headers, transactions and bodies (`block_header.go`,
`block_hash_data.go`, `transaction.go`, `block_body.go`) -/

/-- The bytes `x.Bytes()` of a `big.Int`: the absolute value, big-endian, without leading
zeros. -/
def bigBytes (x : Int) : List Byte :=
  (Nat.digits 256 x.natAbs).reverse.map (fun d => Fin.ofNat d)

/-- The number that `new(big.Int).SetBytes(b)` holds: the bytes read big-endian. -/
def setBytes (b : List Byte) : Int :=
  ((b.foldl (fun n x => n * 256 + x.val) 0 : Nat) : Int)

/-- The conversion `common.BytesToAddress`: the bytes read big-endian, keeping the last 20. -/
def BytesToAddress (b : List Byte) : Address :=
  (b.foldl (fun n x => n * 256 + x.val) 0) % 2 ^ 160

/-- The generated message `pb.BlockHeader`. -/
structure PbBlockHeader where
  Height : Nat
  ParentHash : List Byte
  StateRoot : List Byte
  TransactionsRoot : List Byte
  ReceiptRoot : List Byte
  Timestamp : Nat
  Prevrandao : List Byte
  Proposer : List Byte
  Signature : List Byte
  GasUsed : Nat
  ExtraData : List Byte
  UncleHash : List Byte
  Bloom : List Byte
  deriving DecidableEq

/-- The generated message `pb.BlockHashData`. -/
structure PbBlockHashData where
  Height : Nat
  ParentHash : List Byte
  StateRoot : List Byte
  TransactionsRoot : List Byte
  ReceiptRoot : List Byte
  Timestamp : Nat
  Prevrandao : List Byte
  Proposer : List Byte
  GasUsed : Nat
  ExtraData : List Byte
  UncleHash : List Byte
  Bloom : List Byte
  deriving DecidableEq

/-- The struct `BlockHashData` (`block_hash_data.go`). -/
structure BlockHashData where
  Height : Nat
  ParentHash : Hash
  StateRoot : Hash
  TransactionsRoot : Hash
  ReceiptRoot : Hash
  UncleHash : Hash
  Bloom : Int
  Timestamp : Nat
  Prevrandao : Hash
  Proposer : Address
  ExtraData : List Byte
  deriving DecidableEq

/-- The method `BlockHeader.Proto`: the message (its field `GasUsed` is not set); a nil `Bloom`
is replaced by zero first. -/
def BlockHeader.Proto (h : BlockHeader) : PbBlockHeader :=
  { Height := h.Height,
    ParentHash := bytesBE 32 h.ParentHash,
    StateRoot := bytesBE 32 h.StateRoot,
    TransactionsRoot := bytesBE 32 h.TransactionsRoot,
    ReceiptRoot := bytesBE 32 h.ReceiptRoot,
    UncleHash := bytesBE 32 h.UncleHash,
    Bloom := bigBytes (h.Bloom.getD 0),
    Timestamp := h.Timestamp,
    Prevrandao := bytesBE 32 h.Prevrandao,
    Proposer := bytesBE 20 h.Proposer,
    Signature := h.Signature,
    ExtraData := h.ExtraData,
    GasUsed := 0 }

/-- The method `BlockHeader.FromProto` on the receiver `h`: the fields it does not assign keep
their value. -/
def BlockHeader.FromProto (h : BlockHeader) (pbHeader : PbBlockHeader) : BlockHeader :=
  { h with
    Height := pbHeader.Height,
    ParentHash := BytesToHash pbHeader.ParentHash,
    StateRoot := BytesToHash pbHeader.StateRoot,
    TransactionsRoot := BytesToHash pbHeader.TransactionsRoot,
    ReceiptRoot := BytesToHash pbHeader.ReceiptRoot,
    UncleHash := BytesToHash pbHeader.UncleHash,
    Bloom := some (setBytes pbHeader.Bloom),
    Timestamp := pbHeader.Timestamp,
    Prevrandao := BytesToHash pbHeader.Prevrandao,
    Proposer := BytesToAddress pbHeader.Proposer,
    Signature := pbHeader.Signature,
    ExtraData := pbHeader.ExtraData }

/-- Decoding into a new header, `u := &BlockHeader\x7b\x7d; u.FromProto(pb)`. -/
def decodeHeader (pbHeader : PbBlockHeader) : BlockHeader :=
  BlockHeader.zero.FromProto pbHeader

/-- The method `BlockHeader.ToHashData`. -/
def BlockHeader.ToHashData (h : BlockHeader) : BlockHashData :=
  { Height := h.Height,
    ParentHash := h.ParentHash,
    StateRoot := h.StateRoot,
    TransactionsRoot := h.TransactionsRoot,
    ReceiptRoot := h.ReceiptRoot,
    UncleHash := h.UncleHash,
    Bloom := h.Bloom.getD 0,
    Timestamp := h.Timestamp,
    Prevrandao := h.Prevrandao,
    Proposer := h.Proposer,
    ExtraData := h.ExtraData }

/-- The method `BlockHashData.Proto`: the message (its field `GasUsed` is not set). -/
def BlockHashData.Proto (h : BlockHashData) : PbBlockHashData :=
  { Height := h.Height,
    ParentHash := bytesBE 32 h.ParentHash,
    StateRoot := bytesBE 32 h.StateRoot,
    TransactionsRoot := bytesBE 32 h.TransactionsRoot,
    ReceiptRoot := bytesBE 32 h.ReceiptRoot,
    UncleHash := bytesBE 32 h.UncleHash,
    Bloom := bigBytes h.Bloom,
    Timestamp := h.Timestamp,
    Prevrandao := bytesBE 32 h.Prevrandao,
    Proposer := bytesBE 20 h.Proposer,
    ExtraData := h.ExtraData,
    GasUsed := 0 }

/-- The method `BlockHeader.Hash`: `crypto.Keccak256Hash(proto.Marshal(...))` of the hash data,
over the Keccak-256 function and the protobuf wire encoding, which are not among the sources. -/
def BlockHeader.Hash (keccak : List Byte → List Byte) (marshal : PbBlockHashData → List Byte)
    (h : BlockHeader) : Hash :=
  BytesToHash (keccak (marshal h.ToHashData.Proto))

/-- A header with a zero bloom and the given `GasUsed`, all other fields zero. -/
def headerWithGas (gasUsed : Nat) : BlockHeader :=
  { BlockHeader.zero with Bloom := some 0, GasUsed := gasUsed }

/-- The generated message `pb.Transaction`. -/
structure PbTransaction where
  ToAddress : List Byte
  Nonce : Nat
  Amount : List Byte
  Data : List Byte
  Gas : Nat
  GasPrice : List Byte
  Message : List Byte
  Sign : List Byte
  Hash : List Byte
  deriving DecidableEq

/-- The generated message `pb.TransactionHashData`. -/
structure PbTransactionHashData where
  ToAddress : List Byte
  Nonce : Nat
  Amount : List Byte
  Data : List Byte
  Gas : Nat
  GasPrice : List Byte
  Message : List Byte
  Sign : List Byte
  deriving DecidableEq

/-- The type `types.Sign`, an array of 65 bytes: the zero value `Sign\x7b\x7d`. -/
def zeroSign : List Byte :=
  List.replicate 65 0

/-- The function `types.SignFromBytes`: the first 65 bytes, padded with zeros. -/
def SignFromBytes (b : List Byte) : List Byte :=
  (b ++ List.replicate 65 0).take 65

namespace transaction

/-- The struct `transaction.Transaction` with all its fields; `hash` is the cache filled by
`Hash()` (zero when empty), `message` the bytes of the string. -/
structure Transaction where
  hash : Hash
  toAddress : Address
  nonce : Nat
  amount : Int
  data : List Byte
  gas : Nat
  gasPrice : Int
  message : List Byte
  sign : List Byte
  deriving DecidableEq

/-- The function `NewTransaction`: no hash, no signature. -/
def NewTransaction (toAddress : Address) (nonce : Nat) (amount : Int) (data : List Byte)
    (gas : Nat) (gasPrice : Int) (message : List Byte) : Transaction :=
  { hash := 0, toAddress := toAddress, nonce := nonce, amount := amount, data := data,
    gas := gas, gasPrice := gasPrice, message := message, sign := zeroSign }

/-- The message that `calculateHash` marshals: the current fields of the transaction. -/
def Transaction.hashData (t : Transaction) : PbTransactionHashData :=
  { ToAddress := bytesBE 20 t.toAddress, Nonce := t.nonce, Amount := bigBytes t.amount,
    Data := t.data, Gas := t.gas, GasPrice := bigBytes t.gasPrice, Message := t.message,
    Sign := t.sign }

/-- The method `calculateHash`; `keccakHash` is `crypto.Keccak256Hash` of `proto.Marshal` of the
message (neither is among the sources). -/
def Transaction.calculateHash (keccakHash : PbTransactionHashData → Hash) (t : Transaction) :
    Hash :=
  keccakHash t.hashData

/-- The method `Hash`: the returned hash and the transaction afterwards (the cache is filled
when it was empty). -/
def Transaction.Hash (keccakHash : PbTransactionHashData → Hash) (t : Transaction) :
    Hash × Transaction :=
  if t.hash = 0 then
    (t.calculateHash keccakHash, { t with hash := t.calculateHash keccakHash })
  else (t.hash, t)

/-- The method `SetSign`. -/
def Transaction.SetSign (t : Transaction) (sign : List Byte) : Transaction :=
  { t with sign := sign }

/-- The method `Proto`. -/
def Transaction.Proto (t : Transaction) : PbTransaction :=
  { ToAddress := bytesBE 20 t.toAddress, Nonce := t.nonce, Amount := bigBytes t.amount,
    Data := t.data, Gas := t.gas, GasPrice := bigBytes t.gasPrice, Message := t.message,
    Sign := t.sign, Hash := bytesBE 32 t.hash }

/-- The method `FromProto`, on a new transaction. -/
def FromProto (pbTx : PbTransaction) : Transaction :=
  { toAddress := BytesToAddress pbTx.ToAddress, nonce := pbTx.Nonce,
    amount := setBytes pbTx.Amount, data := pbTx.Data, gas := pbTx.Gas,
    gasPrice := setBytes pbTx.GasPrice, message := pbTx.Message,
    sign := SignFromBytes pbTx.Sign, hash := BytesToHash pbTx.Hash }

end transaction

/-- A stand-in for `Keccak256Hash` of the wire encoding with which `Hash()` can be evaluated:
it tells apart messages that differ in nonce or signature. -/
def sampleHash (d : PbTransactionHashData) : Hash :=
  1 + d.Nonce + d.Sign.foldl (fun n x => n * 256 + x.val) 0

/-- The transaction that the command-line client builds before signing it. -/
def unsignedTx : transaction.Transaction :=
  transaction.NewTransaction 3 5 10 [] 21000 20 []

/-- A signature. -/
def sampleSign : List Byte :=
  List.replicate 64 0 ++ [7]

/-- A wire message for a transaction with nonce `5` that claims the hash `1`. -/
def wireTx (nonce : Nat) : PbTransaction :=
  { ToAddress := bytesBE 20 3, Nonce := nonce, Amount := [10], Data := [], Gas := 21000,
    GasPrice := [20], Message := [], Sign := sampleSign, Hash := [1] }

/-- The struct `block.Body`. -/
structure Body where
  Transactions : List transaction.Transaction
  Uncles : List BlockHeader
  deriving DecidableEq

/-- The generated message `pb.Body`; an element of `Uncles` is a pointer, `none` when nil. -/
structure PbBody where
  Txns : List PbTransaction
  Uncles : List (Option PbBlockHeader)
  deriving DecidableEq

/-- The method `Body.Proto`: `pbUncles` is made with the length of `b.Uncles` and never
filled, so all its elements are nil. -/
def Body.Proto (b : Body) : PbBody :=
  { Txns := b.Transactions.map (fun tx => tx.Proto),
    Uncles := List.replicate b.Uncles.length none }

/-- The loop of `Body.FromProto` over the uncles; `none` stands for the run-time panic of
`u.FromProto(pbU)` on a nil `pbU` (it reads `pbHeader.Height`). -/
def decodeUncles : List (Option PbBlockHeader) → Option (List BlockHeader)
  | [] => some []
  | none :: _ => none
  | some pbU :: rest => (decodeUncles rest).map (fun uncles => decodeHeader pbU :: uncles)

/-- The method `Body.FromProto`, on a new body; `none` stands for the run-time panic. -/
def Body.FromProto (pbBody : PbBody) : Option Body :=
  (decodeUncles pbBody.Uncles).map
    (fun uncles =>
      { Transactions := pbBody.Txns.map transaction.FromProto, Uncles := uncles })

/-- A body with no transaction and one uncle header of height `7`. -/
def bodyWithUncle : Body :=
  { Transactions := [], Uncles := [{ BlockHeader.zero with Height := 7, Bloom := some 0 }] }

/-! ## Bloom lookup (`bloom.go`) -/

/-- The function `BloomLookup(bin, topic)` on the number held by the bloom (`bin.Big()`) and the
bytes `topic.Bytes()`: `bloom.And(bloom, cmp).Cmp(cmp) == 0`. -/
def BloomLookup (keccak : List Byte → List Byte) (bin : Nat) (topic : List Byte) : Bool :=
  (bin &&& bloom9 keccak topic) == bloom9 keccak topic

/-- The bit position of the claim for the bytes `h[i]`, `h[i+1]` of a hash:
`((h[i] << 8) | h[i+1]) & 2047`. -/
def bloomPosition (h : List Byte) (i : Nat) : Nat :=
  (((h.getD i 0).val <<< 8) ||| (h.getD (i + 1) 0).val) &&& 2047

/-- The number of bits of `n` that are set at positions below 2048. -/
def setBits (n : Nat) : Nat :=
  (List.range 2048).countP (fun i => n.testBit i)

/-- A log with two topics. -/
def sampleLog : Log :=
  { Address := 0xdead, Topics := [1, 2], Data := [] }

/-- A receipt that holds `sampleLog`. -/
def sampleReceipt : Receipt :=
  { NewReceipt [] false 21000 with Logs := [sampleLog] }

/-! ## Fiat reserve (`fiat_reserve.go`) -/

/-- The struct `FiatReserve`: the entries of the Go map `balances` (the addresses are distinct),
in the order in which `range` visits them (the mutex serialises the methods and is left
out). -/
structure FiatReserve where
  balances : List (Address × Int)

/-- The errors that `Deposit` and `Withdraw` return. -/
inductive ReserveError where
  | depositNotPositive
  | withdrawalNotPositive
  | insufficientBalance
  deriving DecidableEq, Repr

/-- The function `NewFiatReserve`. -/
def NewFiatReserve : FiatReserve :=
  { balances := [] }

/-- The map read `m[a]` with its `ok` flag: `none` when the key is absent. -/
def mapGet : List (Address × Int) → Address → Option Int
  | [], _ => none
  | (k, v) :: rest, a => if k = a then some v else mapGet rest a

/-- The map write `m[a] = v`: the entry of `a` is replaced, or added when the key is new. -/
def mapSet : List (Address × Int) → Address → Int → List (Address × Int)
  | [], a, v => [(a, v)]
  | (k, w) :: rest, a, v => if k = a then (k, v) :: rest else (k, w) :: mapSet rest a v

namespace FiatReserve

/-- The method `Deposit`: the returned error and the reserve afterwards. -/
def Deposit (r : FiatReserve) (address : Address) (amount : Int) :
    Option ReserveError × FiatReserve :=
  if amount ≤ 0 then (some ReserveError.depositNotPositive, r)
  else
    let balances1 :=
      match mapGet r.balances address with
      | none => mapSet r.balances address 0
      | some _ => r.balances
    (none, { balances := mapSet balances1 address ((mapGet balances1 address).getD 0 + amount) })

/-- The method `Withdraw`: the returned error and the reserve afterwards. -/
def Withdraw (r : FiatReserve) (address : Address) (amount : Int) :
    Option ReserveError × FiatReserve :=
  if amount ≤ 0 then (some ReserveError.withdrawalNotPositive, r)
  else
    match mapGet r.balances address with
    | none => (some ReserveError.insufficientBalance, r)
    | some balance =>
      if balance < amount then (some ReserveError.insufficientBalance, r)
      else (none, { balances := mapSet r.balances address (balance - amount) })

/-- The method `GetBalance` (its error is always nil). -/
def GetBalance (r : FiatReserve) (address : Address) : Int :=
  match mapGet r.balances address with
  | none => 0
  | some balance => balance

end FiatReserve

/-- A call of `Deposit` or `Withdraw`. -/
inductive ReserveOp where
  | deposit (address : Address) (amount : Int)
  | withdraw (address : Address) (amount : Int)

/-- The reserve after one call (the returned error is dropped). -/
def ReserveOp.apply (r : FiatReserve) : ReserveOp → FiatReserve
  | ReserveOp.deposit a x => (r.Deposit a x).2
  | ReserveOp.withdraw a x => (r.Withdraw a x).2

/-- The address that a call names. -/
def ReserveOp.address : ReserveOp → Address
  | ReserveOp.deposit a _ => a
  | ReserveOp.withdraw a _ => a

/-- The reserve after a sequence of calls on a new `FiatReserve`. -/
def runReserve (ops : List ReserveOp) : FiatReserve :=
  ops.foldl ReserveOp.apply NewFiatReserve

/-- Modelled from the spec: the key-value store behind `database.Database` (the interface and
the in-memory database of the tests are not among the sources; `badger_db.go` wraps the same
operations): the stored entries, one per key. -/
structure Database where
  entries : List (List Byte × List Byte)

/-- Modelled from the spec: the empty key-value store (`database.NewMemDatabase()`). -/
def Database.empty : Database :=
  { entries := [] }

/-- Modelled from the spec: `Put(key, value)`: the value stored under `key` is replaced, or the
entry is added when the key is new. -/
def Database.Put (db : Database) (key value : List Byte) : Database :=
  { entries := db.entries.filter (fun e => e.1 ≠ key) ++ [(key, value)] }

/-- Modelled from the spec: `batch.Write()` on the batch that holds the given `Put` calls, in
order. -/
def Database.WriteBatch (db : Database) (batch : List (List Byte × List Byte)) : Database :=
  batch.foldl (fun d e => d.Put e.1 e.2) db

/-- The method `CommitToStorage` (the error of `batch.Write()` is nil for the store above): the
database afterwards. `rangeOrder` are the entries of `r.balances` in the order in which the
`range` loop visits them. -/
def FiatReserve.CommitToStorage (rangeOrder : List (Address × Int)) (db : Database) : Database :=
  db.WriteBatch (rangeOrder.map (fun p => (bytesBE 20 p.1, bigBytes p.2)))

/-- The method `LoadFromStorage`: the reserve afterwards. `iterOrder` are the entries of the
database in the order in which `IterateKeys` visits them. -/
def FiatReserve.LoadFromStorage (r : FiatReserve) (iterOrder : List (List Byte × List Byte)) :
    FiatReserve :=
  iterOrder.foldl
    (fun r1 e => { balances := mapSet r1.balances (BytesToAddress e.1) (setBytes e.2) }) r

/-- The entries of a reserve have distinct 20-byte addresses and amounts that are not
negative. -/
def FiatReserve.Valid (r : FiatReserve) : Prop :=
  (r.balances.map Prod.fst).Nodup ∧ ∀ p ∈ r.balances, p.1 < 2 ^ 160 ∧ 0 ≤ p.2

/-- A sequence of calls on two addresses, with amounts above `2 ^ 64`. -/
def sampleReserveOps : List ReserveOp :=
  [ReserveOp.deposit 1 (10 ^ 28), ReserveOp.deposit 2 (10 ^ 28), ReserveOp.withdraw 1 5,
    ReserveOp.withdraw 2 (10 ^ 28)]

/-- The part of `TransitionDb` that follows the payment of the intrinsic gas, on the state
transition `st3` that has paid it: the call of the virtual machine, the early return on
`ErrInsufficientBalance`, the refund and the fee of the proposer. -/
def TransitionDb.execute (host : Host) (ctx : EVMContext) (tx : Transaction)
    (sender : Address) (st3 : StateTransition) : TransitionResult :=
  let r := runVM host ctx tx sender st3
  let st4 : StateTransition := { st3 with gas := r.leftOverGas, state := r.state }
  if r.err = some Error.ErrInsufficientBalance then
    { ret := [], usedGas := 0, failed := false, err := r.err, state := st4.state,
      gp := st4.gp }
  else
    let st5 := st4.refundGas tx
    let fee : Int := (st5.gasUsed : Int) * tx.gasPrice
    let st6 := { st5 with state := st5.state.AddBalance ctx.Coinbase fee }
    { ret := r.ret, usedGas := st6.gasUsed, failed := r.err.isSome, err := none,
      state := st6.state, gp := st6.gp }

/-- Data of `2 ^ 58` non-zero bytes. -/
def hugeData : List Byte :=
  List.replicate (2 ^ 58) 1

/-- A call from address `1` to address `3` with nonce `5`, amount `10`, gas limit `30000` and
the given data. -/
def dataTx (data : List Byte) : Transaction :=
  { hash := 79, toAddress := 3, nonce := 5, amount := 10, data := data, gas := 30000,
    gasPrice := 20, sender := some 1 }

/-! ## The salt in `UpdateSchedule` -/

/-- The bytes of `fmt.Sprintf("%d", n)`: the decimal digits of `n` in ASCII. -/
def decimalBytes (n : Nat) : List Byte :=
  (Nat.toDigits 10 n).map (fun c => Fin.ofNat c.toNat)

/-- The outer loop of `UpdateSchedule` with the Keccak hasher `blockHash` of each height kept:
a hasher is represented by the bytes written to it, `hashSum` is `hash.Sum(nil)`, and the
hashers of the heights visited are collected in order. -/
def assignHeightsHashed (epochLength : Nat) (totalWeight : Int)
    (sortedAuthorities : List Authority) (hashSum : List Byte) :
    List Nat → (Nat → Option Address) → (Address → Nat) → List (List Byte) →
      Option ((Nat → Option Address) × List (List Byte))
  | [], schedule, _, blockHashes => some (schedule, blockHashes)
  | blockHeight :: rest, schedule, authoritiesAssigned, blockHashes =>
    let blockHash := hashSum ++ decimalBytes blockHeight
    match selectAuthority epochLength totalWeight authoritiesAssigned sortedAuthorities with
    | none => none
    | some none =>
      assignHeightsHashed epochLength totalWeight sortedAuthorities hashSum rest schedule
        authoritiesAssigned (blockHashes ++ [blockHash])
    | some (some a) =>
      assignHeightsHashed epochLength totalWeight sortedAuthorities hashSum rest
        (fun k => if k = blockHeight then some a else schedule k)
        (fun b => if b = a then (authoritiesAssigned a + 1) % uint64Size
          else authoritiesAssigned b)
        (blockHashes ++ [blockHash])

/-- The method `UpdateSchedule` with its use of the salt kept: the hasher `hash` receives the
salt and `totalWeight.Bytes()`, and the hasher `blockHash` of each height receives
`hash.Sum(nil)` and the decimal digits of the height. The result is the schedule left in `ps`
together with the hashers `blockHash` of the heights visited (`none` for a run-time panic);
`keccak` is the Keccak-256 function. -/
def UpdateScheduleHashed (keccak : List Byte → List Byte) (epochLength : Nat)
    (salt : List Byte) (fromBlock : Nat) (authoritiesWithWeight : List (Address × Int)) :
    Option (ProposerSchedule × List (List Byte)) :=
  let sortedAuthorities := sortAuthorities
    (authoritiesWithWeight.map (fun p => { address := p.1, weight := p.2 }))
  let totalWeight := (sortedAuthorities.map (fun auth => auth.weight)).foldl (· + ·) 0
  let hash := salt ++ bigBytes totalWeight
  (assignHeightsHashed epochLength totalWeight sortedAuthorities (keccak hash)
    (scheduleHeights epochLength fromBlock) (fun _ => none) (fun _ => 0) []).map
    (fun r => ({ schedule := r.1 }, r.2))

/-! ## Block validator (`block_validator.go`) -/

/-- The errors that `ValidateBody` and `ValidateState` return: the three values of
`Core/errors/errors.go`, the formatted mismatch errors, and the error values handed on from
`engine.VerifyUncles` or `trie.DeriveSha`. -/
inductive ValidationError where
  | ErrKnownBlock
  | ErrUnknownAncestor
  | ErrPrunedAncestor
  | uncleRootMismatch (got want : Hash)
  | transactionRootMismatch (got want : Hash)
  | invalidGasUsed (remote own : Nat)
  | invalidBloom (remote : Int) (own : Nat)
  | invalidReceiptRoot (remote own : Hash)
  | invalidMerkleRoot (remote own : Hash)
  | collaborator (code : Nat)
  deriving DecidableEq, Repr

/-- Modelled from the spec: the collaborators of the block validator and of the block builder
that are interfaces or are not among the sources: the chain queries `HasBlockAndState` and
`HasBlock` (interface `BlockChain`), `engine.VerifyUncles` (interface `consensus.Engine`), the
block hash (`Block.Hash()`, over `crypto` and the protobuf encoding), `CalcUncleHash` (an RLP
hash), `trie.DeriveSha` on transactions and on receipts (a Merkle-Patricia trie root, or the
error of `Marshal`), `statedb.IntermediateRoot(true)` and `statedb.Reset(root)`. -/
structure Chain where
  HasBlockAndState : Hash → Nat → Bool
  HasBlock : Hash → Nat → Bool
  VerifyUncles : Block → Option ValidationError
  blockHash : BlockHeader → Hash
  CalcUncleHash : List BlockHeader → Hash
  DeriveShaTransactions : List Transaction → Except ValidationError Hash
  DeriveShaReceipts : List Receipt → Except ValidationError Hash
  IntermediateRoot : StateDB → Hash
  Reset : Hash → StateDB

/-- The method `ValidateBody`: the returned error, `none` for nil. `Height - 1` is a `uint64`
subtraction. -/
def ValidateBody (chain : Chain) (bl : Block) : Option ValidationError :=
  if chain.HasBlockAndState (chain.blockHash bl.Header) bl.Header.Height then
    some ValidationError.ErrKnownBlock
  else if !chain.HasBlockAndState bl.Header.ParentHash
      ((bl.Header.Height + uint64Size - 1) % uint64Size) then
    if !chain.HasBlock bl.Header.ParentHash
        ((bl.Header.Height + uint64Size - 1) % uint64Size) then
      some ValidationError.ErrUnknownAncestor
    else some ValidationError.ErrPrunedAncestor
  else
    let header := bl.Header
    match chain.VerifyUncles bl with
    | some err => some err
    | none =>
      if chain.CalcUncleHash bl.Uncles ≠ header.UncleHash then
        some (ValidationError.uncleRootMismatch (chain.CalcUncleHash bl.Uncles)
          header.UncleHash)
      else
        match chain.DeriveShaTransactions bl.Transactions with
        | Except.error err => some err
        | Except.ok hash =>
          if hash ≠ header.TransactionsRoot then
            some (ValidationError.transactionRootMismatch hash header.TransactionsRoot)
          else none

/-- The function `BytesToBloom` (`Bloom.SetBytes` on a zero bloom): the bytes copied to the end
of the 256-byte array, which is represented by the number it holds big-endian; `none` stands for
the panic "bloom bytes too big" when there are more than 256 bytes. -/
def BytesToBloom (b : List Byte) : Option Nat :=
  if 256 < b.length then none
  else some (b.foldl (fun n x => n * 256 + x.val) 0)

/-- The method `ValidateState`: `some` of the returned error (`some none` for nil), or `none`
when the call does not return: `header.Bloom.Bytes()` dereferences a nil pointer when the
header has no bloom, and `BytesToBloom` panics on more than 256 bytes. -/
def ValidateState (chain : Chain) (keccak : List Byte → List Byte) (block : Block)
    (statedb : StateDB) (receipts : List Receipt) (usedGas : Nat) :
    Option (Option ValidationError) :=
  let header := block.Header
  if header.GasUsed ≠ usedGas then
    some (some (ValidationError.invalidGasUsed header.GasUsed usedGas))
  else
    let rbloom := CreateBloom keccak receipts
    match header.Bloom with
    | none => none
    | some bloom =>
      match BytesToBloom (bigBytes bloom) with
      | none => none
      | some headerBloom =>
        if rbloom ≠ headerBloom then some (some (ValidationError.invalidBloom bloom rbloom))
        else
          match chain.DeriveShaReceipts receipts with
          | Except.error err => some (some err)
          | Except.ok receiptSha =>
            if receiptSha ≠ header.ReceiptRoot then
              some (some (ValidationError.invalidReceiptRoot header.ReceiptRoot receiptSha))
            else if header.StateRoot ≠ chain.IntermediateRoot statedb then
              some (some (ValidationError.invalidMerkleRoot header.StateRoot
                (chain.IntermediateRoot statedb)))
            else some none

/-- A chain view on which the validator can be evaluated: it holds, with their state, the
blocks whose hash is listed in `known`, and without state those listed in `pruned`; the hash of
a header is its height, the uncle hash is the number of uncles, and the root of a list is its
length. -/
def simpleChain (known pruned : List Hash) : Chain where
  HasBlockAndState := fun h _ => known.contains h
  HasBlock := fun h _ => known.contains h || pruned.contains h
  VerifyUncles := fun _ => none
  blockHash := fun h => h.Height
  CalcUncleHash := fun uncles => uncles.length
  DeriveShaTransactions := fun txs => Except.ok txs.length
  DeriveShaReceipts := fun receipts => Except.ok receipts.length
  IntermediateRoot := fun s => (s.GetBalance 1).natAbs
  Reset := fun _ => fundedState 10000000 5

/-- The header of a block at height `7` on the parent with hash `6`, with the given roots. -/
def bodyBlock (uncleHash transactionsRoot : Hash) : Block :=
  { Header :=
      { BlockHeader.zero with
        Height := 7, ParentHash := 6, UncleHash := uncleHash,
        TransactionsRoot := transactionsRoot, Bloom := some 0 },
    Transactions := [callTx 5 10 30000 20],
    Uncles := [] }

/-! ## Block builder (`block_builder.go`) -/

/-- Modelled from the spec: `revert_to_snapshot(id)`: "reverts every mutation (balance, nonce,
code, storage, logs, refund counter) performed since the snapshot"; the snapshot is
represented by the state DB at the time of `snapshot()`. The log-emission context bound by
`prepare` is not among the reverted data. -/
def StateDB.RevertToSnapshot (s snap : StateDB) : StateDB :=
  { s with accounts := snap.accounts, refund := snap.refund, logs := snap.logs }

/-- The fields of the struct `BlockBuilder` that `GenerateBlock` writes. -/
structure BlockBuilder where
  statedb : StateDB
  gasPool : Nat
  currentHeader : BlockHeader
  txs : List Transaction
  receipts : List Receipt

/-- The method `BlockBuilder.applyTransaction`: the returned error and the builder afterwards.
`usedGas` points to `bb.currentHeader.GasUsed`, and the header is read by `ApplyTransaction`
as it is at the time of the call. -/
def BlockBuilder.applyTransaction (host : Host) (coinBase : Address) (bb : BlockBuilder)
    (tx : Transaction) (txIndex : Nat) : Option Error × BlockBuilder :=
  let snap := bb.statedb
  let statedb1 := bb.statedb.Prepare tx.hash bb.currentHeader.ParentHash txIndex
  match ApplyTransaction host coinBase bb.gasPool statedb1 bb.currentHeader tx
      bb.currentHeader.GasUsed with
  | ApplyResult.failure err statedb2 gp =>
    (some err, { bb with statedb := statedb2.RevertToSnapshot snap, gasPool := gp })
  | ApplyResult.success rc _ statedb2 gp usedGas =>
    (none, { statedb := statedb2, gasPool := gp,
             currentHeader := { bb.currentHeader with GasUsed := usedGas },
             txs := bb.txs ++ [tx], receipts := bb.receipts ++ [rc] })

/-- The method `TransactionValidator.DeepVerify` (`transaction_validator.go`): it returns
nil. -/
def DeepVerify (_tx : Transaction) : Option Error :=
  none

/-- The body of the inner loop of `GenerateBlock` on the builder and `txIndex`. -/
def GenerateBlock.step (host : Host) (coinBase : Address) (acc : BlockBuilder × Nat)
    (tx : Transaction) : BlockBuilder × Nat :=
  match DeepVerify tx with
  | some _ => acc
  | none =>
    match acc.1.applyTransaction host coinBase tx acc.2 with
    | (some _, bb1) => (bb1, acc.2)
    | (none, bb1) => (bb1, acc.2 + 1)

/-- The header `bb.currentHeader` that `GenerateBlock` starts from; `timestamp` and
`prevrandao` come from the two readings of the clock. -/
def GenerateBlock.initialHeader (chain : Chain) (coinBase : Address) (timestamp : Nat)
    (prevrandao : Hash) (lastBlockHeader : BlockHeader) : BlockHeader :=
  { BlockHeader.zero with
    Height := (lastBlockHeader.Height + 1) % uint64Size,
    ParentHash := chain.blockHash lastBlockHeader,
    Proposer := coinBase,
    Timestamp := timestamp,
    Prevrandao := prevrandao }

/-- The builder after the two loops of `GenerateBlock` over the pending transactions;
`mAddressTxs` are the values of the map returned by `GetPendingTransactions`, in the order in
which `range` visits them. -/
def GenerateBlock.filled (host : Host) (chain : Chain) (coinBase : Address) (timestamp : Nat)
    (prevrandao : Hash) (lastBlockHeader : BlockHeader)
    (mAddressTxs : List (List Transaction)) : BlockBuilder :=
  (mAddressTxs.foldl (fun acc txs => txs.foldl (GenerateBlock.step host coinBase) acc)
    ({ statedb := chain.Reset lastBlockHeader.StateRoot, gasPool := host.TempGasLimit,
       currentHeader :=
         GenerateBlock.initialHeader chain coinBase timestamp prevrandao lastBlockHeader,
       txs := [], receipts := [] }, 0)).1

/-- The method `GenerateBlock`: the block, or the error of `trie.DeriveSha`. The bloom of the
header is `new(big.Int).SetBytes(rbloom.Bytes())`, the 256 bytes of the bloom read as a
number. -/
def GenerateBlock (host : Host) (chain : Chain) (coinBase : Address) (timestamp : Nat)
    (prevrandao : Hash) (lastBlockHeader : BlockHeader)
    (mAddressTxs : List (List Transaction)) : Except ValidationError Block :=
  let bb := GenerateBlock.filled host chain coinBase timestamp prevrandao lastBlockHeader
    mAddressTxs
  let header1 := { bb.currentHeader with UncleHash := chain.CalcUncleHash [] }
  match chain.DeriveShaTransactions bb.txs with
  | Except.error err => Except.error err
  | Except.ok transactionsRoot =>
    match chain.DeriveShaReceipts bb.receipts with
    | Except.error err => Except.error err
    | Except.ok receiptRoot =>
      Except.ok
        { Header :=
            { header1 with
              TransactionsRoot := transactionsRoot,
              ReceiptRoot := receiptRoot,
              StateRoot := chain.IntermediateRoot bb.statedb,
              Bloom := some (setBytes (bytesBE 256 (CreateBloom host.Keccak256 bb.receipts))) },
          Transactions := bb.txs,
          Uncles := [] }

/-- The virtual machine reads from the header of its context only the fields that the block
builder sets before it executes transactions (height, parent hash, time, prevrandao and
proposer): two contexts that agree on them, on the origin, the gas price and the coinbase give
the same results. -/
def Host.ReadsFixedHeader (host : Host) : Prop :=
  ∀ ctx1 ctx2 : EVMContext, ctx1.Origin = ctx2.Origin → ctx1.GasPrice = ctx2.GasPrice →
    ctx1.Coinbase = ctx2.Coinbase → ctx1.Header.Height = ctx2.Header.Height →
    ctx1.Header.ParentHash = ctx2.Header.ParentHash →
    ctx1.Header.Timestamp = ctx2.Header.Timestamp →
    ctx1.Header.Prevrandao = ctx2.Header.Prevrandao →
    ctx1.Header.Proposer = ctx2.Header.Proposer →
    host.Call ctx1 = host.Call ctx2 ∧ host.Create ctx1 = host.Create ctx2

/-- A builder on the state of `fundedState 1000000 5` with a gas pool of `1000000`. -/
def sampleBuilder : BlockBuilder :=
  { statedb := fundedState 1000000 5, gasPool := 1000000,
    currentHeader := { BlockHeader.zero with Proposer := 2 }, txs := [], receipts := [] }

/-- A header as `FromProto` decodes it from a message whose bloom field holds 257 bytes: a
one followed by 256 zero bytes. -/
def wideBloomHeader : BlockHeader :=
  decodeHeader
    { Height := 7, ParentHash := [], StateRoot := [], TransactionsRoot := [], ReceiptRoot := [],
      Timestamp := 0, Prevrandao := [], Proposer := [], Signature := [], GasUsed := 0,
      ExtraData := [], UncleHash := [], Bloom := 1 :: List.replicate 256 0 }

/-- Two headers agree on the fields that the block builder sets before it executes
transactions. -/
def BlockHeader.SameFixed (h1 h2 : BlockHeader) : Prop :=
  h1.Height = h2.Height ∧ h1.ParentHash = h2.ParentHash ∧ h1.Timestamp = h2.Timestamp ∧
  h1.Prevrandao = h2.Prevrandao ∧ h1.Proposer = h2.Proposer

/-- The builder in its loop, with `txIndex`, against the run of `Process` under the header
`header` from the state `statedb`: the loop of `Process` over the transactions included so far,
followed by any others, arrives with the receipts and the cumulative gas of the builder at a
state with the accounts, refund counter and logs of the builder state and at a gas pool that
is at least that of the builder. -/
def GenerateBlock.Sim (host : Host) (coinBase : Address) (header : BlockHeader)
    (statedb : StateDB) (acc : BlockBuilder × Nat) : Prop :=
  acc.1.currentHeader.SameFixed header ∧ header.Proposer = coinBase ∧
  ∃ (gpV : Nat) (sV : StateDB) (logsV : List Log),
    acc.1.gasPool ≤ gpV ∧ gpV < uint64Size ∧
    sV.accounts = acc.1.statedb.accounts ∧ sV.refund = acc.1.statedb.refund ∧
    sV.logs = acc.1.statedb.logs ∧
    ∀ rest : List Transaction,
      Process.loop host header (acc.1.txs ++ rest) 0 [] [] 0 (AddGas 0 host.TempGasLimit)
          statedb =
        Process.loop host header rest acc.2 acc.1.receipts logsV acc.1.currentHeader.GasUsed
          gpV sV

/-- Pending transactions on which the builder can be evaluated: a call that succeeds, a call
with a stale nonce that is skipped, and a second call that succeeds. -/
def samplePending : List (List Transaction) :=
  [[callTx 5 10 30000 20, callTx 5 0 30000 20, callTx 6 10 30000 20]]

/-- The authority to which the greedy loop of `UpdateSchedule` gives the `j`-th of the heights
still to come, from the counters `assigned`: the authorities are served in order, each for as
many heights as it is still owed. -/
def nextOwner (epochLength : Nat) (totalWeight : Int) (assigned : Address → Nat) :
    List Authority → Nat → Option Address
  | [], _ => none
  | auth :: rest, j =>
    if j < quotaOf epochLength totalWeight auth - assigned auth.address then some auth.address
    else nextOwner epochLength totalWeight assigned rest
      (j - (quotaOf epochLength totalWeight auth - assigned auth.address))

/-- The sum of the quotas of the claim over the first `i` validators of the list `v`. -/
def quotaBefore (epochLength : Nat) (validators v : List (Address × Int)) (i : Nat) : Nat :=
  ((v.take i).map (fun p => floorQuota epochLength validators p.2)).sum

/-- The validators of the test listed by descending weight. -/
def testAuthoritiesSorted : List (Address × Int) :=
  [(0x789012, 200), (0xdef456, 100), (0xabc123, 50)]

/-- The base gas of the claim: `53000` for a contract creation and `21000` otherwise. -/
def baseGas (contractCreation : Bool) : Nat :=
  if contractCreation then 53000 else 21000

/-- The number of zero bytes of `data`. -/
def zeroBytes (data : List Byte) : Nat :=
  data.countP (fun byt => byt == 0)

theorem nonZeroBytes_add_zeroBytes (data : List Byte) :
    nonZeroBytes data + zeroBytes data = data.length := by
  unfold nonZeroBytes zeroBytes
  induction data with
  | nil => simp
  | cons b t ih =>
    by_cases hb : b = 0
    · simp [List.countP_cons, hb]; omega
    · simp [List.countP_cons, hb]; omega

/-- C5: `IntrinsicGas` returns `base + 68 * nz + 4 * z` without error when that sum fits in a
`uint64`, and `(0, OutOfGas)` otherwise; it never returns a wrapped value. -/
theorem IntrinsicGas_exact (data : List Byte) (contractCreation : Bool) :
    IntrinsicGas data contractCreation =
      if baseGas contractCreation + 68 * nonZeroBytes data + 4 * zeroBytes data ≤ 2 ^ 64 - 1 then
        (baseGas contractCreation + 68 * nonZeroBytes data + 4 * zeroBytes data, none)
      else (0, some Error.ErrOutOfGas) := by
  have hlen := nonZeroBytes_add_zeroBytes data
  have hz : data.length - nonZeroBytes data = zeroBytes data := by omega
  have hbase : baseGas contractCreation = 21000 ∨ baseGas contractCreation = 53000 := by
    cases contractCreation <;> simp [baseGas]
  have hgas : (if contractCreation then TxGasContractCreation else TxGas)
      = baseGas contractCreation := by
    cases contractCreation <;> simp [baseGas, TxGas, TxGasContractCreation]
  unfold IntrinsicGas
  simp only [hgas, hz, MaxUint64, uint64Size, TxDataNonZeroGas, TxDataZeroGas]
  generalize baseGas contractCreation = b at hbase ⊢
  generalize nonZeroBytes data = nz at hlen ⊢
  generalize zeroBytes data = z at hlen ⊢
  have e1 : (2 : ℕ) ^ 64 - 1 = 18446744073709551615 := by norm_num
  have e2 : (2 : ℕ) ^ 64 = 18446744073709551616 := by norm_num
  simp only [e1, e2]
  by_cases hl : data.length > 0
  · rw [if_pos hl]
    by_cases h1 : (18446744073709551615 - b) / 68 < nz
    · have hn : ¬ (b + 68 * nz + 4 * z ≤ 18446744073709551615) := by
        rw [Nat.div_lt_iff_lt_mul (by norm_num)] at h1
        omega
      rw [if_pos h1, if_neg hn]
    · have h1' : b + nz * 68 ≤ 18446744073709551615 := by
        rw [Nat.div_lt_iff_lt_mul (by norm_num)] at h1
        omega
      have hm : (b + nz * 68) % 18446744073709551616 = b + nz * 68 :=
        Nat.mod_eq_of_lt (by omega)
      rw [if_neg h1, hm]
      by_cases h2 : (18446744073709551615 - (b + nz * 68)) / 4 < z
      · have hn : ¬ (b + 68 * nz + 4 * z ≤ 18446744073709551615) := by
          rw [Nat.div_lt_iff_lt_mul (by norm_num)] at h2
          omega
        rw [if_pos h2, if_neg hn]
      · have h2' : b + 68 * nz + 4 * z ≤ 18446744073709551615 := by
          rw [Nat.div_lt_iff_lt_mul (by norm_num)] at h2
          omega
        have hm2 : (b + nz * 68 + z * 4) % 18446744073709551616 = b + nz * 68 + z * 4 :=
          Nat.mod_eq_of_lt (by omega)
        rw [if_neg h2, if_pos h2', hm2]
        congr 1
        omega
  · have hl0 : data.length = 0 := by omega
    have hnz : nz = 0 := by omega
    have hz0 : z = 0 := by omega
    subst hnz hz0
    have hle : b + 68 * 0 + 4 * 0 ≤ 18446744073709551615 := by omega
    rw [if_neg hl, if_pos hle]
    congr 1

/-! ## Pre-check errors (C1) -/

theorem StateDB.ensure_sameReads (s : StateDB) (a : Address) : (s.ensure a).SameReads s := by
  unfold StateDB.ensure
  by_cases h : s.Exist a = true
  · simp [h, StateDB.SameReads]
  · have hn : s.accounts a = none := by
      simpa [StateDB.Exist, Option.isSome_iff_exists, Option.eq_none_iff_forall_not_mem] using h
    simp only [h, if_false]
    refine ⟨?_, ?_, ?_, ?_, rfl, rfl⟩
    · intro b
      by_cases hb : b = a
      · subst hb; simp [StateDB.GetBalance, StateDB.CreateAccount, StateDB.setAccount, hn,
          Account.empty]
      · simp [StateDB.GetBalance, StateDB.CreateAccount, StateDB.setAccount, hb]
    · intro b
      by_cases hb : b = a
      · subst hb; simp [StateDB.GetNonce, StateDB.CreateAccount, StateDB.setAccount, hn,
          Account.empty]
      · simp [StateDB.GetNonce, StateDB.CreateAccount, StateDB.setAccount, hb]
    · intro b
      by_cases hb : b = a
      · subst hb; simp [StateDB.GetCode, StateDB.CreateAccount, StateDB.setAccount, hn,
          Account.empty]
      · simp [StateDB.GetCode, StateDB.CreateAccount, StateDB.setAccount, hb]
    · intro b k
      by_cases hb : b = a
      · subst hb; simp [StateDB.GetState, StateDB.CreateAccount, StateDB.setAccount, hn,
          Account.empty]
      · simp [StateDB.GetState, StateDB.CreateAccount, StateDB.setAccount, hb]

theorem StateDB.ensure_exist (s : StateDB) (a : Address) : (s.ensure a).Exist a = true := by
  unfold StateDB.ensure
  by_cases h : s.Exist a = true
  · rw [if_pos h]; exact h
  · rw [if_neg h]; simp [StateDB.Exist, StateDB.CreateAccount, StateDB.setAccount]

theorem StateDB.ensure_idem (s : StateDB) (a : Address) : (s.ensure a).ensure a = s.ensure a := by
  have h := StateDB.ensure_exist s a
  generalize s.ensure a = t at h ⊢
  unfold StateDB.ensure
  rw [if_pos h]

theorem StateTransition.sender_eq (tx : Transaction) (st : StateTransition) (s : Address)
    (hs : tx.sender = some s) :
    st.sender tx = (s, { st with state := st.state.ensure s }) := by
  unfold StateTransition.sender StateDB.ensure
  by_cases h : st.state.Exist s = true <;> simp [hs, h]

theorem StateTransition.preCheck_eq (tx : Transaction) (st : StateTransition) (s : Address)
    (hs : tx.sender = some s) :
    st.preCheck tx =
      if st.state.GetNonce s < tx.nonce then
        (some Error.ErrNonceTooHigh, { st with state := st.state.ensure s })
      else if st.state.GetNonce s > tx.nonce then
        (some Error.ErrNonceTooLow, { st with state := st.state.ensure s })
      else if st.state.GetBalance s < (tx.gas : Int) * tx.gasPrice then
        (some Error.ErrInsufficientBalanceForGas, { st with state := st.state.ensure s })
      else
        match SubGas st.gp tx.gas with
        | none => (some Error.ErrGasLimitReached, { st with state := st.state.ensure s })
        | some gp1 =>
          (none, { gp := gp1, gas := (st.gas + tx.gas) % uint64Size, initialGas := tx.gas,
                   state := (st.state.ensure s).SubBalance s ((tx.gas : Int) * tx.gasPrice) }) := by
  have hr := StateDB.ensure_sameReads st.state s
  have hn : (st.state.ensure s).GetNonce s = st.state.GetNonce s := hr.2.1 s
  have hb : (st.state.ensure s).GetBalance s = st.state.GetBalance s := hr.1 s
  unfold StateTransition.preCheck StateTransition.buyGas
  simp only [StateTransition.sender_eq tx _ s hs, hn, hb, StateDB.ensure_idem]

/-- C1 (amended): for a transaction with recovered sender `s`, `ApplyMessage` (that is,
`TransitionDb` on a new state transition) returns `NonceTooHigh` when `nonce(s) < tx.nonce`,
`NonceTooLow` when `nonce(s) > tx.nonce`, and `InsufficientBalanceForGas` when the nonces are
equal and `balance(s) < gas * gas_price`. In each case the gas pool is as before and the state
is the state before in which the account of `s` has been made to exist: it is exactly the state
before when `s` existed (always so for `NonceTooLow`), and otherwise differs only by the new
empty account of `s`, so every balance, nonce, code and storage slot reads as before. -/
theorem ApplyMessage_preCheck_errors (host : Host) (ctx : EVMContext) (statedb : StateDB)
    (tx : Transaction) (gp : Nat) (s : Address) (hs : tx.sender = some s) :
    (statedb.GetNonce s < tx.nonce →
      (ApplyMessage host ctx statedb tx gp).err = some Error.ErrNonceTooHigh ∧
      (ApplyMessage host ctx statedb tx gp).state = statedb.ensure s ∧
      (ApplyMessage host ctx statedb tx gp).gp = gp) ∧
    (tx.nonce < statedb.GetNonce s →
      (ApplyMessage host ctx statedb tx gp).err = some Error.ErrNonceTooLow ∧
      (ApplyMessage host ctx statedb tx gp).state = statedb ∧
      (ApplyMessage host ctx statedb tx gp).gp = gp) ∧
    (statedb.GetNonce s = tx.nonce → statedb.GetBalance s < (tx.gas : Int) * tx.gasPrice →
      (ApplyMessage host ctx statedb tx gp).err = some Error.ErrInsufficientBalanceForGas ∧
      (ApplyMessage host ctx statedb tx gp).state = statedb.ensure s ∧
      (ApplyMessage host ctx statedb tx gp).gp = gp) ∧
    (statedb.ensure s).SameReads statedb ∧
    (statedb.Exist s = true → statedb.ensure s = statedb) := by
  have hpre := StateTransition.preCheck_eq tx (NewStateTransition statedb gp) s hs
  simp only [NewStateTransition] at hpre
  refine ⟨?_, ?_, ?_, StateDB.ensure_sameReads statedb s, ?_⟩
  · intro h
    rw [if_pos h] at hpre
    simp [ApplyMessage, TransitionDb, NewStateTransition, hpre]
  · intro h
    have h1 : ¬ statedb.GetNonce s < tx.nonce := by omega
    rw [if_neg h1, if_pos h] at hpre
    have hex : statedb.Exist s = true := by
      by_contra hne
      have hnone : statedb.accounts s = none := by
        simpa [StateDB.Exist, Option.isSome_iff_exists, Option.eq_none_iff_forall_not_mem]
          using hne
      simp [StateDB.GetNonce, hnone] at h
    have he : statedb.ensure s = statedb := by simp [StateDB.ensure, hex]
    simp [ApplyMessage, TransitionDb, NewStateTransition, hpre, he]
  · intro h hbal
    have h1 : ¬ statedb.GetNonce s < tx.nonce := by omega
    have h2 : ¬ statedb.GetNonce s > tx.nonce := by omega
    rw [if_neg h1, if_neg h2, if_pos hbal] at hpre
    simp [ApplyMessage, TransitionDb, NewStateTransition, hpre]
  · intro hex
    simp [StateDB.ensure, hex]

/-- The three rejections of C1 on concrete inputs: sender `1` with nonce `5` and balance `100`. -/
theorem ApplyMessage_preCheck_errors_witness :
    ((ApplyMessage simpleHost (simpleCtx 1 2 20) (fundedState 100 5)
        (callTx 6 0 21000 20) 1000000).err = some Error.ErrNonceTooHigh ∧
      (ApplyMessage simpleHost (simpleCtx 1 2 20) (fundedState 100 5)
        (callTx 4 0 21000 20) 1000000).err = some Error.ErrNonceTooLow ∧
      (ApplyMessage simpleHost (simpleCtx 1 2 20) (fundedState 100 5)
        (callTx 5 0 21000 20) 1000000).err = some Error.ErrInsufficientBalanceForGas) ∧
    (ApplyMessage simpleHost (simpleCtx 1 2 20) (fundedState 100 5)
        (callTx 4 0 21000 20) 1000000).state = fundedState 100 5 :=
  ⟨⟨((ApplyMessage_preCheck_errors simpleHost (simpleCtx 1 2 20) (fundedState 100 5)
        (callTx 6 0 21000 20) 1000000 1 rfl).1 (by decide)).1,
    ((ApplyMessage_preCheck_errors simpleHost (simpleCtx 1 2 20) (fundedState 100 5)
        (callTx 4 0 21000 20) 1000000 1 rfl).2.1 (by decide)).1,
    ((ApplyMessage_preCheck_errors simpleHost (simpleCtx 1 2 20) (fundedState 100 5)
        (callTx 5 0 21000 20) 1000000 1 rfl).2.2.1 (by decide) (by decide)).1⟩,
   ((ApplyMessage_preCheck_errors simpleHost (simpleCtx 1 2 20) (fundedState 100 5)
        (callTx 4 0 21000 20) 1000000 1 rfl).2.1 (by decide)).2.1⟩

/-- C1 as stated fails: a transaction from the sender `1`, who has no account, with nonce `6`
is rejected with `NonceTooHigh`, and afterwards the account of `1` exists: the set of existing
accounts is not as it was before the call. -/
theorem ApplyMessage_nonceTooHigh_creates_account :
    StateDB.init.GetNonce 1 < (callTx 6 0 21000 20).nonce ∧
    (ApplyMessage simpleHost (simpleCtx 1 2 20) StateDB.init
      (callTx 6 0 21000 20) 1000000).err = some Error.ErrNonceTooHigh ∧
    StateDB.init.Exist 1 = false ∧
    (ApplyMessage simpleHost (simpleCtx 1 2 20) StateDB.init
      (callTx 6 0 21000 20) 1000000).state.Exist 1 = true ∧
    (ApplyMessage simpleHost (simpleCtx 1 2 20) StateDB.init
      (callTx 6 0 21000 20) 1000000).state ≠ StateDB.init := by
  refine ⟨by decide, by decide, by decide, by decide, ?_⟩
  intro h
  have h1 : (ApplyMessage simpleHost (simpleCtx 1 2 20) StateDB.init
      (callTx 6 0 21000 20) 1000000).state.Exist 1 = true := by decide
  rw [h] at h1
  exact absurd h1 (by decide)

/-! ## Gas accounting (C2) -/

theorem StateTransition.preCheck_ok (tx : Transaction) (st st1 : StateTransition) (s : Address)
    (hs : tx.sender = some s) (h : st.preCheck tx = (none, st1)) :
    st1 = { gp := st.gp - tx.gas, gas := (st.gas + tx.gas) % uint64Size, initialGas := tx.gas,
            state := (st.state.ensure s).SubBalance s ((tx.gas : Int) * tx.gasPrice) } ∧
    tx.gas ≤ st.gp ∧ st.state.GetNonce s = tx.nonce ∧
    (tx.gas : Int) * tx.gasPrice ≤ st.state.GetBalance s := by
  rw [StateTransition.preCheck_eq tx st s hs] at h
  by_cases h1 : st.state.GetNonce s < tx.nonce
  · rw [if_pos h1] at h; simp at h
  · rw [if_neg h1] at h
    by_cases h2 : st.state.GetNonce s > tx.nonce
    · rw [if_pos h2] at h; simp at h
    · rw [if_neg h2] at h
      by_cases h3 : st.state.GetBalance s < (tx.gas : Int) * tx.gasPrice
      · rw [if_pos h3] at h; simp at h
      · rw [if_neg h3] at h
        unfold SubGas at h
        by_cases h4 : st.gp < tx.gas
        · rw [if_pos h4] at h; simp at h
        · rw [if_neg h4] at h
          simp only [Prod.mk.injEq, true_and] at h
          exact ⟨h.symm, by omega, by omega, by omega⟩

theorem StateDB.exist_setAccount (s : StateDB) (a : Address) (acc : Account) :
    (s.setAccount a acc).Exist a = true := by
  simp [StateDB.Exist, StateDB.setAccount]

theorem StateDB.ensure_of_exist (s : StateDB) (a : Address) (h : s.Exist a = true) :
    s.ensure a = s := by
  simp [StateDB.ensure, h]

theorem sub_mod_uint64 (a b : Nat) (ha : a < uint64Size) (hb : b ≤ a) :
    (a + uint64Size - b % uint64Size) % uint64Size = a - b := by
  unfold uint64Size at *
  omega

/-- The shape of a successful `ApplyMessage`: what the state transition looks like before the
virtual machine runs, and the result in terms of the result of the virtual machine. -/
theorem ApplyMessage_ok (host : Host) (ctx : EVMContext) (statedb : StateDB)
    (tx : Transaction) (gp : Nat) (s : Address) (hs : tx.sender = some s)
    (hwf : tx.WellFormed) (hgp64 : gp < uint64Size)
    (h : (ApplyMessage host ctx statedb tx gp).err = none)
    (hgas : (vmResult host ctx tx (NewStateTransition statedb gp)).leftOverGas ≤
      ((NewStateTransition statedb gp).beforeVM tx).gas) :
    ((NewStateTransition statedb gp).beforeVM tx) =
      { gp := gp - tx.gas,
        gas := tx.gas - (IntrinsicGas tx.data (tx.toAddress == zeroAddress)).1,
        initialGas := tx.gas,
        state := (statedb.ensure s).SubBalance s ((tx.gas : Int) * tx.gasPrice) } ∧
    vmResult host ctx tx (NewStateTransition statedb gp) =
      runVM host ctx tx s ((NewStateTransition statedb gp).beforeVM tx) ∧
    tx.gas ≤ gp ∧ statedb.GetNonce s = tx.nonce ∧
    (tx.gas : Int) * tx.gasPrice ≤ statedb.GetBalance s ∧
    (vmResult host ctx tx (NewStateTransition statedb gp)).leftOverGas +
      refundOf tx (vmResult host ctx tx (NewStateTransition statedb gp)) ≤ tx.gas ∧
    ApplyMessage host ctx statedb tx gp =
      { ret := (vmResult host ctx tx (NewStateTransition statedb gp)).ret,
        usedGas := tx.gas - (vmResult host ctx tx (NewStateTransition statedb gp)).leftOverGas
          - refundOf tx (vmResult host ctx tx (NewStateTransition statedb gp)),
        failed := (vmResult host ctx tx (NewStateTransition statedb gp)).err.isSome,
        err := none,
        state :=
          (((vmResult host ctx tx (NewStateTransition statedb gp)).state.ensure s).AddBalance s
            ((((vmResult host ctx tx (NewStateTransition statedb gp)).leftOverGas
              + refundOf tx (vmResult host ctx tx (NewStateTransition statedb gp)) : Nat) : Int)
              * tx.gasPrice)).AddBalance ctx.Coinbase
            (((tx.gas - (vmResult host ctx tx (NewStateTransition statedb gp)).leftOverGas
              - refundOf tx (vmResult host ctx tx (NewStateTransition statedb gp)) : Nat) : Int)
              * tx.gasPrice),
        gp := gp - tx.gas + ((vmResult host ctx tx (NewStateTransition statedb gp)).leftOverGas
          + refundOf tx (vmResult host ctx tx (NewStateTransition statedb gp))) } := by
  obtain ⟨_, hg64⟩ := hwf
  unfold ApplyMessage TransitionDb at h ⊢
  unfold vmResult StateTransition.beforeVM at hgas ⊢
  rcases hp : (NewStateTransition statedb gp).preCheck tx with ⟨e, st1⟩
  rw [hp] at h hgas
  cases e with
  | some e => simp at h
  | none =>
    obtain ⟨hst1, hgp, hnonce, hbal⟩ := StateTransition.preCheck_ok tx _ st1 s hs hp
    simp only [NewStateTransition] at hst1
    have hex : st1.state.Exist s = true := by
      rw [hst1]; exact StateDB.exist_setAccount _ _ _
    have hsend : st1.sender tx = (s, st1) := by
      rw [StateTransition.sender_eq tx st1 s hs, StateDB.ensure_of_exist _ _ hex]
    simp only [hsend] at h hgas ⊢
    have hgas1 : st1.gas = tx.gas := by
      rw [hst1]; simp only [Nat.zero_add]; exact Nat.mod_eq_of_lt hg64
    generalize hig : (IntrinsicGas tx.data (tx.toAddress == zeroAddress)).1 = ig at h hgas ⊢
    unfold StateTransition.useGas at h hgas ⊢
    by_cases hlt : st1.gas < ig
    · simp [hlt] at h
    · simp only [hlt, if_false] at h hgas ⊢
      generalize hr : runVM host ctx tx s { st1 with gas := st1.gas - ig } = r at h hgas ⊢
      by_cases hib : r.err = some Error.ErrInsufficientBalance
      · simp [hib] at h
      · simp only [hib, if_false] at h ⊢
        have hrem : r.leftOverGas ≤ tx.gas := by
          omega
        have hinit : st1.initialGas = tx.gas := by rw [hst1]
        have hused : ({ st1 with gas := r.leftOverGas, state := r.state } :
            StateTransition).gasUsed = tx.gas - r.leftOverGas := by
          simp only [StateTransition.gasUsed, hinit]
          exact sub_mod_uint64 _ _ hg64 hrem
        have hrefund : refundOf tx r ≤ (tx.gas - r.leftOverGas) / 2 := by
          unfold refundOf; exact Nat.min_le_right _ _
        have hsum : r.leftOverGas + refundOf tx r ≤ tx.gas := by omega
        have hgp1 : st1.gp = gp - tx.gas := by rw [hst1]
        have hst1s : st1.state = (statedb.ensure s).SubBalance s ((tx.gas : Int) * tx.gasPrice) := by
          rw [hst1]
        have hrefeq : (if (tx.gas - r.leftOverGas) / 2 > r.state.GetRefund then r.state.GetRefund
            else (tx.gas - r.leftOverGas) / 2) = refundOf tx r := by
          unfold refundOf
          by_cases hc : (tx.gas - r.leftOverGas) / 2 > r.state.GetRefund
          · rw [if_pos hc, Nat.min_eq_left (by omega)]
          · rw [if_neg hc, Nat.min_eq_right (by omega)]
        have hrg : StateTransition.refundGas tx
            { gp := st1.gp, gas := r.leftOverGas, initialGas := st1.initialGas, state := r.state } =
            { gp := gp - tx.gas + (r.leftOverGas + refundOf tx r),
              gas := r.leftOverGas + refundOf tx r, initialGas := tx.gas,
              state := (r.state.ensure s).AddBalance s
                (((r.leftOverGas + refundOf tx r : Nat) : Int) * tx.gasPrice) } := by
          unfold StateTransition.refundGas
          simp only [hused, hrefeq]
          have hm : (r.leftOverGas + refundOf tx r) % uint64Size
              = r.leftOverGas + refundOf tx r :=
            Nat.mod_eq_of_lt (by omega)
          rw [hm, StateTransition.sender_eq tx _ s hs]
          simp only [hinit, hgp1, AddGas]
          have hm2 : (gp - tx.gas + (r.leftOverGas + refundOf tx r)) % uint64Size
              = gp - tx.gas + (r.leftOverGas + refundOf tx r) :=
            Nat.mod_eq_of_lt (by omega)
          rw [hm2]
        refine ⟨?_, trivial, hgp, hnonce, hbal, hsum, ?_⟩
        · rw [hinit, hgp1, hgas1, hst1s]
        · rw [hrg]
          simp only [StateTransition.gasUsed, sub_mod_uint64 _ _ hg64 hsum, Nat.sub_add_eq]

/-- The state that a successful `ApplyMessage` leaves, without any assumption on the gas that
the virtual machine returns: the state left by the virtual machine, with the account of the
sender made to exist and credited, and the proposer credited. -/
theorem ApplyMessage_ok_state (host : Host) (ctx : EVMContext) (statedb : StateDB)
    (tx : Transaction) (gp : Nat) (s : Address) (hs : tx.sender = some s)
    (h : (ApplyMessage host ctx statedb tx gp).err = none) :
    ((NewStateTransition statedb gp).beforeVM tx).state =
      (statedb.ensure s).SubBalance s ((tx.gas : Int) * tx.gasPrice) ∧
    vmResult host ctx tx (NewStateTransition statedb gp) =
      runVM host ctx tx s ((NewStateTransition statedb gp).beforeVM tx) ∧
    statedb.GetNonce s = tx.nonce ∧
    (ApplyMessage host ctx statedb tx gp).failed =
      (vmResult host ctx tx (NewStateTransition statedb gp)).err.isSome ∧
    ∃ v1 v2 : Int, (ApplyMessage host ctx statedb tx gp).state =
      (((vmResult host ctx tx (NewStateTransition statedb gp)).state.ensure s).AddBalance s
        v1).AddBalance ctx.Coinbase v2 := by
  unfold ApplyMessage TransitionDb at h ⊢
  unfold vmResult StateTransition.beforeVM
  rcases hp : (NewStateTransition statedb gp).preCheck tx with ⟨e, st1⟩
  rw [hp] at h
  cases e with
  | some e => simp at h
  | none =>
    obtain ⟨hst1, -, hnonce, -⟩ := StateTransition.preCheck_ok tx _ st1 s hs hp
    simp only [NewStateTransition] at hst1
    have hex : st1.state.Exist s = true := by
      rw [hst1]; exact StateDB.exist_setAccount _ _ _
    have hsend : st1.sender tx = (s, st1) := by
      rw [StateTransition.sender_eq tx st1 s hs, StateDB.ensure_of_exist _ _ hex]
    simp only [hsend] at h ⊢
    generalize hig : (IntrinsicGas tx.data (tx.toAddress == zeroAddress)).1 = ig at h ⊢
    unfold StateTransition.useGas at h ⊢
    by_cases hlt : st1.gas < ig
    · simp [hlt] at h
    · simp only [hlt, if_false] at h ⊢
      generalize hr : runVM host ctx tx s { st1 with gas := st1.gas - ig } = r at h ⊢
      by_cases hib : r.err = some Error.ErrInsufficientBalance
      · simp [hib] at h
      · simp only [hib, if_false] at h ⊢
        have hst1s : st1.state = (statedb.ensure s).SubBalance s ((tx.gas : Int) * tx.gasPrice) := by
          rw [hst1]
        refine ⟨hst1s, trivial, hnonce, trivial, ?_⟩
        unfold StateTransition.refundGas
        simp only [StateTransition.sender_eq tx _ s hs]
        exact ⟨_, _, rfl⟩

/-! ### Reads of the state DB after a write -/

theorem StateDB.getBalance_setAccount (s : StateDB) (a b : Address) (acc : Account) :
    (s.setAccount a acc).GetBalance b = if b = a then acc.balance else s.GetBalance b := by
  by_cases hb : b = a <;> simp [StateDB.GetBalance, StateDB.setAccount, hb]

theorem StateDB.getNonce_setAccount (s : StateDB) (a b : Address) (acc : Account) :
    (s.setAccount a acc).GetNonce b = if b = a then acc.nonce else s.GetNonce b := by
  by_cases hb : b = a <;> simp [StateDB.GetNonce, StateDB.setAccount, hb]

theorem StateDB.getOrNew_balance (s : StateDB) (a : Address) :
    (s.getOrNew a).balance = s.GetBalance a := by
  unfold StateDB.getOrNew StateDB.GetBalance
  cases s.accounts a <;> simp [Account.empty]

theorem StateDB.getOrNew_nonce (s : StateDB) (a : Address) :
    (s.getOrNew a).nonce = s.GetNonce a := by
  unfold StateDB.getOrNew StateDB.GetNonce
  cases s.accounts a <;> simp [Account.empty]

theorem StateDB.getBalance_addBalance (s : StateDB) (a b : Address) (v : Int) :
    (s.AddBalance a v).GetBalance b = if b = a then s.GetBalance a + v else s.GetBalance b := by
  unfold StateDB.AddBalance
  rw [StateDB.getBalance_setAccount]
  simp only [StateDB.getOrNew_balance]

theorem StateDB.getBalance_subBalance (s : StateDB) (a b : Address) (v : Int) :
    (s.SubBalance a v).GetBalance b = if b = a then s.GetBalance a - v else s.GetBalance b := by
  unfold StateDB.SubBalance
  rw [StateDB.getBalance_setAccount]
  simp only [StateDB.getOrNew_balance]

theorem StateDB.getBalance_setNonce (s : StateDB) (a b : Address) (n : Nat) :
    (s.SetNonce a n).GetBalance b = s.GetBalance b := by
  unfold StateDB.SetNonce
  rw [StateDB.getBalance_setAccount]
  by_cases hb : b = a
  · subst hb; simp [StateDB.getOrNew_balance]
  · simp [hb]

theorem StateDB.getNonce_addBalance (s : StateDB) (a b : Address) (v : Int) :
    (s.AddBalance a v).GetNonce b = s.GetNonce b := by
  unfold StateDB.AddBalance
  rw [StateDB.getNonce_setAccount]
  by_cases hb : b = a
  · subst hb; simp [StateDB.getOrNew_nonce]
  · simp [hb]

theorem StateDB.getNonce_subBalance (s : StateDB) (a b : Address) (v : Int) :
    (s.SubBalance a v).GetNonce b = s.GetNonce b := by
  unfold StateDB.SubBalance
  rw [StateDB.getNonce_setAccount]
  by_cases hb : b = a
  · subst hb; simp [StateDB.getOrNew_nonce]
  · simp [hb]

theorem StateDB.getNonce_setNonce (s : StateDB) (a b : Address) (n : Nat) :
    (s.SetNonce a n).GetNonce b = if b = a then n else s.GetNonce b := by
  unfold StateDB.SetNonce
  rw [StateDB.getNonce_setAccount]

theorem StateDB.getBalance_ensure (s : StateDB) (a b : Address) :
    (s.ensure a).GetBalance b = s.GetBalance b :=
  (StateDB.ensure_sameReads s a).1 b

theorem StateDB.getNonce_ensure (s : StateDB) (a b : Address) :
    (s.ensure a).GetNonce b = s.GetNonce b :=
  (StateDB.ensure_sameReads s a).2.1 b

/-- The state handed to `vm.Call` is the state before the virtual machine with the sender nonce
incremented and the recipient account made to exist. -/
theorem StateTransition.callInput_eq (tx : Transaction) (s : Address) (st : StateTransition)
    (hto : tx.toAddress ≠ zeroAddress) :
    st.callInput tx s =
      (tx.toAddress, { st with state :=
        (st.state.SetNonce s ((st.state.GetNonce s + 1) % uint64Size)).ensure tx.toAddress }) := by
  unfold StateTransition.callInput StateTransition.recipient StateDB.ensure
  simp only [hto, if_false]
  by_cases hex : (st.state.SetNonce s ((st.state.GetNonce s + 1) % uint64Size)).Exist
      tx.toAddress = true
  · simp [hex]
  · simp [hex]

/-- C2: for a transaction that `TransitionDb` applies without error, with `remaining` the gas
left by the virtual machine (no more than it was given) and
`refund = min(refund_counter, (gas_limit - remaining) / 2)`: the state after the call is the
state left by the virtual machine with the sender credited `(remaining + refund) * gas_price`
and the proposer credited `(gas_limit - remaining - refund) * gas_price`; the returned gas used
is `gas_limit - remaining - refund`; and the up-front debit `gas_limit * gas_price` is the sum of
the two credits. -/
theorem TransitionDb_refund_and_fee (host : Host) (ctx : EVMContext) (statedb : StateDB)
    (tx : Transaction) (gp : Nat) (s : Address) (hs : tx.sender = some s)
    (hwf : tx.WellFormed) (hgp64 : gp < uint64Size)
    (h : (ApplyMessage host ctx statedb tx gp).err = none)
    (hgas : (vmResult host ctx tx (NewStateTransition statedb gp)).leftOverGas ≤
      ((NewStateTransition statedb gp).beforeVM tx).gas) :
    (ApplyMessage host ctx statedb tx gp).state =
      (((vmResult host ctx tx (NewStateTransition statedb gp)).state.ensure s).AddBalance s
        ((((vmResult host ctx tx (NewStateTransition statedb gp)).leftOverGas
          + refundOf tx (vmResult host ctx tx (NewStateTransition statedb gp)) : Nat) : Int)
          * tx.gasPrice)).AddBalance ctx.Coinbase
        (((tx.gas - (vmResult host ctx tx (NewStateTransition statedb gp)).leftOverGas
          - refundOf tx (vmResult host ctx tx (NewStateTransition statedb gp)) : Nat) : Int)
          * tx.gasPrice) ∧
    (ApplyMessage host ctx statedb tx gp).usedGas =
      tx.gas - (vmResult host ctx tx (NewStateTransition statedb gp)).leftOverGas
        - refundOf tx (vmResult host ctx tx (NewStateTransition statedb gp)) ∧
    (tx.gas : Int) * tx.gasPrice =
      (((vmResult host ctx tx (NewStateTransition statedb gp)).leftOverGas
          + refundOf tx (vmResult host ctx tx (NewStateTransition statedb gp)) : Nat) : Int)
          * tx.gasPrice +
      (((tx.gas - (vmResult host ctx tx (NewStateTransition statedb gp)).leftOverGas
          - refundOf tx (vmResult host ctx tx (NewStateTransition statedb gp)) : Nat) : Int)
          * tx.gasPrice) := by
  obtain ⟨-, -, -, -, -, hsum, heq⟩ :=
    ApplyMessage_ok host ctx statedb tx gp s hs hwf hgp64 h hgas
  rw [heq]
  refine ⟨rfl, rfl, ?_⟩
  rw [← add_mul, ← Nat.cast_add]
  congr 2
  omega

/-- C2 on a concrete transfer: sender `1` pays for `30000` gas at price `20`, the virtual
machine returns `9000`, and `21000` are used. -/
theorem TransitionDb_refund_and_fee_witness :
    (ApplyMessage simpleHost (simpleCtx 1 2 20) (fundedState 1000000 5)
      (callTx 5 10 30000 20) 1000000).usedGas =
    (callTx 5 10 30000 20).gas
      - (vmResult simpleHost (simpleCtx 1 2 20) (callTx 5 10 30000 20)
          (NewStateTransition (fundedState 1000000 5) 1000000)).leftOverGas
      - refundOf (callTx 5 10 30000 20)
          (vmResult simpleHost (simpleCtx 1 2 20) (callTx 5 10 30000 20)
            (NewStateTransition (fundedState 1000000 5) 1000000)) :=
  (TransitionDb_refund_and_fee simpleHost (simpleCtx 1 2 20) (fundedState 1000000 5)
    (callTx 5 10 30000 20) 1000000 1 rfl (by decide) (by decide) (by decide) (by decide)).2.1

/-! ## Nonce increment (C3) -/

/-- C3 (amended): for a transaction from sender `s` that `TransitionDb` applies without error,
with `nonce(s) < 2 ^ 64 - 1` before the call, `nonce(s)` afterwards is `nonce(s)` before plus
one. For a call, `TransitionDb` itself makes the increment before the virtual machine is
invoked, and the conclusion needs only that the virtual machine (whether it succeeds, fails or
reverts) leaves the nonce of `s` as it received it; for a creation the increment is the one that
`vm.Create` makes to the nonce of its caller. -/
theorem TransitionDb_nonce_increment (host : Host) (ctx : EVMContext) (statedb : StateDB)
    (tx : Transaction) (gp : Nat) (s : Address) (hs : tx.sender = some s)
    (h : (ApplyMessage host ctx statedb tx gp).err = none)
    (hmax : statedb.GetNonce s < MaxUint64) :
    (tx.toAddress ≠ zeroAddress →
      (((NewStateTransition statedb gp).beforeVM tx).callInput tx s).2.state.GetNonce s =
        statedb.GetNonce s + 1 ∧
      ((vmResult host ctx tx (NewStateTransition statedb gp)).state.GetNonce s =
          (((NewStateTransition statedb gp).beforeVM tx).callInput tx s).2.state.GetNonce s →
        (ApplyMessage host ctx statedb tx gp).state.GetNonce s = statedb.GetNonce s + 1)) ∧
    (tx.toAddress = zeroAddress →
      (vmResult host ctx tx (NewStateTransition statedb gp)).state.GetNonce s =
          ((NewStateTransition statedb gp).beforeVM tx).state.GetNonce s + 1 →
        (ApplyMessage host ctx statedb tx gp).state.GetNonce s = statedb.GetNonce s + 1) := by
  obtain ⟨hbefore, -, -, -, v1, v2, hstate⟩ :=
    ApplyMessage_ok_state host ctx statedb tx gp s hs h
  have hfinal : (ApplyMessage host ctx statedb tx gp).state.GetNonce s =
      (vmResult host ctx tx (NewStateTransition statedb gp)).state.GetNonce s := by
    rw [hstate, StateDB.getNonce_addBalance, StateDB.getNonce_addBalance,
      StateDB.getNonce_ensure]
  have hb : ((NewStateTransition statedb gp).beforeVM tx).state.GetNonce s =
      statedb.GetNonce s := by
    rw [hbefore, StateDB.getNonce_subBalance, StateDB.getNonce_ensure]
  constructor
  · intro hto
    have hin : (((NewStateTransition statedb gp).beforeVM tx).callInput tx s).2.state.GetNonce s =
        statedb.GetNonce s + 1 := by
      rw [StateTransition.callInput_eq tx s _ hto]
      simp only [StateDB.getNonce_ensure, StateDB.getNonce_setNonce, if_true, hb]
      apply Nat.mod_eq_of_lt
      unfold MaxUint64 at hmax
      unfold uint64Size
      omega
    exact ⟨hin, fun hvm => by rw [hfinal, hvm, hin]⟩
  · intro _ hvm
    rw [hfinal, hvm, hb]

/-- C3 (amended) on a concrete call: the nonce of the sender `1` goes from `5` to `6`. -/
theorem TransitionDb_nonce_increment_witness :
    (ApplyMessage simpleHost (simpleCtx 1 2 20) (fundedState 1000000 5)
      (callTx 5 10 30000 20) 1000000).state.GetNonce 1 = (fundedState 1000000 5).GetNonce 1 + 1 :=
  ((TransitionDb_nonce_increment simpleHost (simpleCtx 1 2 20) (fundedState 1000000 5)
    (callTx 5 10 30000 20) 1000000 1 rfl (by decide) (by decide)).1 (by decide)).2 (by decide)

/-- C3 as stated fails at the largest nonce: a call from the sender `1` whose nonce is
`2 ^ 64 - 1` is applied without error, the `uint64` increment wraps, and the nonce afterwards is
`0`, not the nonce before plus one. -/
theorem TransitionDb_nonce_wraps :
    (ApplyMessage simpleHost (simpleCtx 1 2 20) (fundedState 1000000 (2 ^ 64 - 1))
      (callTx (2 ^ 64 - 1) 10 30000 20) 1000000).err = none ∧
    (ApplyMessage simpleHost (simpleCtx 1 2 20) (fundedState 1000000 (2 ^ 64 - 1))
      (callTx (2 ^ 64 - 1) 10 30000 20) 1000000).state.GetNonce 1 = 0 ∧
    (ApplyMessage simpleHost (simpleCtx 1 2 20) (fundedState 1000000 (2 ^ 64 - 1))
      (callTx (2 ^ 64 - 1) 10 30000 20) 1000000).state.GetNonce 1 ≠
      (fundedState 1000000 (2 ^ 64 - 1)).GetNonce 1 + 1 := by
  refine ⟨by decide, by decide, by decide⟩

/-! ## Balance changes of sender and proposer (C4) -/

/-- C4 (amended): for an applied call from sender `s` in a block of proposer `p ≠ s`, where the
virtual machine (given no more gas than it returns) moves the amount `a` out of the balance of
`s` and leaves the balance of `p` alone: the sender pays `gas_used * gas_price + a`, the
proposer receives `gas_used * gas_price`, and so the two differences add up to
`2 * gas_used * gas_price + a`. -/
theorem TransitionDb_balance_changes (host : Host) (ctx : EVMContext) (statedb : StateDB)
    (tx : Transaction) (gp : Nat) (s : Address) (a : Int) (hs : tx.sender = some s)
    (hwf : tx.WellFormed) (hgp64 : gp < uint64Size)
    (h : (ApplyMessage host ctx statedb tx gp).err = none)
    (hgas : (vmResult host ctx tx (NewStateTransition statedb gp)).leftOverGas ≤
      ((NewStateTransition statedb gp).beforeVM tx).gas)
    (hto : tx.toAddress ≠ zeroAddress) (hsp : s ≠ ctx.Coinbase)
    (hvs : (vmResult host ctx tx (NewStateTransition statedb gp)).state.GetBalance s =
      (((NewStateTransition statedb gp).beforeVM tx).callInput tx s).2.state.GetBalance s - a)
    (hvp : (vmResult host ctx tx (NewStateTransition statedb gp)).state.GetBalance ctx.Coinbase =
      (((NewStateTransition statedb gp).beforeVM tx).callInput tx s).2.state.GetBalance
        ctx.Coinbase) :
    statedb.GetBalance s - (ApplyMessage host ctx statedb tx gp).state.GetBalance s =
      ((ApplyMessage host ctx statedb tx gp).usedGas : Int) * tx.gasPrice + a ∧
    (ApplyMessage host ctx statedb tx gp).state.GetBalance ctx.Coinbase
        - statedb.GetBalance ctx.Coinbase =
      ((ApplyMessage host ctx statedb tx gp).usedGas : Int) * tx.gasPrice ∧
    (statedb.GetBalance s - (ApplyMessage host ctx statedb tx gp).state.GetBalance s) +
      ((ApplyMessage host ctx statedb tx gp).state.GetBalance ctx.Coinbase
        - statedb.GetBalance ctx.Coinbase) =
      2 * (((ApplyMessage host ctx statedb tx gp).usedGas : Int) * tx.gasPrice) + a := by
  obtain ⟨hbefore, -, -, -, -, hsum, heq⟩ :=
    ApplyMessage_ok host ctx statedb tx gp s hs hwf hgp64 h hgas
  have hps : ctx.Coinbase ≠ s := fun e => hsp e.symm
  rw [StateTransition.callInput_eq tx s _ hto] at hvs hvp
  simp only [hbefore, StateDB.getBalance_ensure, StateDB.getBalance_setNonce,
    StateDB.getBalance_subBalance, if_true, if_neg hps] at hvs hvp
  generalize vmResult host ctx tx (NewStateTransition statedb gp) = r at *
  have hsplit : (tx.gas : Int) * tx.gasPrice =
      ((r.leftOverGas + refundOf tx r : Nat) : Int) * tx.gasPrice +
      ((tx.gas - r.leftOverGas - refundOf tx r : Nat) : Int) * tx.gasPrice := by
    rw [← add_mul, ← Nat.cast_add]
    congr 2
    omega
  have hS : (ApplyMessage host ctx statedb tx gp).state.GetBalance s =
      statedb.GetBalance s - (tx.gas : Int) * tx.gasPrice - a
        + ((r.leftOverGas + refundOf tx r : Nat) : Int) * tx.gasPrice := by
    rw [heq]
    simp only [StateDB.getBalance_addBalance, StateDB.getBalance_ensure, if_true, if_neg hsp,
      hvs]
  have hP : (ApplyMessage host ctx statedb tx gp).state.GetBalance ctx.Coinbase =
      statedb.GetBalance ctx.Coinbase
        + ((tx.gas - r.leftOverGas - refundOf tx r : Nat) : Int) * tx.gasPrice := by
    rw [heq]
    simp only [StateDB.getBalance_addBalance, StateDB.getBalance_ensure, if_true, if_neg hps,
      hvp]
  have hU : (ApplyMessage host ctx statedb tx gp).usedGas =
      tx.gas - r.leftOverGas - refundOf tx r := by rw [heq]
  rw [hS, hP, hU]
  refine ⟨?_, ?_, ?_⟩ <;> linarith

/-- C4 (amended) on a concrete transfer of `10` from `1` to `3` in a block of proposer `2`:
`21000` gas at price `20`, so the sender pays `420010` and the proposer receives `420000`. -/
theorem TransitionDb_balance_changes_witness :
    (fundedState 1000000 5).GetBalance 1 -
        (ApplyMessage simpleHost (simpleCtx 1 2 20) (fundedState 1000000 5)
          (callTx 5 10 30000 20) 1000000).state.GetBalance 1 =
      ((ApplyMessage simpleHost (simpleCtx 1 2 20) (fundedState 1000000 5)
          (callTx 5 10 30000 20) 1000000).usedGas : Int) * (callTx 5 10 30000 20).gasPrice + 10 :=
  (TransitionDb_balance_changes simpleHost (simpleCtx 1 2 20) (fundedState 1000000 5)
    (callTx 5 10 30000 20) 1000000 1 10 rfl (by decide) (by decide) (by decide) (by decide)
    (by decide) (by decide) (by decide) (by decide)).1

/-- C4 as stated fails on the simple transfer of the spec: sender `1` sends `10` to `3` with
`21000` gas at price `20` in a block of proposer `2`. The gas used is `21000`; the sender loses
`420010`, the proposer gains `420000`, and the sum `840010` is not
`gas_used * gas_price + a = 420010`. -/
theorem TransitionDb_conservation_fails :
    (ApplyMessage simpleHost (simpleCtx 1 2 20) (fundedState 1000000 0)
      (callTx 0 10 21000 20) 1000000).err = none ∧
    (ApplyMessage simpleHost (simpleCtx 1 2 20) (fundedState 1000000 0)
      (callTx 0 10 21000 20) 1000000).usedGas = 21000 ∧
    ((fundedState 1000000 0).GetBalance 1 -
        (ApplyMessage simpleHost (simpleCtx 1 2 20) (fundedState 1000000 0)
          (callTx 0 10 21000 20) 1000000).state.GetBalance 1) +
      ((ApplyMessage simpleHost (simpleCtx 1 2 20) (fundedState 1000000 0)
          (callTx 0 10 21000 20) 1000000).state.GetBalance 2 -
        (fundedState 1000000 0).GetBalance 2) = 840010 ∧
    ((fundedState 1000000 0).GetBalance 1 -
        (ApplyMessage simpleHost (simpleCtx 1 2 20) (fundedState 1000000 0)
          (callTx 0 10 21000 20) 1000000).state.GetBalance 1) +
      ((ApplyMessage simpleHost (simpleCtx 1 2 20) (fundedState 1000000 0)
          (callTx 0 10 21000 20) 1000000).state.GetBalance 2 -
        (fundedState 1000000 0).GetBalance 2) ≠
      ((ApplyMessage simpleHost (simpleCtx 1 2 20) (fundedState 1000000 0)
          (callTx 0 10 21000 20) 1000000).usedGas : Int) * (callTx 0 10 21000 20).gasPrice
        + (callTx 0 10 21000 20).amount := by
  refine ⟨by decide, by decide, by decide, by decide⟩

/-! ## Receipts of `ApplyTransaction` (C6, C8) -/

theorem ApplyTransaction_of_ok (host : Host) (author : Address) (gp : Nat) (statedb : StateDB)
    (header : BlockHeader) (tx : Transaction) (usedGas : Nat) (s : Address)
    (hs : tx.sender = some s)
    (h : (ApplyMessage host (NewEVMContext s tx.gasPrice header author) statedb tx gp).err
      = none) :
    ApplyTransaction host author gp statedb header tx usedGas =
      ApplyResult.success
        (makeReceipt host tx s
          (ApplyMessage host (NewEVMContext s tx.gasPrice header author) statedb tx gp).failed
          (ApplyMessage host (NewEVMContext s tx.gasPrice header author) statedb tx gp).usedGas
          ((usedGas +
            (ApplyMessage host (NewEVMContext s tx.gasPrice header author) statedb tx gp).usedGas)
            % uint64Size)
          (host.Finalise
            (ApplyMessage host (NewEVMContext s tx.gasPrice header author) statedb tx gp).state))
        (ApplyMessage host (NewEVMContext s tx.gasPrice header author) statedb tx gp).usedGas
        (host.Finalise
          (ApplyMessage host (NewEVMContext s tx.gasPrice header author) statedb tx gp).state)
        (ApplyMessage host (NewEVMContext s tx.gasPrice header author) statedb tx gp).gp
        ((usedGas +
          (ApplyMessage host (NewEVMContext s tx.gasPrice header author) statedb tx gp).usedGas)
          % uint64Size) := by
  unfold ApplyTransaction
  simp only [hs, h]
  rfl

theorem ApplyTransaction_success_inv (host : Host) (author : Address) (gp : Nat)
    (statedb : StateDB) (header : BlockHeader) (tx : Transaction) (usedGas : Nat)
    (rc : Receipt) (gas : Nat) (sdb : StateDB) (gp1 used1 : Nat)
    (h : ApplyTransaction host author gp statedb header tx usedGas =
      ApplyResult.success rc gas sdb gp1 used1) :
    ∃ s, tx.sender = some s ∧
      (ApplyMessage host (NewEVMContext s tx.gasPrice header author) statedb tx gp).err = none ∧
      gas = (ApplyMessage host (NewEVMContext s tx.gasPrice header author) statedb tx
        gp).usedGas ∧
      gp1 = (ApplyMessage host (NewEVMContext s tx.gasPrice header author) statedb tx gp).gp ∧
      used1 = (usedGas + gas) % uint64Size ∧
      rc = makeReceipt host tx s
        (ApplyMessage host (NewEVMContext s tx.gasPrice header author) statedb tx gp).failed
        gas used1 sdb := by
  cases hsd : tx.sender with
  | none => simp [ApplyTransaction, hsd] at h
  | some s =>
    refine ⟨s, rfl, ?_⟩
    cases he : (ApplyMessage host (NewEVMContext s tx.gasPrice header author) statedb tx gp).err
      with
    | some e => simp [ApplyTransaction, hsd, he] at h
    | none =>
      rw [ApplyTransaction_of_ok host author gp statedb header tx usedGas s hsd he] at h
      injection h with h1 h2 h3 h4 h5
      subst h2 h3 h4 h5
      exact ⟨rfl, rfl, rfl, rfl, h1.symm⟩

theorem makeReceipt_fields (host : Host) (tx : Transaction) (origin : Address) (failed : Bool)
    (gas usedGas1 : Nat) (statedb1 : StateDB) :
    (makeReceipt host tx origin failed gas usedGas1 statedb1).Status =
      (if failed then 0 else 1) ∧
    (makeReceipt host tx origin failed gas usedGas1 statedb1).GasUsed = gas ∧
    (makeReceipt host tx origin failed gas usedGas1 statedb1).CumulativeGasUsed = usedGas1 ∧
    (makeReceipt host tx origin failed gas usedGas1 statedb1).ContractAddress =
      (if tx.toAddress = zeroAddress then host.CreateAddress origin tx.nonce
        else zeroAddress) := by
  unfold makeReceipt NewReceipt boolToUint32
  by_cases hto : tx.toAddress = zeroAddress <;> cases failed <;> simp [hto]

/-- C6 (amended): `NewReceipt(root, failed, gas).Status` is `1` for `failed = false` and `0` for
`failed = true`; and for a transaction that `ApplyTransaction` applies (its `ApplyMessage`
returns no error), a receipt is emitted whose `Status` is `1` when the execution of the virtual
machine succeeded and `0` when it failed or reverted. -/
theorem ApplyTransaction_receipt_status (host : Host) (author : Address) (gp : Nat)
    (statedb : StateDB) (header : BlockHeader) (tx : Transaction) (usedGas : Nat) (s : Address)
    (hs : tx.sender = some s)
    (h : (ApplyMessage host (NewEVMContext s tx.gasPrice header author) statedb tx gp).err
      = none) :
    (∀ (root : List Byte) (failed : Bool) (gas : Nat),
      (NewReceipt root failed gas).Status = if failed then 0 else 1) ∧
    ∃ rc, (ApplyTransaction host author gp statedb header tx usedGas).receipt = some rc ∧
      rc.Status =
        if (vmResult host (NewEVMContext s tx.gasPrice header author) tx
            (NewStateTransition statedb gp)).err.isSome then 0 else 1 := by
  constructor
  · intro root failed gas
    cases failed <;> simp [NewReceipt, boolToUint32]
  · obtain ⟨-, -, -, hfailed, -⟩ :=
      ApplyMessage_ok_state host (NewEVMContext s tx.gasPrice header author) statedb tx gp s hs h
    rw [ApplyTransaction_of_ok host author gp statedb header tx usedGas s hs h]
    refine ⟨_, rfl, ?_⟩
    rw [(makeReceipt_fields _ _ _ _ _ _ _).1, hfailed]

/-- C6 (amended) on a creation that reverts: the receipt has status `0`. -/
theorem ApplyTransaction_receipt_status_witness :
    ∃ rc, (ApplyTransaction simpleHost 2 1000000 (fundedState 10000000 0) BlockHeader.zero
        (createTx 0 [] 60000 20) 0).receipt = some rc ∧
      rc.Status =
        if (vmResult simpleHost (NewEVMContext 1 (createTx 0 [] 60000 20).gasPrice
            BlockHeader.zero 2) (createTx 0 [] 60000 20)
            (NewStateTransition (fundedState 10000000 0) 1000000)).err.isSome then 0 else 1 :=
  (ApplyTransaction_receipt_status simpleHost 2 1000000 (fundedState 10000000 0)
    BlockHeader.zero (createTx 0 [] 60000 20) 0 1 rfl (by decide)).2

/-- C6 as stated fails: the receipt of a failed execution has status `0`, not `2`. -/
theorem NewReceipt_failed_status_zero :
    (NewReceipt [] true 21000).Status = 0 ∧
    (NewReceipt [] true 21000).Status ≠ RECEIP_STATUS_REVERT ∧
    ((ApplyTransaction simpleHost 2 1000000 (fundedState 10000000 0) BlockHeader.zero
        (createTx 0 [] 60000 20) 0).receipt.map (fun rc => rc.Status)) = some 0 := by
  refine ⟨by decide, by decide, by decide⟩

/-- C8 (amended): the receipt produced by `ApplyTransaction` carries the contract address
`CreateAddress(sender, tx.nonce)` exactly when the transaction is a contract creation
(`to` is the zero address), whether the execution of the virtual machine succeeded or failed;
for a call the `ContractAddress` of the receipt is the zero address. -/
theorem ApplyTransaction_contract_address (host : Host) (author : Address) (gp : Nat)
    (statedb : StateDB) (header : BlockHeader) (tx : Transaction) (usedGas : Nat) (s : Address)
    (hs : tx.sender = some s)
    (h : (ApplyMessage host (NewEVMContext s tx.gasPrice header author) statedb tx gp).err
      = none) :
    ∃ rc, (ApplyTransaction host author gp statedb header tx usedGas).receipt = some rc ∧
      (tx.toAddress = zeroAddress → rc.ContractAddress = host.CreateAddress s tx.nonce) ∧
      (tx.toAddress ≠ zeroAddress → rc.ContractAddress = zeroAddress) := by
  rw [ApplyTransaction_of_ok host author gp statedb header tx usedGas s hs h]
  refine ⟨_, rfl, ?_, ?_⟩
  · intro hto
    rw [(makeReceipt_fields _ _ _ _ _ _ _).2.2.2, if_pos hto]
  · intro hto
    rw [(makeReceipt_fields _ _ _ _ _ _ _).2.2.2, if_neg hto]

/-- C8 (amended) on a call: the receipt carries the zero address. -/
theorem ApplyTransaction_contract_address_witness :
    ∃ rc, (ApplyTransaction simpleHost 2 1000000 (fundedState 1000000 5) BlockHeader.zero
        (callTx 5 10 30000 20) 0).receipt = some rc ∧
      ((callTx 5 10 30000 20).toAddress = zeroAddress →
        rc.ContractAddress = simpleHost.CreateAddress 1 (callTx 5 10 30000 20).nonce) ∧
      ((callTx 5 10 30000 20).toAddress ≠ zeroAddress → rc.ContractAddress = zeroAddress) :=
  ApplyTransaction_contract_address simpleHost 2 1000000 (fundedState 1000000 5)
    BlockHeader.zero (callTx 5 10 30000 20) 0 1 rfl (by decide)

/-- C8 as stated fails: a contract creation whose execution reverts (receipt status `0`, not
success) still gets a receipt whose `ContractAddress` is `CreateAddress(sender, tx.nonce)`, here
the non-zero address `2`. -/
theorem ApplyTransaction_failed_creation_has_address :
    (createTx 0 [] 60000 20).toAddress = zeroAddress ∧
    (vmResult simpleHost (NewEVMContext 1 20 BlockHeader.zero 2) (createTx 0 [] 60000 20)
      (NewStateTransition (fundedState 10000000 0) 1000000)).err =
      some Error.ErrExecutionReverted ∧
    ((ApplyTransaction simpleHost 2 1000000 (fundedState 10000000 0) BlockHeader.zero
        (createTx 0 [] 60000 20) 0).receipt.map (fun rc => rc.Status)) = some 0 ∧
    ((ApplyTransaction simpleHost 2 1000000 (fundedState 10000000 0) BlockHeader.zero
        (createTx 0 [] 60000 20) 0).receipt.map (fun rc => rc.ContractAddress)) = some 2 ∧
    (2 : Address) ≠ zeroAddress := by
  refine ⟨by decide, by decide, by decide, by decide, by decide⟩

/-! ## Block processing (C7) -/

theorem runVM_leftOverGas (host : Host) (hsound : host.GasSound) (ctx : EVMContext)
    (tx : Transaction) (s : Address) (st : StateTransition) :
    (runVM host ctx tx s st).leftOverGas ≤ st.gas := by
  unfold runVM
  by_cases hto : tx.toAddress = zeroAddress
  · rw [if_pos hto]; exact hsound.2 _ _ _ _ _ _
  · rw [if_neg hto, StateTransition.callInput_eq tx s st hto]
    exact hsound.1 _ _ _ _ _ _ _

/-- One successful `ApplyTransaction`: the receipt records the gas used and the new cumulative
gas, and the gas pool shrinks by exactly the gas used. -/
theorem ApplyTransaction_step (host : Host) (hsound : host.GasSound) (author : Address)
    (gp : Nat) (statedb : StateDB) (header : BlockHeader) (tx : Transaction) (usedGas : Nat)
    (hwf : tx.WellFormed) (hgp : gp < uint64Size)
    (rc : Receipt) (gas : Nat) (sdb : StateDB) (gp1 used1 : Nat)
    (h : ApplyTransaction host author gp statedb header tx usedGas =
      ApplyResult.success rc gas sdb gp1 used1) :
    rc.GasUsed = gas ∧ rc.CumulativeGasUsed = used1 ∧ used1 = (usedGas + gas) % uint64Size ∧
    gp1 + gas = gp := by
  obtain ⟨s, hs, herr, hgas, hgp1, hused, hrc⟩ :=
    ApplyTransaction_success_inv host author gp statedb header tx usedGas rc gas sdb gp1 used1 h
  have hlo : (vmResult host (NewEVMContext s tx.gasPrice header author) tx
      (NewStateTransition statedb gp)).leftOverGas ≤
      ((NewStateTransition statedb gp).beforeVM tx).gas := by
    unfold vmResult
    exact runVM_leftOverGas host hsound _ _ _ _
  obtain ⟨-, -, hle, -, -, hsum, heq⟩ :=
    ApplyMessage_ok host (NewEVMContext s tx.gasPrice header author) statedb tx gp s hs hwf hgp
      herr hlo
  rw [heq] at hgas hgp1
  simp only at hgas hgp1
  refine ⟨?_, ?_, hused, ?_⟩
  · rw [hrc, (makeReceipt_fields _ _ _ _ _ _ _).2.1]
  · rw [hrc, (makeReceipt_fields _ _ _ _ _ _ _).2.2.1]
  · omega

/-- The loop of `Process` against the run of `ApplyTransaction`: with a virtual machine that
returns no more gas than it is given and `usedGas + gp` within `uint64`, the loop appends the
receipts of the run, records exact gas totals, and returns nothing but the error when a
transaction fails. -/
theorem Process.loop_spec (host : Host) (hsound : host.GasSound) (header : BlockHeader)
    (txs : List Transaction) :
    ∀ (i : Nat) (receipts : List Receipt) (allLogs : List Log) (usedGas gp : Nat)
      (statedb : StateDB),
      (∀ tx ∈ txs, tx.WellFormed) → usedGas + gp < uint64Size →
      ((applyAll host header txs i usedGas gp statedb).2 = none →
        (Process.loop host header txs i receipts allLogs usedGas gp statedb).receipts =
          receipts ++ (applyAll host header txs i usedGas gp statedb).1.map Prod.fst ∧
        (Process.loop host header txs i receipts allLogs usedGas gp statedb).logs =
          allLogs ++ ((applyAll host header txs i usedGas gp statedb).1.map Prod.fst).flatMap
            (fun rc => rc.Logs) ∧
        (Process.loop host header txs i receipts allLogs usedGas gp statedb).usedGas =
          usedGas + ((applyAll host header txs i usedGas gp statedb).1.map Prod.snd).sum ∧
        (Process.loop host header txs i receipts allLogs usedGas gp statedb).err = none ∧
        (applyAll host header txs i usedGas gp statedb).1.length = txs.length ∧
        (applyAll host header txs i usedGas gp statedb).1.map (fun p => p.1.GasUsed) =
          (applyAll host header txs i usedGas gp statedb).1.map Prod.snd ∧
        (applyAll host header txs i usedGas gp statedb).1.map (fun p => p.1.CumulativeGasUsed) =
          runningTotals usedGas ((applyAll host header txs i usedGas gp statedb).1.map
            Prod.snd)) ∧
      (∀ e, (applyAll host header txs i usedGas gp statedb).2 = some e →
        (Process.loop host header txs i receipts allLogs usedGas gp statedb).receipts = [] ∧
        (Process.loop host header txs i receipts allLogs usedGas gp statedb).logs = [] ∧
        (Process.loop host header txs i receipts allLogs usedGas gp statedb).usedGas = 0 ∧
        (Process.loop host header txs i receipts allLogs usedGas gp statedb).err = some e) := by
  induction txs with
  | nil =>
    intro i receipts allLogs usedGas gp statedb _ _
    simp [applyAll, Process.loop, runningTotals]
  | cons tx rest ih =>
    intro i receipts allLogs usedGas gp statedb hwf hinv
    have hwf1 : tx.WellFormed := hwf tx (List.mem_cons_self _ _)
    have hwf2 : ∀ t ∈ rest, t.WellFormed := fun t ht => hwf t (List.mem_cons_of_mem _ ht)
    cases hr : ApplyTransaction host header.Proposer gp
        (statedb.Prepare tx.hash header.ParentHash i) header tx usedGas with
    | failure e sdb gp1 =>
      simp [applyAll, Process.loop, hr]
    | success rc gas sdb gp1 used1 =>
      obtain ⟨hg, hc, hu, hpool⟩ :=
        ApplyTransaction_step host hsound header.Proposer gp _ header tx usedGas hwf1
          (by omega) rc gas sdb gp1 used1 hr
      have hu1 : used1 = usedGas + gas := by
        rw [hu]; exact Nat.mod_eq_of_lt (by omega)
      subst hu1
      have hinv1 : usedGas + gas + gp1 < uint64Size := by omega
      obtain ⟨ihok, iherr⟩ :=
        ih (i + 1) (receipts ++ [rc]) (allLogs ++ rc.Logs) (usedGas + gas) gp1 sdb hwf2 hinv1
      simp only [applyAll, Process.loop, hr]
      constructor
      · intro hnone
        obtain ⟨h1, h2, h3, h4, h5, h6, h7⟩ := ihok hnone
        refine ⟨?_, ?_, ?_, h4, ?_, ?_, ?_⟩
        · rw [h1]; simp
        · rw [h2]; simp [List.flatMap_cons]
        · rw [h3]; simp [Nat.add_assoc]
        · simp [h5]
        · simp [h6, hg]
        · simp only [List.map_cons, runningTotals, h7, hc]
      · intro e he
        exact iherr e he

theorem runningTotals_getElem? (gs : List Nat) :
    ∀ (acc i : Nat), i < gs.length →
      (runningTotals acc gs)[i]? = some (acc + (gs.take (i + 1)).sum) := by
  induction gs with
  | nil => intro acc i hi; simp at hi
  | cons g gs ih =>
    intro acc i hi
    cases i with
    | zero => simp [runningTotals]
    | succ k =>
      have hk : k < gs.length := by simpa using hi
      simp only [runningTotals, List.getElem?_cons_succ, ih (acc + g) k hk, List.take_succ_cons,
        List.sum_cons, Nat.add_assoc]

theorem simpleHost_gasSound : simpleHost.GasSound := by
  constructor
  · intro ctx st caller addr input gas value
    simp only [simpleHost]
    split_ifs <;> simp
  · intro ctx st caller code gas value
    simp only [simpleHost]
    split_ifs <;> simp

/-- C7: with a virtual machine that returns no more gas than it is given, `Process` on a block
whose transactions all apply without error returns one receipt per transaction, in order, with
`receipts[i].GasUsed` the gas used by the `i`-th transaction and
`receipts[i].CumulativeGasUsed = g_0 + ... + g_i`, returns `usedGas = g_0 + ... + g_(n-1)` and
the concatenation of the logs of the receipts; on a block with no transactions it returns no
receipts, no logs, gas `0` and no error; and when a transaction fails it returns no receipts,
no logs, gas `0` and that error. -/
theorem Process_receipts_and_gas (host : Host) (hsound : host.GasSound) (block : Block)
    (statedb : StateDB) (hwf : ∀ tx ∈ block.Transactions, tx.WellFormed) :
    ((applyAll host block.Header block.Transactions 0 0 (AddGas 0 host.TempGasLimit)
        statedb).2 = none →
      (Process host block statedb).err = none ∧
      (Process host block statedb).receipts =
        (applyAll host block.Header block.Transactions 0 0 (AddGas 0 host.TempGasLimit)
          statedb).1.map Prod.fst ∧
      (Process host block statedb).receipts.length = block.Transactions.length ∧
      (Process host block statedb).receipts.map (fun rc => rc.GasUsed) =
        (applyAll host block.Header block.Transactions 0 0 (AddGas 0 host.TempGasLimit)
          statedb).1.map Prod.snd ∧
      (∀ i, i < block.Transactions.length →
        ((Process host block statedb).receipts.map (fun rc => rc.CumulativeGasUsed))[i]? =
          some ((((applyAll host block.Header block.Transactions 0 0
            (AddGas 0 host.TempGasLimit) statedb).1.map Prod.snd).take (i + 1)).sum)) ∧
      (Process host block statedb).usedGas =
        ((applyAll host block.Header block.Transactions 0 0 (AddGas 0 host.TempGasLimit)
          statedb).1.map Prod.snd).sum ∧
      (Process host block statedb).logs =
        (Process host block statedb).receipts.flatMap (fun rc => rc.Logs)) ∧
    (block.Transactions = [] →
      (Process host block statedb).receipts = [] ∧ (Process host block statedb).logs = [] ∧
      (Process host block statedb).usedGas = 0 ∧ (Process host block statedb).err = none) ∧
    (∀ e, (applyAll host block.Header block.Transactions 0 0 (AddGas 0 host.TempGasLimit)
        statedb).2 = some e →
      (Process host block statedb).receipts = [] ∧ (Process host block statedb).logs = [] ∧
      (Process host block statedb).usedGas = 0 ∧
      (Process host block statedb).err = some e) := by
  have hpool : 0 + AddGas 0 host.TempGasLimit < uint64Size := by
    unfold AddGas
    rw [Nat.zero_add]
    exact Nat.mod_lt _ (by unfold uint64Size; norm_num)
  obtain ⟨hok, herr⟩ :=
    Process.loop_spec host hsound block.Header block.Transactions 0 [] [] 0
      (AddGas 0 host.TempGasLimit) statedb hwf hpool
  refine ⟨?_, ?_, ?_⟩
  · intro hnone
    obtain ⟨h1, h2, h3, h4, h5, h6, h7⟩ := hok hnone
    simp only [List.nil_append, Nat.zero_add] at h1 h2 h3
    unfold Process
    refine ⟨h4, h1, ?_, ?_, ?_, h3, ?_⟩
    · rw [h1, List.length_map, h5]
    · rw [h1, List.map_map]; exact h6
    · intro i hi
      rw [h1, List.map_map]
      have h7' : List.map ((fun rc => rc.CumulativeGasUsed) ∘ Prod.fst)
          (applyAll host block.Header block.Transactions 0 0 (AddGas 0 host.TempGasLimit)
            statedb).1 =
          runningTotals 0 ((applyAll host block.Header block.Transactions 0 0
            (AddGas 0 host.TempGasLimit) statedb).1.map Prod.snd) := h7
      rw [h7', runningTotals_getElem? _ 0 i (by rw [List.length_map, h5]; exact hi),
        Nat.zero_add]
    · rw [h2, h1]
  · intro hnil
    unfold Process
    rw [hnil]
    simp [Process.loop]
  · intro e he
    exact herr e he

/-- C7 on a block of two transfers: the gas returned by `Process` is the sum of the gas used
by the two transactions. -/
theorem Process_receipts_and_gas_witness :
    (Process simpleHost twoCallBlock (fundedState 10000000 5)).usedGas =
      ((applyAll simpleHost twoCallBlock.Header twoCallBlock.Transactions 0 0
        (AddGas 0 simpleHost.TempGasLimit) (fundedState 10000000 5)).1.map Prod.snd).sum ∧
    (Process simpleHost twoCallBlock (fundedState 10000000 5)).usedGas = 42000 :=
  ⟨((Process_receipts_and_gas simpleHost simpleHost_gasSound twoCallBlock
      (fundedState 10000000 5) (by decide)).1 (by decide)).2.2.2.2.2.1, by decide⟩

/-! ## Proposer schedule (C9, C10) -/

theorem selectAuthority_eq (E : Nat) (total : Int) (ht : total ≠ 0) (asg : Address → Nat)
    (l : List Authority) :
    selectAuthority E total asg l =
      some ((l.find? (fun a => decide (asg a.address < quotaOf E total a))).map
        (fun a => a.address)) := by
  induction l with
  | nil => simp [selectAuthority]
  | cons a t ih =>
    simp only [selectAuthority, assignedBlocks, if_neg ht, List.find?_cons]
    by_cases h : asg a.address < quotaOf E total a
    · have h' : asg a.address < Int.natAbs (a.weight * (E : Int) / total) % uint64Size := h
      simp [h, h']
    · have h' : ¬ asg a.address < Int.natAbs (a.weight * (E : Int) / total) % uint64Size := h
      simp [h, h', ih]

theorem deficit_eq_zero (E : Nat) (total : Int) (asg : Address → Nat) (l : List Authority)
    (h : ∀ a ∈ l, ¬ asg a.address < quotaOf E total a) : deficit E total l asg = 0 := by
  unfold deficit
  apply List.sum_eq_zero
  intro x hx
  obtain ⟨a, ha, rfl⟩ := List.mem_map.1 hx
  have := h a ha
  omega

theorem deficit_bump_of_not_mem (E : Nat) (total : Int) (asg : Address → Nat) (x : Address)
    (l : List Authority) (h : x ∉ l.map (fun a => a.address)) :
    deficit E total l (bump asg x) = deficit E total l asg := by
  unfold deficit
  congr 1
  apply List.map_congr_left
  intro a ha
  have hne : a.address ≠ x := fun e => h (List.mem_map.2 ⟨a, ha, e⟩)
  simp [bump, hne]

theorem quotaOf_lt (E : Nat) (total : Int) (a : Authority) : quotaOf E total a < uint64Size :=
  Nat.mod_lt _ (by unfold uint64Size; norm_num)

theorem deficit_bump (E : Nat) (total : Int) (asg : Address → Nat) (a0 : Authority)
    (l : List Authority) (hnd : (l.map (fun a => a.address)).Nodup) (hmem : a0 ∈ l)
    (hlt : asg a0.address < quotaOf E total a0) :
    deficit E total l (bump asg a0.address) + 1 = deficit E total l asg := by
  induction l with
  | nil => simp at hmem
  | cons a t ih =>
    have hq := quotaOf_lt E total a0
    rw [List.map_cons, List.nodup_cons] at hnd
    obtain ⟨hnot, hndt⟩ := hnd
    by_cases hea : a.address = a0.address
    · have ha0 : a0 = a := by
        rcases List.mem_cons.1 hmem with h | h
        · exact h
        · exact absurd (List.mem_map.2 ⟨a0, h, hea.symm⟩) hnot
      subst ha0
      have ht := deficit_bump_of_not_mem E total asg a0.address t hnot
      unfold deficit at ht ⊢
      simp only [List.map_cons, List.sum_cons, ht]
      have hb : bump asg a0.address a0.address = asg a0.address + 1 := by
        simp only [bump, if_true]
        exact Nat.mod_eq_of_lt (by omega)
      rw [hb]
      omega
    · have hmt : a0 ∈ t := by
        rcases List.mem_cons.1 hmem with h | h
        · exact absurd (by rw [h]) hea
        · exact h
      have iht := ih hndt hmt
      unfold deficit at iht ⊢
      simp only [List.map_cons, List.sum_cons]
      have hb : bump asg a0.address a.address = asg a.address := by
        simp [bump, hea]
      rw [hb]
      omega

/-- The greedy loop of `UpdateSchedule`: from counters within the quotas and heights that are
distinct and not yet in the schedule, the loop ends without panic; the counters stay within the
quotas; heights outside the list are untouched; each authority gains exactly the heights by
which its counter grew; the `j`-th height is assigned exactly when `j` is below the deficit; and
the deficit shrinks by the number of heights, down to zero. -/
theorem assignHeights_spec (E : Nat) (total : Int) (ht : total ≠ 0) (l : List Authority)
    (hnd : (l.map (fun a => a.address)).Nodup) :
    ∀ (hs : List Nat) (sched : Nat → Option Address) (asg : Address → Nat),
      hs.Nodup → (∀ h ∈ hs, sched h = none) →
      (∀ a ∈ l, asg a.address ≤ quotaOf E total a) →
      ∃ sched1 asg1, assignHeights E total l hs sched asg = some sched1 ∧
        (∀ a ∈ l, asg1 a.address ≤ quotaOf E total a) ∧
        (∀ k, k ∉ hs → sched1 k = sched k) ∧
        (∀ a ∈ l, hs.countP (fun h => sched1 h == some a.address) + asg a.address =
          asg1 a.address) ∧
        (∀ j h, hs[j]? = some h → ((sched1 h).isSome = true ↔ j < deficit E total l asg)) ∧
        (∀ h ∈ hs, ∀ v, sched1 h = some v → v ∈ l.map (fun a => a.address)) ∧
        deficit E total l asg1 = deficit E total l asg - min hs.length (deficit E total l asg) := by
  intro hs
  induction hs with
  | nil =>
    intro sched asg _ _ hle
    exact ⟨sched, asg, rfl, hle, fun _ _ => rfl, fun a _ => by simp, fun j h hj => by simp at hj,
      fun h hh => by simp at hh, by simp⟩
  | cons h0 hs ih =>
    intro sched asg hnodup hnone hle
    rw [List.nodup_cons] at hnodup
    obtain ⟨hh0, hnodup1⟩ := hnodup
    simp only [assignHeights, selectAuthority_eq E total ht asg l]
    cases hf : l.find? (fun a => decide (asg a.address < quotaOf E total a)) with
    | none =>
      have hall : ∀ a ∈ l, ¬ asg a.address < quotaOf E total a := by
        intro a ha
        have := List.find?_eq_none.1 hf a ha
        simpa using this
      have hd0 : deficit E total l asg = 0 := deficit_eq_zero E total asg l hall
      obtain ⟨sched1, asg1, hrun, h1, h2, h3, h4, h5, h6⟩ :=
        ih sched asg hnodup1 (fun h hh => hnone h (List.mem_cons_of_mem _ hh)) hle
      have hs0 : sched1 h0 = none := by
        rw [h2 h0 hh0]; exact hnone h0 (List.mem_cons_self _ _)
      refine ⟨sched1, asg1, by simpa using hrun, h1, ?_, ?_, ?_, ?_, ?_⟩
      · intro k hk
        exact h2 k (fun hk1 => hk (List.mem_cons_of_mem _ hk1))
      · intro a ha
        rw [List.countP_cons]
        simp only [hs0]
        simpa using h3 a ha
      · intro j h hj
        cases j with
        | zero =>
          simp only [List.getElem?_cons_zero, Option.some.injEq] at hj
          subst hj
          simp [hs0, hd0]
        | succ j =>
          simp only [List.getElem?_cons_succ] at hj
          have := h4 j h hj
          rw [hd0] at this ⊢
          simpa using this
      · intro h hh v hv
        rcases List.mem_cons.1 hh with e | hh1
        · subst e; rw [hs0] at hv; exact absurd hv (by simp)
        · exact h5 h hh1 v hv
      · rw [h6, hd0]; simp
    | some a0 =>
      have hmem : a0 ∈ l := List.mem_of_find?_eq_some hf
      have hlt : asg a0.address < quotaOf E total a0 := by
        simpa using List.find?_some hf
      have hdb := deficit_bump E total asg a0 l hnd hmem hlt
      have hq := quotaOf_lt E total a0
      have hbump_self : bump asg a0.address a0.address = asg a0.address + 1 := by
        simp only [bump, if_true]
        exact Nat.mod_eq_of_lt (by omega)
      have hle1 : ∀ a ∈ l, bump asg a0.address a.address ≤ quotaOf E total a := by
        intro a ha
        by_cases hea : a.address = a0.address
        · have hEq : a = a0 := by
            by_contra hne
            have hinj := List.inj_on_of_nodup_map hnd ha hmem hea
            exact hne hinj
          subst hEq
          rw [hbump_self]; omega
        · have : bump asg a0.address a.address = asg a.address := by simp [bump, hea]
          rw [this]; exact hle a ha
      obtain ⟨sched1, asg1, hrun, h1, h2, h3, h4, h5, h6⟩ :=
        ih (fun k => if k = h0 then some a0.address else sched k) (bump asg a0.address) hnodup1
          (fun h hh => by
            have hne : h ≠ h0 := fun e => hh0 (e ▸ hh)
            simp only [if_neg hne]
            exact hnone h (List.mem_cons_of_mem _ hh))
          hle1
      have hs0 : sched1 h0 = some a0.address := by
        rw [h2 h0 hh0]; simp
      refine ⟨sched1, asg1, ?_, h1, ?_, ?_, ?_, ?_, ?_⟩
      · simpa [bump] using hrun
      · intro k hk
        have hk0 : k ≠ h0 := fun e => hk (e ▸ List.mem_cons_self _ _)
        rw [h2 k (fun hk1 => hk (List.mem_cons_of_mem _ hk1))]
        simp [hk0]
      · intro a ha
        rw [List.countP_cons]
        have h3a := h3 a ha
        by_cases hea : a.address = a0.address
        · have hb : bump asg a0.address a.address = asg a.address + 1 := by
            rw [hea]; exact hbump_self
          rw [hb] at h3a
          simp only [hs0, hea, beq_self_eq_true, if_true]
          rw [hea] at h3a
          omega
        · have hb : bump asg a0.address a.address = asg a.address := by simp [bump, hea]
          rw [hb] at h3a
          have hne : (sched1 h0 == some a.address) = false := by
            rw [hs0]
            simp only [beq_eq_false_iff_ne, ne_eq, Option.some.injEq]
            exact fun e => hea e.symm
          simp only [hne]
          simpa using h3a
      · intro j h hj
        cases j with
        | zero =>
          simp only [List.getElem?_cons_zero, Option.some.injEq] at hj
          subst hj
          simp only [hs0, Option.isSome_some, true_iff]
          omega
        | succ j =>
          simp only [List.getElem?_cons_succ] at hj
          have := h4 j h hj
          rw [this]
          omega
      · intro h hh v hv
        rcases List.mem_cons.1 hh with e | hh1
        · subst e
          rw [hs0] at hv
          simp only [Option.some.injEq] at hv
          subst hv
          exact List.mem_map.2 ⟨a0, hmem, rfl⟩
        · exact h5 h hh1 v hv
      · rw [h6]
        simp only [List.length_cons]
        omega

theorem deficit_zero_imp (E : Nat) (total : Int) (asg : Address → Nat) (l : List Authority)
    (hle : ∀ a ∈ l, asg a.address ≤ quotaOf E total a) (h0 : deficit E total l asg = 0) :
    ∀ a ∈ l, asg a.address = quotaOf E total a := by
  intro a ha
  unfold deficit at h0
  have := List.sum_eq_zero_iff.1 h0 _ (List.mem_map.2 ⟨a, ha, rfl⟩)
  have := hle a ha
  omega

theorem sum_natAbs_share_mul_le (E : Nat) (total : Int) (ht : 0 < total) (l : List Authority)
    (hw : ∀ a ∈ l, 0 ≤ a.weight) :
    (((l.map (fun a => Int.natAbs (a.weight * (E : Int) / total))).sum : Nat) : Int) * total ≤
      (l.map (fun a => a.weight)).sum * (E : Int) := by
  induction l with
  | nil => simp
  | cons a t ih =>
    have hwa : 0 ≤ a.weight := hw a (List.mem_cons_self _ _)
    have iht := ih (fun b hb => hw b (List.mem_cons_of_mem _ hb))
    have hnn : 0 ≤ a.weight * (E : Int) / total :=
      Int.ediv_nonneg (mul_nonneg hwa (Int.ofNat_nonneg _)) (le_of_lt ht)
    have hmul : a.weight * (E : Int) / total * total ≤ a.weight * (E : Int) :=
      Int.ediv_mul_le _ (ne_of_gt ht)
    simp only [List.map_cons, List.sum_cons, Nat.cast_add, Int.natAbs_of_nonneg hnn]
    nlinarith

/-- The schedule that `UpdateSchedule` builds from a non-empty validator map with positive
weights: every validator gets exactly its floor quota of heights, the quotas sum to at most the
epoch length, exactly the first `quotaSum` heights of the epoch are assigned, to validators of
the map, and no height outside the epoch is. -/
theorem UpdateSchedule_spec (E : Nat) (salt : List Byte) (fromBlock : Nat)
    (auths : List (Address × Int)) (hnd : (auths.map Prod.fst).Nodup) (hne : auths ≠ [])
    (hpos : ∀ p ∈ auths, 0 < p.2) (hov : fromBlock + E < uint64Size) :
    ∃ ps, UpdateSchedule E salt fromBlock auths = some ps ∧
      (∀ p ∈ auths, heightsOf ps E fromBlock p.1 = floorQuota E auths p.2) ∧
      quotaSum E auths ≤ E ∧
      (∀ h, fromBlock ≤ h → h < fromBlock + E →
        ((ps.schedule h).isSome = true ↔ h < fromBlock + quotaSum E auths)) ∧
      (∀ h v, ps.schedule h = some v → v ∈ auths.map Prod.fst) ∧
      (∀ h, h < fromBlock ∨ fromBlock + E ≤ h → ps.schedule h = none) := by
  -- the sorted authorities are a permutation of the map entries
  set l0 : List Authority := auths.map (fun p => { address := p.1, weight := p.2 }) with hl0
  have hperm : (sortAuthorities l0).Perm l0 := List.perm_insertionSort _ _
  have hmem : ∀ a, a ∈ sortAuthorities l0 ↔ a ∈ l0 := fun a => hperm.mem_iff
  have haddr : (l0.map (fun a => a.address)) = auths.map Prod.fst := by
    rw [hl0, List.map_map]; rfl
  have hwts : (l0.map (fun a => a.weight)) = auths.map Prod.snd := by
    rw [hl0, List.map_map]; rfl
  have hndl : ((sortAuthorities l0).map (fun a => a.address)).Nodup := by
    rw [(hperm.map _).nodup_iff, haddr]; exact hnd
  -- the total weight
  have htotal : ((sortAuthorities l0).map (fun auth => auth.weight)).foldl (· + ·) 0 =
      (auths.map Prod.snd).sum := by
    rw [← List.sum_eq_foldl, (hperm.map _).sum_eq, hwts]
  set total : Int := (auths.map Prod.snd).sum with htot
  have hposl : ∀ a ∈ l0, 0 < a.weight := by
    intro a ha
    rw [hl0] at ha
    obtain ⟨p, hp, rfl⟩ := List.mem_map.1 ha
    exact hpos p hp
  have htpos : 0 < total := by
    obtain ⟨p, hp⟩ := List.exists_mem_of_ne_nil auths hne
    have h1 : p.2 ≤ total :=
      List.single_le_sum (fun x hx => by
        obtain ⟨q, hq, rfl⟩ := List.mem_map.1 hx
        exact le_of_lt (hpos q hq)) p.2 (List.mem_map.2 ⟨p, hp, rfl⟩)
    have := hpos p hp
    omega
  have hE : E < uint64Size := by omega
  -- quotas
  have hsumle : (l0.map (fun a => Int.natAbs (a.weight * (E : Int) / total))).sum ≤ E := by
    have h := sum_natAbs_share_mul_le E total htpos l0 (fun a ha => le_of_lt (hposl a ha))
    rw [hwts, ← htot] at h
    have h2 : (((l0.map (fun a => Int.natAbs (a.weight * (E : Int) / total))).sum : Nat) : Int)
        ≤ (E : Int) := by
      by_contra hc
      push_neg at hc
      have : (E : Int) * total <
          (((l0.map (fun a => Int.natAbs (a.weight * (E : Int) / total))).sum : Nat) : Int)
            * total := mul_lt_mul_of_pos_right hc htpos
      linarith [mul_comm total (E : Int)]
    exact_mod_cast h2
  have hquota : ∀ a ∈ l0, quotaOf E total a = Int.natAbs (a.weight * (E : Int) / total) := by
    intro a ha
    unfold quotaOf
    apply Nat.mod_eq_of_lt
    have : Int.natAbs (a.weight * (E : Int) / total) ≤
        (l0.map (fun a => Int.natAbs (a.weight * (E : Int) / total))).sum :=
      List.le_sum_of_mem (List.mem_map.2 ⟨a, ha, rfl⟩)
    omega
  have hfloor : ∀ p ∈ auths,
      quotaOf E total { address := p.1, weight := p.2 } = floorQuota E auths p.2 := by
    intro p hp
    have ha : ({ address := p.1, weight := p.2 } : Authority) ∈ l0 := by
      rw [hl0]; exact List.mem_map.2 ⟨p, hp, rfl⟩
    rw [hquota _ ha]
    unfold floorQuota
    have hnn : 0 ≤ p.2 * (E : Int) / total :=
      Int.ediv_nonneg (mul_nonneg (le_of_lt (hpos p hp)) (Int.ofNat_nonneg _)) (le_of_lt htpos)
    show Int.natAbs (p.2 * (E : Int) / total) = Int.toNat (p.2 * (E : Int) / total)
    omega
  have hdef0 : deficit E total (sortAuthorities l0) (fun _ => 0) = quotaSum E auths := by
    unfold deficit quotaSum
    simp only [Nat.sub_zero]
    rw [(hperm.map _).sum_eq, hl0, List.map_map]
    congr 1
    apply List.map_congr_left
    intro p hp
    exact hfloor p hp
  have hqs : quotaSum E auths ≤ E := by
    rw [← hdef0]
    unfold deficit
    simp only [Nat.sub_zero]
    rw [(hperm.map _).sum_eq]
    have : l0.map (fun a => quotaOf E total a) =
        l0.map (fun a => Int.natAbs (a.weight * (E : Int) / total)) :=
      List.map_congr_left hquota
    rw [this]; exact hsumle
  -- the greedy loop
  have hheights : scheduleHeights E fromBlock = List.range' fromBlock E := by
    unfold scheduleHeights
    rw [Nat.mod_eq_of_lt hov, Nat.add_sub_cancel_left]
  obtain ⟨sched1, asg1, hrun, h1, h2, h3, h4, h5, h6⟩ :=
    assignHeights_spec E total (ne_of_gt htpos) (sortAuthorities l0) hndl
      (List.range' fromBlock E) (fun _ => none) (fun _ => 0)
      (List.nodup_range' fromBlock E) (fun _ _ => rfl) (fun a _ => Nat.zero_le _)
  rw [hdef0, List.length_range', Nat.min_eq_right hqs, Nat.sub_self] at h6
  have hfull := deficit_zero_imp E total asg1 (sortAuthorities l0) h1 h6
  refine ⟨{ schedule := sched1 }, ?_, ?_, hqs, ?_, ?_, ?_⟩
  · unfold UpdateSchedule
    simp only [← hl0, htotal, hheights, hrun, Option.map_some']
  · intro p hp
    have ha : ({ address := p.1, weight := p.2 } : Authority) ∈ sortAuthorities l0 := by
      rw [hmem, hl0]; exact List.mem_map.2 ⟨p, hp, rfl⟩
    have hc := h3 _ ha
    rw [Nat.add_zero, hfull _ ha, hfloor p hp] at hc
    exact hc
  · intro h hlo hhi
    have hj : (List.range' fromBlock E)[h - fromBlock]? = some h := by
      rw [List.getElem?_range' fromBlock 1 (by omega : h - fromBlock < E)]
      congr 1; omega
    have := h4 (h - fromBlock) h hj
    rw [hdef0] at this
    rw [this]
    omega
  · intro h v hv
    by_cases hin : h ∈ List.range' fromBlock E
    · have := h5 h hin v hv
      rw [(hperm.map _).mem_iff, haddr] at this
      exact this
    · have hk := h2 h hin
      simp only at hv
      rw [hk] at hv
      exact absurd hv (by simp)
  · intro h hout
    have hin : h ∉ List.range' fromBlock E := by
      rw [List.mem_range'_1]; omega
    exact h2 h hin

/-- C9: for every from-height, salt and non-empty validator map with positive weights, with
`from + EPOCH_LENGTH` not overflowing `uint64`, `UpdateSchedule` ends, and the number of heights
`h` in `[from, from + EPOCH_LENGTH)` with `schedule[h] = v` is exactly
`floor(weight(v) * EPOCH_LENGTH / sum of all weights)`, for every validator `v`. -/
theorem UpdateSchedule_proportional (E : Nat) (salt : List Byte) (fromBlock : Nat)
    (auths : List (Address × Int)) (hnd : (auths.map Prod.fst).Nodup) (hne : auths ≠ [])
    (hpos : ∀ p ∈ auths, 0 < p.2) (hov : fromBlock + E < uint64Size) :
    ∃ ps, UpdateSchedule E salt fromBlock auths = some ps ∧
      ∀ p ∈ auths, heightsOf ps E fromBlock p.1 = floorQuota E auths p.2 := by
  obtain ⟨ps, hps, hcount, -⟩ := UpdateSchedule_spec E salt fromBlock auths hnd hne hpos hov
  exact ⟨ps, hps, hcount⟩

/-- C9 on the validators of the test, from height `10` with an epoch of `100` heights. -/
theorem UpdateSchedule_proportional_witness :
    ∃ ps, UpdateSchedule 100 [] 10 testAuthorities = some ps ∧
      ∀ p ∈ testAuthorities, heightsOf ps 100 10 p.1 = floorQuota 100 testAuthorities p.2 :=
  UpdateSchedule_proportional 100 [] 10 testAuthorities (by decide) (by decide) (by decide)
    (by decide)

/-- C10 (amended): for every from-height and non-empty validator map with positive weights
(`from + EPOCH_LENGTH` not overflowing), after `UpdateSchedule` the first `Q` heights of the
epoch, `Q` being the sum of the floor quotas, are each assigned one validator of the map, so
`GetProposer` returns no error for them; the remaining `EPOCH_LENGTH - Q` heights (the slack)
are assigned to nobody, and `GetProposer` returns the zero address and an error for them; the
per-validator counts sum to `Q`, which is at most `EPOCH_LENGTH`. -/
theorem UpdateSchedule_assigned_heights (E : Nat) (salt : List Byte) (fromBlock : Nat)
    (auths : List (Address × Int)) (hnd : (auths.map Prod.fst).Nodup) (hne : auths ≠ [])
    (hpos : ∀ p ∈ auths, 0 < p.2) (hov : fromBlock + E < uint64Size) :
    ∃ ps, UpdateSchedule E salt fromBlock auths = some ps ∧
      quotaSum E auths ≤ E ∧
      (∀ h, fromBlock ≤ h → h < fromBlock + quotaSum E auths →
        (GetProposer ps h).2 = none ∧ (GetProposer ps h).1 ∈ auths.map Prod.fst) ∧
      (∀ h, fromBlock + quotaSum E auths ≤ h → h < fromBlock + E →
        GetProposer ps h = (zeroAddress, some (Error.ErrNoProposer h))) ∧
      (auths.map (fun p => heightsOf ps E fromBlock p.1)).sum = quotaSum E auths := by
  obtain ⟨ps, hps, hcount, hqs, hsome, hval, -⟩ :=
    UpdateSchedule_spec E salt fromBlock auths hnd hne hpos hov
  refine ⟨ps, hps, hqs, ?_, ?_, ?_⟩
  · intro h hlo hhi
    have hs : (ps.schedule h).isSome = true := (hsome h hlo (by omega)).2 hhi
    obtain ⟨v, hv⟩ := Option.isSome_iff_exists.1 hs
    have hmem := hval h v hv
    simp only [GetProposer, hv]
    exact ⟨trivial, hmem⟩
  · intro h hlo hhi
    have hn : ¬ (ps.schedule h).isSome = true := fun hs => by
      have := (hsome h (by omega) hhi).1 hs
      omega
    have hnone : ps.schedule h = none := by
      cases hc : ps.schedule h with
      | none => rfl
      | some v => rw [hc] at hn; exact absurd rfl hn
    simp only [GetProposer, hnone]
  · unfold quotaSum
    congr 1
    apply List.map_congr_left
    intro p hp
    exact hcount p hp

/-- C10 (amended) on the validators of the test, from height `10` with an epoch of `100`
heights. -/
theorem UpdateSchedule_assigned_heights_witness :
    ∃ ps, UpdateSchedule 100 [] 10 testAuthorities = some ps ∧
      quotaSum 100 testAuthorities ≤ 100 ∧
      (∀ h, 10 ≤ h → h < 10 + quotaSum 100 testAuthorities →
        (GetProposer ps h).2 = none ∧ (GetProposer ps h).1 ∈ testAuthorities.map Prod.fst) ∧
      (∀ h, 10 + quotaSum 100 testAuthorities ≤ h → h < 10 + 100 →
        GetProposer ps h = (zeroAddress, some (Error.ErrNoProposer h))) ∧
      (testAuthorities.map (fun p => heightsOf ps 100 10 p.1)).sum =
        quotaSum 100 testAuthorities :=
  UpdateSchedule_assigned_heights 100 [] 10 testAuthorities (by decide) (by decide) (by decide)
    (by decide)

set_option maxRecDepth 100000 in
/-- C10 as stated fails on its own example (weights 50, 100 and 200, from height `10`, epoch
length `100`): the quotas are 14, 28 and 57, height `109` is left without a validator, so
`GetProposer(109)` returns an error; the heaviest validator gets 57 heights, not 58, and the
counts sum to 99, not 100. -/
theorem UpdateSchedule_slack_unassigned :
    (UpdateSchedule 100 [] 10 testAuthorities).map (fun ps => GetProposer ps 109) =
      some (zeroAddress, some (Error.ErrNoProposer 109)) ∧
    (UpdateSchedule 100 [] 10 testAuthorities).map (fun ps => GetProposer ps 10) =
      some (0x789012, none) ∧
    (UpdateSchedule 100 [] 10 testAuthorities).map
      (fun ps => (heightsOf ps 100 10 0x789012, heightsOf ps 100 10 0xdef456,
        heightsOf ps 100 10 0xabc123)) = some (57, 28, 14) := by
  refine ⟨by decide, by decide, by decide⟩

/-! ## Proposer schedule: enumeration order and heights outside the epoch (C11, C12) -/

/-- C11 fails on the code: the validator map with weight `100` for both `1` and `2`, enumerated in its two
orders (a Go `range` over a map may visit the entries in either) gives two tables that differ
at the first height: the stable sort keeps validators of equal weight in their order of
enumeration, so the height `10` goes to `1` in one build and to `2` in the other. -/
theorem UpdateSchedule_tie_depends_on_enumeration :
    tiedAuthorities.Perm tiedAuthoritiesSwapped ∧
    (UpdateSchedule 100 [] 10 tiedAuthorities).map (fun ps => GetProposer ps 10) =
      some (1, none) ∧
    (UpdateSchedule 100 [] 10 tiedAuthoritiesSwapped).map (fun ps => GetProposer ps 10) =
      some (2, none) := by
  refine ⟨?_, by decide, by decide⟩
  exact List.Perm.swap _ _ _

theorem selectAuthority_mem (E : Nat) (total : Int) (asg : Address → Nat)
    (l : List Authority) (a : Address)
    (h : selectAuthority E total asg l = some (some a)) :
    a ∈ l.map (fun x => x.address) := by
  induction l with
  | nil => simp [selectAuthority] at h
  | cons x t ih =>
    simp only [selectAuthority] at h
    cases hq : assignedBlocks E x.weight total with
    | none => simp [hq] at h
    | some q =>
      simp only [hq] at h
      by_cases hlt : asg x.address < q
      · simp only [hlt, if_true, Option.some.injEq] at h
        simp [← h]
      · simp only [hlt, if_false] at h
        exact List.mem_cons_of_mem _ (ih h)

/-- Whatever the weights, a run of the assignment loop that ends touches only the heights it
visits and writes only addresses of the authorities. -/
theorem assignHeights_frame (E : Nat) (total : Int) (l : List Authority) :
    ∀ (hs : List Nat) (sched : Nat → Option Address) (asg : Address → Nat)
      (sched1 : Nat → Option Address),
      assignHeights E total l hs sched asg = some sched1 →
      (∀ k, k ∉ hs → sched1 k = sched k) ∧
      (∀ k v, sched1 k = some v → sched k = some v ∨ v ∈ l.map (fun x => x.address)) := by
  intro hs
  induction hs with
  | nil =>
    intro sched asg sched1 h
    simp only [assignHeights, Option.some.injEq] at h
    subst h
    exact ⟨fun _ _ => rfl, fun _ _ hv => Or.inl hv⟩
  | cons h0 hs ih =>
    intro sched asg sched1 h
    simp only [assignHeights] at h
    cases hsel : selectAuthority E total asg l with
    | none => simp [hsel] at h
    | some r =>
      cases r with
      | none =>
        simp only [hsel] at h
        obtain ⟨h1, h2⟩ := ih sched asg sched1 h
        exact ⟨fun k hk => h1 k (fun hk1 => hk (List.mem_cons_of_mem _ hk1)), h2⟩
      | some a =>
        simp only [hsel] at h
        obtain ⟨h1, h2⟩ := ih _ _ sched1 h
        have hmem := selectAuthority_mem E total asg l a hsel
        refine ⟨?_, ?_⟩
        · intro k hk
          have hk0 : k ≠ h0 := fun e => hk (e ▸ List.mem_cons_self _ _)
          rw [h1 k (fun hk1 => hk (List.mem_cons_of_mem _ hk1))]
          simp [hk0]
        · intro k v hv
          rcases h2 k v hv with hv1 | hv1
          · by_cases hk0 : k = h0
            · simp only [hk0, if_true, Option.some.injEq] at hv1
              exact Or.inr (hv1 ▸ hmem)
            · simp only [hk0, if_false] at hv1
              exact Or.inl hv1
          · exact Or.inr hv1

/-- C12: after `UpdateSchedule(salt, from, validators)` has returned, for every height
`h < from` or `h >= from + EPOCH_LENGTH`, `GetProposer(h)` returns an error together with the
zero address; and whenever `GetProposer(h)` returns no error, the returned address is one of
the keys of `validators`. -/
theorem GetProposer_outside_epoch (E : Nat) (salt : List Byte) (fromBlock : Nat)
    (auths : List (Address × Int)) (ps : ProposerSchedule)
    (hps : UpdateSchedule E salt fromBlock auths = some ps) :
    (∀ h, h < fromBlock ∨ fromBlock + E ≤ h →
      GetProposer ps h = (zeroAddress, some (Error.ErrNoProposer h))) ∧
    (∀ h v, GetProposer ps h = (v, none) → v ∈ auths.map Prod.fst) := by
  unfold UpdateSchedule at hps
  simp only [Option.map_eq_some'] at hps
  obtain ⟨sched1, hrun, rfl⟩ := hps
  obtain ⟨h1, h2⟩ := assignHeights_frame E _ _ _ _ _ sched1 hrun
  have hperm : (sortAuthorities (auths.map (fun p => { address := p.1, weight := p.2 }))).Perm
      (auths.map (fun p => ({ address := p.1, weight := p.2 } : Authority))) :=
    List.perm_insertionSort _ _
  constructor
  · intro h hout
    have hnot : h ∉ scheduleHeights E fromBlock := by
      unfold scheduleHeights
      rw [List.mem_range'_1]
      have := Nat.mod_le (fromBlock + E) uint64Size
      omega
    have hnone : sched1 h = none := h1 h hnot
    simp only [GetProposer, hnone]
  · intro h v hv
    cases hs : sched1 h with
    | none => simp [GetProposer, hs] at hv
    | some w =>
      simp only [GetProposer, hs, Prod.mk.injEq, and_true] at hv
      subst hv
      rcases h2 h w hs with hc | hc
      · exact absurd hc (by simp)
      · rw [(hperm.map _).mem_iff, List.map_map] at hc
        exact hc

/-- C12 on the schedule of the test: height `10011` has no proposer. -/
theorem GetProposer_outside_epoch_witness :
    ∃ ps, UpdateSchedule 100 [] 10 testAuthorities = some ps ∧
      GetProposer ps 10011 = (zeroAddress, some (Error.ErrNoProposer 10011)) := by
  obtain ⟨ps, hps, -⟩ :=
    UpdateSchedule_spec 100 [] 10 testAuthorities (by decide) (by decide) (by decide)
      (by decide)
  exact ⟨ps, hps,
    (GetProposer_outside_epoch 100 [] 10 testAuthorities ps hps).1 10011 (by omega)⟩

/-! ## Transaction pool (C13, C14) -/

theorem TransactionPool.grouped_foldl (txs : List Transaction) :
    ∀ (g : Address → List Transaction) (a : Address),
      txs.foldl
        (fun g tx => fun a => if a = senderKey tx then g (senderKey tx) ++ [tx] else g a) g a =
      g a ++ txs.filter (fun t => decide (senderKey t = a)) := by
  induction txs with
  | nil => intro g a; simp
  | cons t rest ih =>
    intro g a
    simp only [List.foldl_cons, ih, List.filter_cons]
    by_cases h : senderKey t = a
    · simp [h]
    · have h' : ¬ a = senderKey t := fun e => h e.symm
      simp [h, h']

theorem TransactionPool.grouped_eq_filter (txs : List Transaction) (a : Address) :
    TransactionPool.grouped txs a = txs.filter (fun t => decide (senderKey t = a)) := by
  unfold TransactionPool.grouped
  rw [TransactionPool.grouped_foldl]
  simp

theorem TransactionPool.AddTransaction_nodup (m : TransactionPool) (tx : Transaction)
    (h : (m.transactions.map (fun t => t.hash)).Nodup) :
    ((m.AddTransaction tx).2.transactions.map (fun t => t.hash)).Nodup := by
  unfold TransactionPool.AddTransaction
  by_cases hany : m.transactions.any (fun existing => existing.hash == tx.hash) = true
  · simp only [hany, if_true]; exact h
  · simp only [hany]
    simp only [List.any_eq_true, beq_iff_eq, not_exists, not_and] at hany
    simp only [Bool.false_eq_true, if_false, List.map_append, List.map_cons, List.map_nil]
    rw [List.nodup_append]
    refine ⟨h, List.nodup_singleton _, ?_⟩
    intro x hx hx1
    simp only [List.mem_singleton] at hx1
    obtain ⟨e, he, hee⟩ := List.mem_map.1 hx
    exact hany e he (hee.trans hx1)

theorem addAll_nodup (txs : List Transaction) :
    ∀ m : TransactionPool, (m.transactions.map (fun t => t.hash)).Nodup →
      ((addAll txs m).transactions.map (fun t => t.hash)).Nodup := by
  induction txs with
  | nil => intro m h; exact h
  | cons t rest ih =>
    intro m h
    exact ih _ (TransactionPool.AddTransaction_nodup m t h)

/-- C13 (amended): after adding `t1..tn` to an empty pool, `GetPendingTransactions` returns a
map in which every pooled transaction appears exactly once, under the key equal to its
recovered sender, and in which the list of every group is sorted by nonce in non-decreasing
order; a group is strictly increasing in nonce when the pooled transactions of that sender
have pairwise distinct nonces. -/
theorem GetPendingTransactions_grouped (sortSlice : List Transaction → List Transaction)
    (hperm : ∀ l, (sortSlice l).Perm l)
    (hsorted : ∀ l, (sortSlice l).Pairwise (fun x y => x.nonce ≤ y.nonce))
    (txs : List Transaction) :
    (∀ a, ((addAll txs NewTransactionPool).GetPendingTransactions sortSlice a).Perm
      ((addAll txs NewTransactionPool).transactions.filter
        (fun t => decide (senderKey t = a)))) ∧
    (∀ tx ∈ (addAll txs NewTransactionPool).transactions,
      tx ∈ (addAll txs NewTransactionPool).GetPendingTransactions sortSlice (senderKey tx) ∧
      ∀ a, a ≠ senderKey tx →
        tx ∉ (addAll txs NewTransactionPool).GetPendingTransactions sortSlice a) ∧
    (∀ a, ((addAll txs NewTransactionPool).GetPendingTransactions sortSlice a).Nodup) ∧
    (∀ a, ((addAll txs NewTransactionPool).GetPendingTransactions sortSlice a).Pairwise
      (fun x y => x.nonce ≤ y.nonce)) ∧
    (∀ a, (∀ x ∈ (addAll txs NewTransactionPool).transactions,
        ∀ y ∈ (addAll txs NewTransactionPool).transactions,
        senderKey x = a → senderKey y = a → x.nonce = y.nonce → x = y) →
      ((addAll txs NewTransactionPool).GetPendingTransactions sortSlice a).Pairwise
        (fun x y => x.nonce < y.nonce)) := by
  have hnd : ((addAll txs NewTransactionPool).transactions.map (fun t => t.hash)).Nodup :=
    addAll_nodup txs NewTransactionPool (by simp [NewTransactionPool])
  have hndv : (addAll txs NewTransactionPool).transactions.Nodup := List.Nodup.of_map _ hnd
  generalize addAll txs NewTransactionPool = m at hnd hndv
  have hp : ∀ a, (m.GetPendingTransactions sortSlice a).Perm
      (m.transactions.filter (fun t => decide (senderKey t = a))) := by
    intro a
    unfold TransactionPool.GetPendingTransactions
    rw [← TransactionPool.grouped_eq_filter]
    cases hg : TransactionPool.grouped m.transactions a with
    | nil => exact List.Perm.refl _
    | cons t rest => exact hperm _
  have hs : ∀ a, (m.GetPendingTransactions sortSlice a).Pairwise
      (fun x y => x.nonce ≤ y.nonce) := by
    intro a
    unfold TransactionPool.GetPendingTransactions
    cases hg : TransactionPool.grouped m.transactions a with
    | nil => exact List.Pairwise.nil
    | cons t rest => exact hsorted _
  have hn : ∀ a, (m.GetPendingTransactions sortSlice a).Nodup := fun a =>
    (hp a).nodup_iff.2 (hndv.filter _)
  refine ⟨hp, ?_, hn, hs, ?_⟩
  · intro tx htx
    constructor
    · rw [(hp (senderKey tx)).mem_iff, List.mem_filter]
      exact ⟨htx, by simp⟩
    · intro a ha hmem
      rw [(hp a).mem_iff, List.mem_filter] at hmem
      have : senderKey tx = a := by simpa using hmem.2
      exact ha this.symm
  · intro a hdist
    have hboth := (hs a).and (hn a)
    refine hboth.imp_of_mem ?_
    intro x y hx hy hxy
    rw [(hp a).mem_iff, List.mem_filter] at hx hy
    have hkx : senderKey x = a := by simpa using hx.2
    have hky : senderKey y = a := by simpa using hy.2
    rcases Nat.lt_or_ge x.nonce y.nonce with hlt | hge
    · exact hlt
    · exact absurd (hdist x hx.1 y hy.1 hkx hky (Nat.le_antisymm hxy.1 hge)) hxy.2

theorem sortByNonce_perm (l : List Transaction) : (sortByNonce l).Perm l :=
  List.perm_insertionSort _ _

theorem sortByNonce_sorted (l : List Transaction) :
    (sortByNonce l).Pairwise (fun x y => x.nonce ≤ y.nonce) := by
  unfold sortByNonce
  have hT : IsTotal Transaction (fun x y => x.nonce ≤ y.nonce) :=
    ⟨fun x y => Nat.le_total x.nonce y.nonce⟩
  have hR : IsTrans Transaction (fun x y => x.nonce ≤ y.nonce) :=
    ⟨fun x y z hxy hyz => Nat.le_trans hxy hyz⟩
  exact List.sorted_insertionSort _ l

/-- C13 (amended) on a pool of two transfers of sender `1` with nonces `6` and `5`. -/
theorem GetPendingTransactions_grouped_witness :
    ((addAll [poolTx 11 6 0, poolTx 12 5 0] NewTransactionPool).GetPendingTransactions
      sortByNonce 1).Pairwise (fun x y => x.nonce < y.nonce) :=
  (GetPendingTransactions_grouped sortByNonce sortByNonce_perm sortByNonce_sorted
    [poolTx 11 6 0, poolTx 12 5 0]).2.2.2.2 1 (by decide)

/-- C13 as stated fails: two transactions of the same sender with the same nonce `5` and
different hashes are both pooled, and the group of that sender holds both, so its list is not
strictly increasing in nonce. -/
theorem GetPendingTransactions_same_nonce :
    (addAll [poolTx 11 5 0, poolTx 12 5 7] NewTransactionPool).Size = 2 ∧
    (((addAll [poolTx 11 5 0, poolTx 12 5 7] NewTransactionPool).GetPendingTransactions
      sortByNonce 1).map (fun t => t.nonce)) = [5, 5] ∧
    ¬ ((addAll [poolTx 11 5 0, poolTx 12 5 7] NewTransactionPool).GetPendingTransactions
      sortByNonce 1).Pairwise (fun x y => x.nonce < y.nonce) := by
  refine ⟨by decide, by decide, by decide⟩

theorem PoolOp.apply_nodup (m : TransactionPool) (op : PoolOp)
    (h : (m.transactions.map (fun t => t.hash)).Nodup) :
    ((op.apply m).transactions.map (fun t => t.hash)).Nodup := by
  cases op with
  | add tx => exact TransactionPool.AddTransaction_nodup m tx h
  | remove txs =>
    simp only [PoolOp.apply, TransactionPool.RemoveTransactions]
    exact h.sublist ((List.filter_sublist _).map _)
  | clear => simp [PoolOp.apply, TransactionPool.Clear]

theorem runOps_nodup (ops : List PoolOp) :
    ∀ m : TransactionPool, (m.transactions.map (fun t => t.hash)).Nodup →
      ((runOps ops m).transactions.map (fun t => t.hash)).Nodup := by
  induction ops with
  | nil => intro m h; exact h
  | cons op rest ih =>
    intro m h
    exact ih _ (PoolOp.apply_nodup m op h)

/-- C14: `AddTransaction(tx)` returns an error and leaves the pool unchanged when the pool
already holds a transaction with the same `Hash()`; otherwise it appends `tx` at the end and
`Size()` grows by exactly one. Consequently, after any sequence of `AddTransaction`,
`RemoveTransactions` and `Clear` calls on a new pool, no two pooled transactions have the same
hash. -/
theorem TransactionPool_no_duplicate_hash :
    (∀ (m : TransactionPool) (tx : Transaction),
      (∃ e ∈ m.transactions, e.hash = tx.hash) →
      m.AddTransaction tx = (some Error.ErrAlreadyInMempool, m)) ∧
    (∀ (m : TransactionPool) (tx : Transaction),
      (∀ e ∈ m.transactions, e.hash ≠ tx.hash) →
      m.AddTransaction tx = (none, { transactions := m.transactions ++ [tx] }) ∧
      (m.AddTransaction tx).2.Size = m.Size + 1) ∧
    (∀ ops : List PoolOp,
      ((runOps ops NewTransactionPool).transactions.map (fun t => t.hash)).Nodup) := by
  refine ⟨?_, ?_, ?_⟩
  · intro m tx h
    obtain ⟨e, he, hee⟩ := h
    have hany : m.transactions.any (fun existing => existing.hash == tx.hash) = true := by
      rw [List.any_eq_true]
      exact ⟨e, he, by simp [hee]⟩
    simp [TransactionPool.AddTransaction, hany]
  · intro m tx h
    have hany : ¬ m.transactions.any (fun existing => existing.hash == tx.hash) = true := by
      rw [List.any_eq_true]
      rintro ⟨e, he, hee⟩
      exact h e he (by simpa using hee)
    have heq : m.AddTransaction tx = (none, { transactions := m.transactions ++ [tx] }) := by
      simp only [TransactionPool.AddTransaction, hany]
      rfl
    refine ⟨heq, ?_⟩
    rw [heq]
    simp [TransactionPool.Size]
  · intro ops
    exact runOps_nodup ops NewTransactionPool (by simp [NewTransactionPool])

/-- C14 on a concrete pool: a second transaction with the hash `11` is rejected and the pool
keeps its single transaction; one with the new hash `12` is appended. -/
theorem TransactionPool_no_duplicate_hash_witness :
    (NewTransactionPool.AddTransaction (poolTx 11 5 0)).2.AddTransaction (poolTx 11 6 0) =
      (some Error.ErrAlreadyInMempool, (NewTransactionPool.AddTransaction (poolTx 11 5 0)).2) ∧
    ((NewTransactionPool.AddTransaction (poolTx 11 5 0)).2.AddTransaction
      (poolTx 12 6 0)).2.Size =
      (NewTransactionPool.AddTransaction (poolTx 11 5 0)).2.Size + 1 :=
  ⟨TransactionPool_no_duplicate_hash.1 (NewTransactionPool.AddTransaction (poolTx 11 5 0)).2
      (poolTx 11 6 0) ⟨poolTx 11 5 0, by decide, by decide⟩,
   (TransactionPool_no_duplicate_hash.2.1 (NewTransactionPool.AddTransaction (poolTx 11 5 0)).2
      (poolTx 12 6 0) (by decide)).2⟩

/-! ## Header hash and header round trip (C15, C17) -/

/-- C15 fails on the code: `ToHashData` (and the struct `BlockHashData`) leaves `GasUsed` out,
so the hashed encoding and the hash of a header do not depend on `GasUsed`: the headers with
`GasUsed = 0` and `GasUsed = 21000`, equal in every other field, have the same hashed encoding
and the same `Hash()`. -/
theorem BlockHeader_hash_ignores_gasUsed :
    (∀ (h : BlockHeader) (g : Nat),
      ({ h with GasUsed := g } : BlockHeader).ToHashData.Proto = h.ToHashData.Proto) ∧
    (∀ keccak marshal, (headerWithGas 21000).Hash keccak marshal =
      (headerWithGas 0).Hash keccak marshal) ∧
    (headerWithGas 21000).ToHashData.Proto = (headerWithGas 0).ToHashData.Proto ∧
    (headerWithGas 21000).GasUsed ≠ (headerWithGas 0).GasUsed ∧
    (headerWithGas 21000).Signature = (headerWithGas 0).Signature := by
  refine ⟨fun h g => rfl, fun keccak marshal => rfl, rfl, by decide, rfl⟩

/-- C17 fails on the code: `Proto` does not set the field `GasUsed` of the message and
`FromProto` does not read it, so decoding the encoding of a header with `GasUsed = 21000` (and
a zero bloom) gives a header with `GasUsed = 0`, which is not the header that was encoded. -/
theorem BlockHeader_roundtrip_loses_gasUsed :
    (∀ h : BlockHeader, (decodeHeader h.Proto).GasUsed = 0) ∧
    (headerWithGas 21000).Proto.GasUsed = 0 ∧
    (decodeHeader (headerWithGas 21000).Proto).GasUsed = 0 ∧
    (headerWithGas 21000).GasUsed = 21000 ∧
    decodeHeader (headerWithGas 21000).Proto ≠ headerWithGas 21000 := by
  refine ⟨fun h => rfl, rfl, rfl, rfl, ?_⟩
  intro h
  have : (decodeHeader (headerWithGas 21000).Proto).GasUsed = (headerWithGas 21000).GasUsed := by
    rw [h]
  exact absurd this (by decide)

/-! ## Transaction hash and body round trip (C16, C18) -/

/-- C16 fails on the code. `Hash()` returns the cached field `hash` whenever it is not zero:
(1) a transaction decoded with `FromProto` from a message that carries the hash `1` answers
`1`, whatever its fields and whatever the hash function, so two decoded transactions with
different nonces have the same `Hash()`; (2) for a transaction whose `Hash()` was taken before
`SetSign` (as the command-line client does), `Hash()` after `SetSign` is still the hash of
the encoding without the signature, not that of the current encoding. -/
theorem Transaction_hash_is_stale :
    (∀ keccakHash, ((transaction.FromProto (wireTx 5)).Hash keccakHash).1 = 1) ∧
    (∀ keccakHash, ((transaction.FromProto (wireTx 6)).Hash keccakHash).1 = 1) ∧
    (transaction.FromProto (wireTx 5)).hashData ≠ (transaction.FromProto (wireTx 6)).hashData ∧
    ((((unsignedTx.Hash sampleHash).2.SetSign sampleSign).Hash sampleHash).1 =
      unsignedTx.calculateHash sampleHash) ∧
    ((((unsignedTx.Hash sampleHash).2.SetSign sampleSign).Hash sampleHash).1 ≠
      ((unsignedTx.Hash sampleHash).2.SetSign sampleSign).calculateHash sampleHash) := by
  refine ⟨fun _ => rfl, fun _ => rfl, by decide, by decide, by decide⟩

/-- C18 fails on the code: `Body.Proto` allocates the slice of uncles and never fills it, so the
message of a body with one uncle holds one nil uncle, and `Body.FromProto` on that message
dereferences the nil pointer instead of yielding the body. -/
theorem Body_roundtrip_loses_uncles :
    (∀ b : Body, (Body.Proto b).Uncles = List.replicate b.Uncles.length none) ∧
    (Body.Proto bodyWithUncle).Uncles = [none] ∧
    Body.FromProto (Body.Proto bodyWithUncle) = none ∧
    Body.FromProto (Body.Proto bodyWithUncle) ≠ some bodyWithUncle := by
  refine ⟨fun b => rfl, by decide, by decide, by decide⟩

/-! ## Blooms (C19, C20) -/

theorem and_eq_of_bits (b c : Nat) (h : ∀ i, c.testBit i = true → b.testBit i = true) :
    b &&& c = c := by
  apply Nat.eq_of_testBit_eq
  intro i
  rw [Nat.testBit_and]
  cases hc : c.testBit i with
  | false => simp
  | true => simp [h i hc]

theorem bits_of_and_eq (b c : Nat) (h : b &&& c = c) :
    ∀ i, c.testBit i = true → b.testBit i = true := by
  intro i hc
  have := congrArg (fun n => n.testBit i) h
  simp only [Nat.testBit_and, hc, Bool.and_true] at this
  exact this

theorem and_or_left (b d c : Nat) (h : b &&& c = c) : (b ||| d) &&& c = c := by
  apply and_eq_of_bits
  intro i hc
  rw [Nat.testBit_or, bits_of_and_eq b c h i hc]
  rfl

theorem or_and_self (b c : Nat) : (b ||| c) &&& c = c := by
  apply and_eq_of_bits
  intro i hc
  rw [Nat.testBit_or, hc]
  simp

theorem foldl_or_keeps {α : Type} (f : α → Nat) (c : Nat) (l : List α) :
    ∀ init, init &&& c = c → (l.foldl (fun b x => b ||| f x) init) &&& c = c := by
  induction l with
  | nil => intro init h; exact h
  | cons x t ih => intro init h; exact ih _ (and_or_left _ _ _ h)

theorem foldl_or_mem {α : Type} (f : α → Nat) (l : List α) (x : α) (hx : x ∈ l) :
    ∀ init, (l.foldl (fun b y => b ||| f y) init) &&& f x = f x := by
  induction l with
  | nil => simp at hx
  | cons y t ih =>
    intro init
    rcases List.mem_cons.1 hx with e | hmem
    · subst e
      exact foldl_or_keeps f _ t _ (or_and_self _ _)
    · exact ih hmem _

theorem foldl_step_keeps {α : Type} (g : Nat → α → Nat) (c : Nat)
    (hg : ∀ b x, b &&& c = c → g b x &&& c = c) (l : List α) :
    ∀ init, init &&& c = c → (l.foldl g init) &&& c = c := by
  induction l with
  | nil => intro init h; exact h
  | cons x t ih => intro init h; exact ih _ (hg _ _ h)

theorem foldl_step_mem {α : Type} (g : Nat → α → Nat) (c : Nat)
    (hg : ∀ b x, b &&& c = c → g b x &&& c = c) (l : List α) (x : α) (hx : x ∈ l)
    (hx1 : ∀ b, g b x &&& c = c) :
    ∀ init, (l.foldl g init) &&& c = c := by
  induction l with
  | nil => simp at hx
  | cons y t ih =>
    intro init
    rcases List.mem_cons.1 hx with e | hmem
    · subst e
      exact foldl_step_keeps g c hg t _ (hx1 _)
    · exact ih hmem _

/-- The bloom of a list of logs covers the bloom of the address and of every topic of each
log. -/
theorem LogsBloom_covers (keccak : List Byte → List Byte) (logs : List Log) (L : Log)
    (hL : L ∈ logs) :
    LogsBloom keccak logs &&& bloom9 keccak (bytesBE 20 L.Address) =
      bloom9 keccak (bytesBE 20 L.Address) ∧
    ∀ t ∈ L.Topics, LogsBloom keccak logs &&& bloom9 keccak (bytesBE 32 t) =
      bloom9 keccak (bytesBE 32 t) := by
  unfold LogsBloom
  have hstep : ∀ (c b : Nat) (x : Log), b &&& c = c →
      (x.Topics.foldl (fun bin1 t => bin1 ||| bloom9 keccak (bytesBE 32 t))
        (b ||| bloom9 keccak (bytesBE 20 x.Address))) &&& c = c := by
    intro c b x hb
    exact foldl_or_keeps _ c _ _ (and_or_left _ _ _ hb)
  constructor
  · refine foldl_step_mem _ _ (hstep _) logs L hL ?_ 0
    intro b
    exact foldl_or_keeps _ _ _ _ (or_and_self _ _)
  · intro t ht
    refine foldl_step_mem _ _ (hstep _) logs L hL ?_ 0
    intro b
    exact foldl_or_mem (fun t => bloom9 keccak (bytesBE 32 t)) L.Topics t ht _

theorem bloom9_lt (keccak : List Byte → List Byte) (b : List Byte) :
    bloom9 keccak b < 2 ^ 2048 := by
  unfold bloom9
  have hbit : ∀ n : Nat, 1 <<< (n &&& 2047) < 2 ^ 2048 := by
    intro n
    rw [Nat.one_shiftLeft]
    exact Nat.pow_lt_pow_right (by norm_num)
      (Nat.lt_of_le_of_lt Nat.and_le_right (by norm_num))
  simp only [List.foldl_cons, List.foldl_nil]
  exact Nat.or_lt_two_pow (Nat.or_lt_two_pow (Nat.or_lt_two_pow (Nat.two_pow_pos _) (hbit _))
    (hbit _)) (hbit _)

theorem foldl_or_lt {α : Type} (f : α → Nat) (n : Nat) (hf : ∀ x, f x < 2 ^ n) (l : List α) :
    ∀ init, init < 2 ^ n → l.foldl (fun b x => b ||| f x) init < 2 ^ n := by
  induction l with
  | nil => intro init h; exact h
  | cons x t ih => intro init h; exact ih _ (Nat.or_lt_two_pow h (hf x))

theorem LogsBloom_lt (keccak : List Byte → List Byte) (logs : List Log) :
    LogsBloom keccak logs < 2 ^ 2048 := by
  unfold LogsBloom
  have hgen : ∀ (l : List Log) (init : Nat), init < 2 ^ 2048 →
      l.foldl
        (fun bin log =>
          log.Topics.foldl (fun bin1 b => bin1 ||| bloom9 keccak (bytesBE 32 b))
            (bin ||| bloom9 keccak (bytesBE 20 log.Address))) init < 2 ^ 2048 := by
    intro l
    induction l with
    | nil => intro init h; exact h
    | cons x t ih =>
      intro init h
      exact ih _ (foldl_or_lt _ _ (fun b => bloom9_lt keccak _) _ _
        (Nat.or_lt_two_pow h (bloom9_lt keccak _)))
  exact hgen logs 0 (Nat.two_pow_pos _)

/-- C19: for every list of receipts and every log `L` in any of them, with
`B = CreateBloom(receipts)` (which fits the 2048 bits of a bloom): `BloomLookup(B, L.Address)`
is true and `BloomLookup(B, t)` is true for every topic `t` of `L`. -/
theorem CreateBloom_no_false_negative (keccak : List Byte → List Byte)
    (receipts : List Receipt) (rc : Receipt) (L : Log) (hrc : rc ∈ receipts)
    (hL : L ∈ rc.Logs) :
    CreateBloom keccak receipts < 2 ^ 2048 ∧
    BloomLookup keccak (CreateBloom keccak receipts) (bytesBE 20 L.Address) = true ∧
    ∀ t ∈ L.Topics,
      BloomLookup keccak (CreateBloom keccak receipts) (bytesBE 32 t) = true := by
  obtain ⟨haddr, htopics⟩ := LogsBloom_covers keccak rc.Logs L hL
  refine ⟨?_, ?_, ?_⟩
  · unfold CreateBloom
    exact foldl_or_lt (fun r => LogsBloom keccak r.Logs) 2048
      (fun r => LogsBloom_lt keccak r.Logs) receipts 0 (Nat.two_pow_pos _)
  · unfold BloomLookup CreateBloom
    rw [beq_iff_eq]
    have hcov := foldl_or_mem (fun r : Receipt => LogsBloom keccak r.Logs) receipts rc hrc 0
    apply and_eq_of_bits
    intro i hi
    exact bits_of_and_eq _ _ hcov i (bits_of_and_eq _ _ haddr i hi)
  · intro t ht
    unfold BloomLookup CreateBloom
    rw [beq_iff_eq]
    have hcov := foldl_or_mem (fun r : Receipt => LogsBloom keccak r.Logs) receipts rc hrc 0
    apply and_eq_of_bits
    intro i hi
    exact bits_of_and_eq _ _ hcov i (bits_of_and_eq _ _ (htopics t ht) i hi)

/-- C19 on a receipt with one log: the address of the log is found in the bloom. -/
theorem CreateBloom_no_false_negative_witness :
    BloomLookup simpleHost.Keccak256 (CreateBloom simpleHost.Keccak256 [sampleReceipt])
      (bytesBE 20 sampleLog.Address) = true :=
  (CreateBloom_no_false_negative simpleHost.Keccak256 [sampleReceipt] sampleReceipt sampleLog
    (List.mem_singleton.2 rfl) (List.mem_singleton.2 rfl)).2.1

theorem add_shiftLeft_eq_or (x y : Nat) (hx : x < 256) : x + (y <<< 8) = (y <<< 8) ||| x := by
  rw [Nat.shiftLeft_eq, Nat.mul_comm y (2 ^ 8), Nat.add_comm]
  exact Nat.mul_add_lt_is_or (by simpa using hx) y

theorem countP_or_le {α : Type} (p q : α → Bool) (l : List α) :
    l.countP (fun i => p i || q i) ≤ l.countP p + l.countP q := by
  induction l with
  | nil => simp
  | cons a t ih =>
    simp only [List.countP_cons]
    cases hp : p a <;> cases hq : q a <;> simp <;> omega

theorem countP_eq_range (n p : Nat) :
    (List.range n).countP (fun i => decide (p = i)) = if p < n then 1 else 0 := by
  induction n with
  | zero => simp
  | succ n ih =>
    rw [List.range_succ, List.countP_append, ih]
    by_cases h1 : p < n
    · have h2 : p ≠ n := by omega
      have h3 : p < n + 1 := by omega
      simp [h1, h2, h3]
    · by_cases h2 : p = n
      · subst h2; simp
      · have h3 : ¬ p < n + 1 := by omega
        simp [h1, h2, h3]

/-- C20: for every byte string `x` with `h = keccak256(x)`, `bloom9(x)` is the bitwise OR over
`i` in `0, 2, 4` of `1 << (((h[i] << 8) | h[i+1]) & 2047)` (the sum that the code takes of the
two byte values is their OR); it has at least one and at most three bits set, all at positions
below 2048. -/
theorem bloom9_bits (keccak : List Byte → List Byte) (x : List Byte) :
    bloom9 keccak x =
      (1 <<< bloomPosition (keccak x) 0) ||| (1 <<< bloomPosition (keccak x) 2) |||
        (1 <<< bloomPosition (keccak x) 4) ∧
    1 ≤ setBits (bloom9 keccak x) ∧ setBits (bloom9 keccak x) ≤ 3 ∧
    ∀ i, (bloom9 keccak x).testBit i = true → i < 2048 := by
  have hform : bloom9 keccak x =
      (1 <<< bloomPosition (keccak x) 0) ||| (1 <<< bloomPosition (keccak x) 2) |||
        (1 <<< bloomPosition (keccak x) 4) := by
    unfold bloom9 bloomPosition
    simp only [List.foldl_cons, List.foldl_nil, Nat.zero_or]
    rw [add_shiftLeft_eq_or _ _ ((keccak x).getD (0 + 1) 0).isLt,
      add_shiftLeft_eq_or _ _ ((keccak x).getD (2 + 1) 0).isLt,
      add_shiftLeft_eq_or _ _ ((keccak x).getD (4 + 1) 0).isLt]
  have hlt : ∀ k, bloomPosition (keccak x) k < 2048 := by
    intro k
    unfold bloomPosition
    exact Nat.lt_of_le_of_lt Nat.and_le_right (by norm_num)
  generalize hp0 : bloomPosition (keccak x) 0 = p0 at hform
  generalize hp2 : bloomPosition (keccak x) 2 = p2 at hform
  generalize hp4 : bloomPosition (keccak x) 4 = p4 at hform
  have h0 : p0 < 2048 := hp0 ▸ hlt 0
  have h2 : p2 < 2048 := hp2 ▸ hlt 2
  have h4 : p4 < 2048 := hp4 ▸ hlt 4
  have hbit : ∀ i, (bloom9 keccak x).testBit i =
      (decide (p0 = i) || decide (p2 = i) || decide (p4 = i)) := by
    intro i
    rw [hform]
    simp only [Nat.testBit_or, Nat.one_shiftLeft, Nat.testBit_two_pow]
  refine ⟨hform, ?_, ?_, ?_⟩
  · unfold setBits
    simp only [hbit]
    have hpos : 0 < (List.range 2048).countP
        (fun i => decide (p0 = i) || decide (p2 = i) || decide (p4 = i)) := by
      rw [List.countP_pos_iff]
      exact ⟨p0, List.mem_range.2 h0, by simp⟩
    exact hpos
  · unfold setBits
    simp only [hbit]
    have a1 := countP_or_le (fun i => decide (p0 = i) || decide (p2 = i))
      (fun i => decide (p4 = i)) (List.range 2048)
    have a2 := countP_or_le (fun i => decide (p0 = i)) (fun i => decide (p2 = i))
      (List.range 2048)
    rw [countP_eq_range, countP_eq_range] at a2
    rw [countP_eq_range] at a1
    simp only [h0, h2, h4, if_true] at a1 a2
    omega
  · intro i hi
    rw [hbit] at hi
    simp only [Bool.or_eq_true, decide_eq_true_eq] at hi
    omega

/-! ## Fiat reserve: invariants and storage round trip (C30, C24) -/

theorem mapGet_mapSet (m : List (Address × Int)) (a b : Address) (v : Int) :
    mapGet (mapSet m a v) b = if b = a then some v else mapGet m b := by
  induction m with
  | nil =>
    by_cases h : b = a
    · simp [mapSet, mapGet, h]
    · have h1 : ¬ a = b := fun e => h e.symm
      simp [mapSet, mapGet, h, h1]
  | cons p rest ih =>
    obtain ⟨k, w⟩ := p
    by_cases hk : k = a
    · subst hk
      by_cases h : b = k
      · subst h; simp [mapSet, mapGet]
      · have h1 : ¬ k = b := fun e => h e.symm
        simp [mapSet, mapGet, h, h1]
    · by_cases h : b = a
      · subst h
        simp [mapSet, mapGet, hk, ih]
      · by_cases hkb : k = b
        · simp [mapSet, mapGet, hk, hkb, h]
        · simp [mapSet, mapGet, hk, hkb, h, ih]

theorem FiatReserve.getBalance_deposit (r : FiatReserve) (a : Address) (x : Int) (hx : 0 < x)
    (b : Address) :
    (r.Deposit a x).1 = none ∧
    (r.Deposit a x).2.GetBalance b = if b = a then r.GetBalance a + x else r.GetBalance b := by
  have hx1 : ¬ x ≤ 0 := by omega
  unfold FiatReserve.Deposit FiatReserve.GetBalance
  rw [if_neg hx1]
  refine ⟨rfl, ?_⟩
  cases hg : mapGet r.balances a with
  | none =>
    simp only [mapGet_mapSet, if_true, Option.getD_some]
    by_cases hb : b = a
    · simp [hb]
    · simp [hb]
  | some v =>
    simp only [mapGet_mapSet, hg, Option.getD_some]
    by_cases hb : b = a
    · simp [hb]
    · simp [hb]

theorem FiatReserve.getBalance_withdraw (r : FiatReserve) (a : Address) (x : Int) (hx : 0 < x)
    (hle : x ≤ r.GetBalance a) (b : Address) :
    (r.Withdraw a x).1 = none ∧
    (r.Withdraw a x).2.GetBalance b = if b = a then r.GetBalance a - x else r.GetBalance b := by
  have hx1 : ¬ x ≤ 0 := by omega
  unfold FiatReserve.Withdraw
  unfold FiatReserve.GetBalance at hle ⊢
  rw [if_neg hx1]
  cases hg : mapGet r.balances a with
  | none => rw [hg] at hle; simp only at hle; omega
  | some v =>
    rw [hg] at hle
    simp only at hle
    have hv : ¬ v < x := by omega
    simp only [if_neg hv, mapGet_mapSet, true_and]
    by_cases hb : b = a
    · simp [hb]
    · simp [hb]

theorem FiatReserve.withdraw_error (r : FiatReserve) (a : Address) (x : Int)
    (h : r.GetBalance a < x ∨ x ≤ 0) :
    (r.Withdraw a x).1.isSome = true ∧ (r.Withdraw a x).2 = r := by
  unfold FiatReserve.Withdraw
  by_cases hx : x ≤ 0
  · rw [if_pos hx]; exact ⟨rfl, rfl⟩
  · rw [if_neg hx]
    have hlt : r.GetBalance a < x := by
      rcases h with h | h
      · exact h
      · exact absurd h hx
    unfold FiatReserve.GetBalance at hlt
    cases hg : mapGet r.balances a with
    | none => exact ⟨rfl, rfl⟩
    | some v =>
      rw [hg] at hlt
      simp only at hlt
      simp [hlt]

theorem ReserveOp.apply_nonneg (r : FiatReserve) (op : ReserveOp)
    (h : ∀ a, 0 ≤ r.GetBalance a) : ∀ a, 0 ≤ (ReserveOp.apply r op).GetBalance a := by
  intro b
  cases op with
  | deposit a x =>
    simp only [ReserveOp.apply]
    by_cases hx : 0 < x
    · rw [(FiatReserve.getBalance_deposit r a x hx b).2]
      by_cases hb : b = a
      · rw [if_pos hb]; have := h a; omega
      · rw [if_neg hb]; exact h b
    · have hx1 : x ≤ 0 := by omega
      simp only [FiatReserve.Deposit, if_pos hx1]
      exact h b
  | withdraw a x =>
    simp only [ReserveOp.apply]
    by_cases hok : 0 < x ∧ x ≤ r.GetBalance a
    · rw [(FiatReserve.getBalance_withdraw r a x hok.1 hok.2 b).2]
      by_cases hb : b = a
      · rw [if_pos hb]; omega
      · rw [if_neg hb]; exact h b
    · have hbad : r.GetBalance a < x ∨ x ≤ 0 := by omega
      rw [(FiatReserve.withdraw_error r a x hbad).2]
      exact h b

theorem runReserve_nonneg (ops : List ReserveOp) : ∀ a, 0 ≤ (runReserve ops).GetBalance a := by
  unfold runReserve
  have key : ∀ (l : List ReserveOp) (r : FiatReserve), (∀ a, 0 ≤ r.GetBalance a) →
      ∀ a, 0 ≤ (l.foldl ReserveOp.apply r).GetBalance a := by
    intro l
    induction l with
    | nil => intro r h; exact h
    | cons op rest ih =>
      intro r h
      exact ih _ (ReserveOp.apply_nonneg r op h)
  exact key ops _ (fun a => by simp [NewFiatReserve, FiatReserve.GetBalance, mapGet])

/-! ### Byte encodings -/

theorem foldl_bytes_append (l : List Byte) (x : Byte) :
    (l ++ [x]).foldl (fun n y => n * 256 + y.val) 0 =
      l.foldl (fun n y => n * 256 + y.val) 0 * 256 + x.val := by
  rw [List.foldl_append]; rfl

theorem foldl_digits (L : List Nat) (hL : ∀ d ∈ L, d < 256) :
    (L.reverse.map (fun d => (Fin.ofNat d : Byte))).foldl (fun n y => n * 256 + y.val) 0 =
      Nat.ofDigits 256 L := by
  induction L with
  | nil => rfl
  | cons d t ih =>
    have hd : d < 256 := hL d (List.mem_cons_self _ _)
    have ht : ∀ e ∈ t, e < 256 := fun e he => hL e (List.mem_cons_of_mem _ he)
    rw [List.reverse_cons, List.map_append, List.map_singleton, foldl_bytes_append, ih ht,
      Nat.ofDigits_cons]
    have hv : (Fin.ofNat d : Byte).val = d := Nat.mod_eq_of_lt hd
    rw [hv]
    ring

theorem setBytes_bigBytes (x : Int) : setBytes (bigBytes x) = (x.natAbs : Int) := by
  unfold setBytes bigBytes
  rw [foldl_digits _ (fun d hd => Nat.digits_lt_base (by decide) hd), Nat.ofDigits_digits]

theorem bytesBE_succ (len n : Nat) :
    bytesBE (len + 1) n = bytesBE len (n / 256) ++ [Fin.ofNat n] := by
  unfold bytesBE
  rw [List.range_succ, List.map_append, List.map_singleton]
  congr 1
  · apply List.map_congr_left
    intro i hi
    have hi1 : i < len := List.mem_range.1 hi
    have he : len + 1 - 1 - i = (len - 1 - i) + 1 := by omega
    rw [he, Nat.pow_succ, Nat.div_div_eq_div_mul, Nat.mul_comm]
  · simp

theorem foldl_bytesBE (len n : Nat) :
    (bytesBE len n).foldl (fun m y => m * 256 + y.val) 0 = n % 256 ^ len := by
  induction len generalizing n with
  | zero => simp [bytesBE, Nat.mod_one]
  | succ len ih =>
    rw [bytesBE_succ, foldl_bytes_append, ih]
    have hv : (Fin.ofNat n : Byte).val = n % 256 := rfl
    rw [hv, Nat.pow_succ, Nat.mul_comm (256 ^ len) 256, Nat.mod_mul]
    ring

theorem BytesToAddress_bytesBE (a : Address) (ha : a < 2 ^ 160) :
    BytesToAddress (bytesBE 20 a) = a := by
  unfold BytesToAddress
  rw [foldl_bytesBE]
  have h : (256 : Nat) ^ 20 = 2 ^ 160 := by norm_num
  rw [h, Nat.mod_mod, Nat.mod_eq_of_lt ha]

/-! ### The map operations -/

theorem mapGet_none_of_not_mem (m : List (Address × Int)) (a : Address)
    (h : a ∉ m.map Prod.fst) : mapGet m a = none := by
  induction m with
  | nil => rfl
  | cons p rest ih =>
    obtain ⟨k, w⟩ := p
    simp only [List.map_cons, List.mem_cons, not_or] at h
    have hk : ¬ k = a := fun e => h.1 e.symm
    simp only [mapGet, if_neg hk]
    exact ih h.2

theorem mapGet_eq_some_iff (m : List (Address × Int)) (hnd : (m.map Prod.fst).Nodup)
    (a : Address) (v : Int) : mapGet m a = some v ↔ (a, v) ∈ m := by
  induction m with
  | nil => simp [mapGet]
  | cons p rest ih =>
    obtain ⟨k, w⟩ := p
    simp only [List.map_cons, List.nodup_cons] at hnd
    by_cases hk : k = a
    · subst hk
      simp only [mapGet, if_true, Option.some.injEq, List.mem_cons, Prod.mk.injEq, true_and]
      constructor
      · intro h; exact Or.inl h.symm
      · intro h
        rcases h with h | h
        · exact h.symm
        · exact absurd (List.mem_map_of_mem Prod.fst h) hnd.1
    · simp only [mapGet, if_neg hk, List.mem_cons, Prod.mk.injEq]
      rw [ih hnd.2]
      constructor
      · intro h; exact Or.inr h
      · intro h
        rcases h with h | h
        · exact absurd h.1.symm hk
        · exact h

theorem mapGet_perm (m1 m2 : List (Address × Int)) (hp : m1.Perm m2)
    (hnd : (m2.map Prod.fst).Nodup) (a : Address) : mapGet m1 a = mapGet m2 a := by
  have hnd1 : (m1.map Prod.fst).Nodup := (hp.map Prod.fst).nodup_iff.2 hnd
  cases h2 : mapGet m2 a with
  | some v =>
    rw [mapGet_eq_some_iff m2 hnd] at h2
    rw [mapGet_eq_some_iff m1 hnd1]
    exact hp.mem_iff.2 h2
  | none =>
    cases h1 : mapGet m1 a with
    | none => rfl
    | some v =>
      rw [mapGet_eq_some_iff m1 hnd1] at h1
      have := (mapGet_eq_some_iff m2 hnd a v).2 (hp.mem_iff.1 h1)
      rw [h2] at this
      exact absurd this (by simp)

theorem mapSet_keys (m : List (Address × Int)) (a : Address) (v : Int) :
    (mapSet m a v).map Prod.fst =
      if a ∈ m.map Prod.fst then m.map Prod.fst else m.map Prod.fst ++ [a] := by
  induction m with
  | nil => simp [mapSet]
  | cons p rest ih =>
    obtain ⟨k, w⟩ := p
    by_cases hk : k = a
    · subst hk; simp [mapSet]
    · have hk1 : ¬ a = k := fun e => hk e.symm
      simp only [mapSet, if_neg hk, List.map_cons, ih, List.mem_cons, hk1, false_or]
      by_cases hin : a ∈ rest.map Prod.fst
      · simp [hin]
      · simp [hin]

theorem mapSet_mem (m : List (Address × Int)) (a : Address) (v : Int) (p : Address × Int)
    (hp : p ∈ mapSet m a v) : p = (a, v) ∨ p ∈ m := by
  induction m with
  | nil => simp [mapSet] at hp; exact Or.inl hp
  | cons q rest ih =>
    obtain ⟨k, w⟩ := q
    by_cases hk : k = a
    · subst hk
      simp only [mapSet, if_true, List.mem_cons] at hp
      rcases hp with hp | hp
      · exact Or.inl hp
      · exact Or.inr (List.mem_cons_of_mem _ hp)
    · simp only [mapSet, if_neg hk, List.mem_cons] at hp
      rcases hp with hp | hp
      · exact Or.inr (hp ▸ List.mem_cons_self _ _)
      · rcases ih hp with h | h
        · exact Or.inl h
        · exact Or.inr (List.mem_cons_of_mem _ h)

theorem mapSet_valid (r : FiatReserve) (hr : r.Valid) (a : Address) (v : Int)
    (ha : a < 2 ^ 160) (hv : 0 ≤ v) : FiatReserve.Valid { balances := mapSet r.balances a v } := by
  obtain ⟨hnd, hall⟩ := hr
  refine ⟨?_, ?_⟩
  · show ((mapSet r.balances a v).map Prod.fst).Nodup
    rw [mapSet_keys]
    by_cases hin : a ∈ r.balances.map Prod.fst
    · rw [if_pos hin]; exact hnd
    · rw [if_neg hin]
      rw [List.nodup_append]
      refine ⟨hnd, List.nodup_singleton a, ?_⟩
      intro x hx hx1
      rw [List.mem_singleton] at hx1
      subst hx1
      exact hin hx
  · intro p hp
    rcases mapSet_mem _ _ _ _ hp with h | h
    · subst h; exact ⟨ha, hv⟩
    · exact hall p h

theorem mapGet_nonneg (r : FiatReserve) (hr : r.Valid) (a : Address) (v : Int)
    (h : mapGet r.balances a = some v) : 0 ≤ v :=
  (hr.2 (a, v) ((mapGet_eq_some_iff _ hr.1 a v).1 h)).2

theorem ReserveOp.apply_valid (r : FiatReserve) (hr : r.Valid) (op : ReserveOp)
    (ha : op.address < 2 ^ 160) : (ReserveOp.apply r op).Valid := by
  cases op with
  | deposit a x =>
    simp only [ReserveOp.address] at ha
    simp only [ReserveOp.apply, FiatReserve.Deposit]
    by_cases hx : x ≤ 0
    · rw [if_pos hx]; exact hr
    · rw [if_neg hx]
      cases hg : mapGet r.balances a with
      | none =>
        have h1 := mapSet_valid r hr a 0 ha (le_refl 0)
        simp only [mapGet_mapSet, if_true, Option.getD_some]
        exact mapSet_valid _ h1 a (0 + x) ha (by omega)
      | some v =>
        have hv := mapGet_nonneg r hr a v hg
        simp only [hg, Option.getD_some]
        exact mapSet_valid r hr a (v + x) ha (by omega)
  | withdraw a x =>
    simp only [ReserveOp.address] at ha
    simp only [ReserveOp.apply, FiatReserve.Withdraw]
    by_cases hx : x ≤ 0
    · rw [if_pos hx]; exact hr
    · rw [if_neg hx]
      cases hg : mapGet r.balances a with
      | none => exact hr
      | some v =>
        simp only
        by_cases hlt : v < x
        · rw [if_pos hlt]; exact hr
        · rw [if_neg hlt]
          exact mapSet_valid r hr a (v - x) ha (by omega)

theorem runReserve_valid (ops : List ReserveOp) (haddr : ∀ op ∈ ops, op.address < 2 ^ 160) :
    (runReserve ops).Valid := by
  unfold runReserve
  have key : ∀ (l : List ReserveOp) (r : FiatReserve), r.Valid →
      (∀ op ∈ l, op.address < 2 ^ 160) → (l.foldl ReserveOp.apply r).Valid := by
    intro l
    induction l with
    | nil => intro r h _; exact h
    | cons op rest ih =>
      intro r h hl
      exact ih _ (ReserveOp.apply_valid r h op (hl op (List.mem_cons_self _ _)))
        (fun o ho => hl o (List.mem_cons_of_mem _ ho))
  exact key ops _ ⟨List.nodup_nil, fun p hp => absurd hp (List.not_mem_nil p)⟩ haddr

/-! ### Commit and load -/

theorem Database.writeBatch_fresh (batch : List (List Byte × List Byte)) :
    ∀ db : Database, ((db.entries ++ batch).map Prod.fst).Nodup →
      (db.WriteBatch batch).entries = db.entries ++ batch := by
  induction batch with
  | nil => intro db _; simp [Database.WriteBatch]
  | cons e rest ih =>
    intro db hnd
    have hput : (db.Put e.1 e.2).entries = db.entries ++ [e] := by
      unfold Database.Put
      simp only
      congr 1
      rw [List.filter_eq_self]
      intro x hx
      simp only [decide_eq_true_eq]
      intro hxe
      rw [List.map_append, List.nodup_append] at hnd
      exact hnd.2.2 (List.mem_map_of_mem Prod.fst hx)
        (hxe ▸ List.mem_map_of_mem Prod.fst (List.mem_cons_self _ _))
    have h1 : (db.WriteBatch (e :: rest)) = (db.Put e.1 e.2).WriteBatch rest := rfl
    rw [h1, ih (db.Put e.1 e.2) (by rw [hput, List.append_assoc]; exact hnd), hput,
      List.append_assoc]
    rfl

theorem FiatReserve.load_eq_foldl (iterOrder : List (List Byte × List Byte)) :
    ∀ r : FiatReserve, (r.LoadFromStorage iterOrder).balances =
      (iterOrder.map (fun e => (BytesToAddress e.1, setBytes e.2))).foldl
        (fun m p => mapSet m p.1 p.2) r.balances := by
  induction iterOrder with
  | nil => intro r; rfl
  | cons e rest ih =>
    intro r
    simp only [FiatReserve.LoadFromStorage, List.foldl_cons, List.map_cons] at ih ⊢
    exact ih _

theorem mapGet_foldl_mapSet (D : List (Address × Int)) (hnd : (D.map Prod.fst).Nodup) :
    ∀ (m0 : List (Address × Int)) (a : Address),
      mapGet (D.foldl (fun m p => mapSet m p.1 p.2) m0) a =
        match mapGet D a with
        | some v => some v
        | none => mapGet m0 a := by
  induction D with
  | nil => intro m0 a; rfl
  | cons p rest ih =>
    intro m0 a
    obtain ⟨k, w⟩ := p
    simp only [List.map_cons, List.nodup_cons] at hnd
    rw [List.foldl_cons, ih hnd.2, mapGet_mapSet]
    by_cases hk : k = a
    · subst hk
      rw [mapGet_none_of_not_mem rest k hnd.1]
      simp [mapGet]
    · have hk1 : ¬ a = k := fun e => hk e.symm
      simp only [mapGet, if_neg hk, if_neg hk1]

/-- C24: for every reserve `r` reached by `Deposit` and `Withdraw` calls (on 20-byte
addresses), after `r.CommitToStorage(db)` on an empty database (whatever the order of the
`range` loop over the map) and `LoadFromStorage(db)` into a new reserve (whatever the order in
which the database iterates its keys), the new reserve has the balance of `r` at every
address; the amounts are unbounded integers. -/
theorem FiatReserve_storage_roundtrip (ops : List ReserveOp)
    (haddr : ∀ op ∈ ops, op.address < 2 ^ 160)
    (rangeOrder : List (Address × Int)) (hrange : rangeOrder.Perm (runReserve ops).balances)
    (iterOrder : List (List Byte × List Byte))
    (hiter : iterOrder.Perm (FiatReserve.CommitToStorage rangeOrder Database.empty).entries)
    (a : Address) :
    (NewFiatReserve.LoadFromStorage iterOrder).GetBalance a = (runReserve ops).GetBalance a := by
  obtain ⟨hnd, hall⟩ := runReserve_valid ops haddr
  generalize runReserve ops = r at hrange hnd hall ⊢
  have hall1 : ∀ p ∈ rangeOrder, p.1 < 2 ^ 160 ∧ 0 ≤ p.2 :=
    fun p hp => hall p (hrange.mem_iff.1 hp)
  have hnd1 : (rangeOrder.map Prod.fst).Nodup := (hrange.map Prod.fst).nodup_iff.2 hnd
  -- decoding an encoded entry gives the entry back
  have hdec : (rangeOrder.map (fun p => (bytesBE 20 p.1, bigBytes p.2))).map
      (fun e => (BytesToAddress e.1, setBytes e.2)) = rangeOrder := by
    rw [List.map_map]
    conv_rhs => rw [← List.map_id rangeOrder]
    apply List.map_congr_left
    intro p hp
    obtain ⟨h1, h2⟩ := hall1 p hp
    simp only [Function.comp, id]
    rw [BytesToAddress_bytesBE _ h1, setBytes_bigBytes]
    have : ((p.2.natAbs : Nat) : Int) = p.2 := Int.natAbs_of_nonneg h2
    rw [this]
  -- the encoded keys are distinct
  have hkeys : ((rangeOrder.map (fun p => (bytesBE 20 p.1, bigBytes p.2))).map
      Prod.fst).Nodup := by
    apply List.Nodup.of_map BytesToAddress
    have : ((rangeOrder.map (fun p => (bytesBE 20 p.1, bigBytes p.2))).map Prod.fst).map
        BytesToAddress = rangeOrder.map Prod.fst := by
      conv_rhs => rw [← hdec]
      simp only [List.map_map]
      rfl
    rw [this]
    exact hnd1
  have hcommit : (FiatReserve.CommitToStorage rangeOrder Database.empty).entries =
      rangeOrder.map (fun p => (bytesBE 20 p.1, bigBytes p.2)) := by
    unfold FiatReserve.CommitToStorage
    rw [Database.writeBatch_fresh _ _ (by simpa [Database.empty] using hkeys)]
    simp [Database.empty]
  rw [hcommit] at hiter
  have hD : (iterOrder.map (fun e => (BytesToAddress e.1, setBytes e.2))).Perm r.balances := by
    have := hiter.map (fun e => (BytesToAddress e.1, setBytes e.2))
    rw [hdec] at this
    exact this.trans hrange
  have hDnd : ((iterOrder.map (fun e => (BytesToAddress e.1, setBytes e.2))).map
      Prod.fst).Nodup := (hD.map Prod.fst).nodup_iff.2 hnd
  unfold FiatReserve.GetBalance
  rw [FiatReserve.load_eq_foldl, mapGet_foldl_mapSet _ hDnd, mapGet_perm _ _ hD hnd]
  cases mapGet r.balances a with
  | none => rfl
  | some v => rfl

/-- C30: after any sequence of `Deposit` and `Withdraw` calls on a new `FiatReserve`, every
balance is at least zero; `Deposit` and `Withdraw` return an error and change nothing when the
amount is not positive; `Withdraw(a, x)` returns an error and changes nothing when
`balance(a) < x`; a `Deposit(a, x)` with `x > 0` succeeds and a `Withdraw(a, x)` with
`0 < x <= balance(a)` succeeds, and they change the balance of `a` by exactly `+x` and `-x` and
no other balance. -/
theorem FiatReserve_invariants (ops : List ReserveOp) :
    (∀ a, 0 ≤ (runReserve ops).GetBalance a) ∧
    (∀ a x, x ≤ 0 →
      (runReserve ops).Deposit a x = (some ReserveError.depositNotPositive, runReserve ops) ∧
      (runReserve ops).Withdraw a x =
        (some ReserveError.withdrawalNotPositive, runReserve ops)) ∧
    (∀ a x, (runReserve ops).GetBalance a < x →
      ((runReserve ops).Withdraw a x).1.isSome = true ∧
      ((runReserve ops).Withdraw a x).2 = runReserve ops) ∧
    (∀ a x, ((runReserve ops).Deposit a x).1 = none ↔ 0 < x) ∧
    (∀ a x, ((runReserve ops).Withdraw a x).1 = none ↔
      0 < x ∧ x ≤ (runReserve ops).GetBalance a) ∧
    (∀ a x, ((runReserve ops).Deposit a x).1 = none → ∀ b,
      ((runReserve ops).Deposit a x).2.GetBalance b =
        if b = a then (runReserve ops).GetBalance a + x else (runReserve ops).GetBalance b) ∧
    (∀ a x, ((runReserve ops).Withdraw a x).1 = none → ∀ b,
      ((runReserve ops).Withdraw a x).2.GetBalance b =
        if b = a then (runReserve ops).GetBalance a - x else (runReserve ops).GetBalance b) := by
  have hnn := runReserve_nonneg ops
  generalize runReserve ops = r at hnn ⊢
  have hdep : ∀ a x, (r.Deposit a x).1 = none ↔ 0 < x := by
    intro a x
    constructor
    · intro h
      by_contra hx
      have hx1 : x ≤ 0 := by omega
      simp [FiatReserve.Deposit, hx1] at h
    · intro hx
      exact (FiatReserve.getBalance_deposit r a x hx a).1
  have hwd : ∀ a x, (r.Withdraw a x).1 = none ↔ 0 < x ∧ x ≤ r.GetBalance a := by
    intro a x
    constructor
    · intro h
      by_contra hx
      have hbad : r.GetBalance a < x ∨ x ≤ 0 := by omega
      have := (FiatReserve.withdraw_error r a x hbad).1
      rw [h] at this
      exact absurd this (by decide)
    · intro hx
      exact (FiatReserve.getBalance_withdraw r a x hx.1 hx.2 a).1
  refine ⟨hnn, ?_, ?_, hdep, hwd, ?_, ?_⟩
  · intro a x hx
    simp [FiatReserve.Deposit, FiatReserve.Withdraw, hx]
  · intro a x hx
    exact FiatReserve.withdraw_error r a x (Or.inl hx)
  · intro a x h b
    exact (FiatReserve.getBalance_deposit r a x ((hdep a x).1 h) b).2
  · intro a x h b
    exact (FiatReserve.getBalance_withdraw r a x ((hwd a x).1 h).1 ((hwd a x).1 h).2 b).2

/-- C24 on a reserve with a balance above `2 ^ 64` and a balance that was withdrawn down to
zero. -/
theorem FiatReserve_storage_roundtrip_witness :
    (runReserve sampleReserveOps).GetBalance 1 = 10 ^ 28 - 5 ∧
    (NewFiatReserve.LoadFromStorage
      (FiatReserve.CommitToStorage (runReserve sampleReserveOps).balances
        Database.empty).entries).GetBalance 1 = (runReserve sampleReserveOps).GetBalance 1 :=
  ⟨by decide, FiatReserve_storage_roundtrip sampleReserveOps (by decide) _ (List.Perm.refl _) _
    (List.Perm.refl _) 1⟩

/-! ## The intrinsic-gas error and the gas pool on errors (C25, C27) -/

/-- The function `ApplyMessage` as the chain of its checks, for a transaction with recovered
sender `s`. -/
theorem ApplyMessage_eq (host : Host) (ctx : EVMContext) (statedb : StateDB)
    (tx : Transaction) (gp : Nat) (s : Address) (hs : tx.sender = some s)
    (hg64 : tx.gas < uint64Size) :
    ApplyMessage host ctx statedb tx gp =
      if statedb.GetNonce s < tx.nonce then
        { ret := [], usedGas := 0, failed := false, err := some Error.ErrNonceTooHigh,
          state := statedb.ensure s, gp := gp }
      else if statedb.GetNonce s > tx.nonce then
        { ret := [], usedGas := 0, failed := false, err := some Error.ErrNonceTooLow,
          state := statedb.ensure s, gp := gp }
      else if statedb.GetBalance s < (tx.gas : Int) * tx.gasPrice then
        { ret := [], usedGas := 0, failed := false,
          err := some Error.ErrInsufficientBalanceForGas, state := statedb.ensure s, gp := gp }
      else if gp < tx.gas then
        { ret := [], usedGas := 0, failed := false, err := some Error.ErrGasLimitReached,
          state := statedb.ensure s, gp := gp }
      else if tx.gas < (IntrinsicGas tx.data (tx.toAddress == zeroAddress)).1 then
        { ret := [], usedGas := 0, failed := false, err := some Error.ErrOutOfGas,
          state := (statedb.ensure s).SubBalance s ((tx.gas : Int) * tx.gasPrice),
          gp := gp - tx.gas }
      else
        TransitionDb.execute host ctx tx s
          { gp := gp - tx.gas,
            gas := tx.gas - (IntrinsicGas tx.data (tx.toAddress == zeroAddress)).1,
            initialGas := tx.gas,
            state := (statedb.ensure s).SubBalance s ((tx.gas : Int) * tx.gasPrice) } := by
  have hpre := StateTransition.preCheck_eq tx (NewStateTransition statedb gp) s hs
  simp only [NewStateTransition] at hpre
  unfold ApplyMessage TransitionDb
  simp only [NewStateTransition]
  by_cases h1 : statedb.GetNonce s < tx.nonce
  · rw [if_pos h1] at hpre ⊢
    rw [hpre]
  · rw [if_neg h1] at hpre ⊢
    by_cases h2 : statedb.GetNonce s > tx.nonce
    · rw [if_pos h2] at hpre ⊢
      rw [hpre]
    · rw [if_neg h2] at hpre ⊢
      by_cases h3 : statedb.GetBalance s < (tx.gas : Int) * tx.gasPrice
      · rw [if_pos h3] at hpre ⊢
        rw [hpre]
      · rw [if_neg h3] at hpre ⊢
        unfold SubGas at hpre
        by_cases h4 : gp < tx.gas
        · rw [if_pos h4] at hpre ⊢
          rw [hpre]
        · rw [if_neg h4] at hpre ⊢
          rw [hpre]
          simp only
          have hex : ((statedb.ensure s).SubBalance s ((tx.gas : Int) * tx.gasPrice)).Exist s
              = true := StateDB.exist_setAccount _ _ _
          rw [StateTransition.sender_eq tx _ s hs]
          simp only [StateDB.ensure_of_exist _ _ hex]
          have hgas1 : (0 + tx.gas) % uint64Size = tx.gas := by
            rw [Nat.zero_add]; exact Nat.mod_eq_of_lt hg64
          rw [hgas1]
          generalize (IntrinsicGas tx.data (tx.toAddress == zeroAddress)).1 = ig
          unfold StateTransition.useGas
          by_cases h5 : tx.gas < ig
          · simp only [h5, if_true]
          · simp only [h5, if_false]
            rfl

theorem IntrinsicGas_hugeData :
    IntrinsicGas hugeData false = (0, some Error.ErrOutOfGas) := by
  have hnz : nonZeroBytes hugeData = 2 ^ 58 := by
    unfold nonZeroBytes hugeData
    rw [List.countP_replicate]
    simp
  have hlen : hugeData.length = 2 ^ 58 := by
    unfold hugeData
    rw [List.length_replicate]
  unfold IntrinsicGas
  rw [hnz, hlen]
  decide

/-- C25 as stated fails: for the call `dataTx hugeData`, whose `2 ^ 58` non-zero data bytes
make `IntrinsicGas` return `ErrOutOfGas`, and a sender that passes the pre-check,
`TransitionDb` returns no error: the error of `IntrinsicGas` is overwritten by the result of
`useGas(0)`, the virtual machine runs with the whole gas limit, the amount `10` reaches the
recipient, and the transaction is charged no gas. `IntrinsicGas` fails on no shorter data
than about `2 ^ 57.9` bytes. -/
theorem TransitionDb_runs_after_intrinsic_error :
    (IntrinsicGas (dataTx hugeData).data ((dataTx hugeData).toAddress == zeroAddress)).2 =
      some Error.ErrOutOfGas ∧
    ((NewStateTransition (fundedState 1000000 5) 1000000).preCheck (dataTx hugeData)).1 = none ∧
    (ApplyMessage simpleHost (simpleCtx 1 2 20) (fundedState 1000000 5) (dataTx hugeData)
      1000000).err = none ∧
    (ApplyMessage simpleHost (simpleCtx 1 2 20) (fundedState 1000000 5) (dataTx hugeData)
      1000000).usedGas = 0 ∧
    (fundedState 1000000 5).GetBalance 3 = 0 ∧
    (ApplyMessage simpleHost (simpleCtx 1 2 20) (fundedState 1000000 5) (dataTx hugeData)
      1000000).state.GetBalance 3 = 10 := by
  have hig : IntrinsicGas (dataTx hugeData).data ((dataTx hugeData).toAddress == zeroAddress) =
      (0, some Error.ErrOutOfGas) := IntrinsicGas_hugeData
  have heq := ApplyMessage_eq simpleHost (simpleCtx 1 2 20) (fundedState 1000000 5)
    (dataTx hugeData) 1000000 1 rfl (by decide)
  rw [hig] at heq
  refine ⟨by rw [hig], by decide, ?_, ?_, by decide, ?_⟩
  · rw [heq]; decide
  · rw [heq]; decide
  · rw [heq]; decide

theorem IntrinsicGas_short_data (data : List Byte) (contractCreation : Bool)
    (hlen : data.length ≤ 2 ^ 57) : (IntrinsicGas data contractCreation).2 = none := by
  have hnz : nonZeroBytes data ≤ data.length := List.countP_le_length _
  have hgas : (if contractCreation then TxGasContractCreation else TxGas) ≤ 53000 := by
    cases contractCreation <;> simp [TxGas, TxGasContractCreation]
  unfold IntrinsicGas
  generalize nonZeroBytes data = nz at hnz
  generalize (if contractCreation then TxGasContractCreation else TxGas) = gas at hgas
  simp only [MaxUint64, TxDataNonZeroGas, TxDataZeroGas, uint64Size]
  norm_num at hlen ⊢
  by_cases h0 : 0 < data.length
  · rw [if_pos h0]
    have h1 : ¬ (18446744073709551615 - gas) / 68 < nz := by omega
    rw [if_neg h1]
    have hm : (gas + nz * 68) % 18446744073709551616 = gas + nz * 68 :=
      Nat.mod_eq_of_lt (by omega)
    rw [hm]
    have h2 : ¬ (18446744073709551615 - (gas + nz * 68)) / 4 < data.length - nz := by omega
    rw [if_neg h2]
  · rw [if_neg h0]

/-- C25 (amended): for every transaction with recovered sender `s` that passes the pre-check
and whose gas limit is below the gas that `IntrinsicGas` returns for its data, `TransitionDb`
returns `ErrOutOfGas`: the transaction is rejected, and the virtual machine is not invoked for
it, the result being the same record for every virtual machine (no output, no gas used, the
state with the gas purchase of the pre-check). The function `IntrinsicGas` itself does not
fail for data of at most `2 ^ 57` bytes. -/
theorem TransitionDb_intrinsic_gas_rejects (host : Host) (ctx : EVMContext) (statedb : StateDB)
    (tx : Transaction) (gp : Nat) (s : Address) (hs : tx.sender = some s)
    (hg64 : tx.gas < uint64Size)
    (hpre : ((NewStateTransition statedb gp).preCheck tx).1 = none)
    (hlow : tx.gas < (IntrinsicGas tx.data (tx.toAddress == zeroAddress)).1) :
    ApplyMessage host ctx statedb tx gp =
      { ret := [], usedGas := 0, failed := false, err := some Error.ErrOutOfGas,
        state := (statedb.ensure s).SubBalance s ((tx.gas : Int) * tx.gasPrice),
        gp := gp - tx.gas } ∧
    (∀ host1 : Host, ApplyMessage host1 ctx statedb tx gp = ApplyMessage host ctx statedb tx gp) ∧
    (tx.data.length ≤ 2 ^ 57 →
      (IntrinsicGas tx.data (tx.toAddress == zeroAddress)).2 = none) := by
  have key : ∀ h : Host, ApplyMessage h ctx statedb tx gp =
      { ret := [], usedGas := 0, failed := false, err := some Error.ErrOutOfGas,
        state := (statedb.ensure s).SubBalance s ((tx.gas : Int) * tx.gasPrice),
        gp := gp - tx.gas } := by
    intro h
    have hp := StateTransition.preCheck_eq tx (NewStateTransition statedb gp) s hs
    simp only [NewStateTransition] at hp
    simp only [NewStateTransition] at hpre
    rw [ApplyMessage_eq h ctx statedb tx gp s hs hg64]
    by_cases h1 : statedb.GetNonce s < tx.nonce
    · rw [hp, if_pos h1] at hpre; simp at hpre
    by_cases h2 : statedb.GetNonce s > tx.nonce
    · rw [hp, if_neg h1, if_pos h2] at hpre; simp at hpre
    by_cases h3 : statedb.GetBalance s < (tx.gas : Int) * tx.gasPrice
    · rw [hp, if_neg h1, if_neg h2, if_pos h3] at hpre; simp at hpre
    by_cases h4 : gp < tx.gas
    · rw [hp, if_neg h1, if_neg h2, if_neg h3] at hpre
      simp [SubGas, h4] at hpre
    rw [if_neg h1, if_neg h2, if_neg h3, if_neg h4, if_pos hlow]
  refine ⟨key host, fun host1 => by rw [key host1, key host], ?_⟩
  intro hlen
  exact IntrinsicGas_short_data _ _ hlen

/-- C25 (amended) on a call with gas limit `1000`, below the intrinsic gas `21000`, from the
sender `1` with balance `1000000` and nonce `5`. -/
theorem TransitionDb_intrinsic_gas_rejects_witness :
    (ApplyMessage simpleHost (simpleCtx 1 2 20) (fundedState 1000000 5) (callTx 5 0 1000 20)
      1000000).err = some Error.ErrOutOfGas ∧
    (ApplyMessage simpleHost (simpleCtx 1 2 20) (fundedState 1000000 5) (callTx 5 0 1000 20)
      1000000).usedGas = 0 ∧
    (IntrinsicGas (callTx 5 0 1000 20).data ((callTx 5 0 1000 20).toAddress == zeroAddress)).2 =
      none :=
  ⟨congrArg TransitionResult.err
      (TransitionDb_intrinsic_gas_rejects simpleHost (simpleCtx 1 2 20) (fundedState 1000000 5)
        (callTx 5 0 1000 20) 1000000 1 rfl (by decide) (by decide) (by decide)).1,
    congrArg TransitionResult.usedGas
      (TransitionDb_intrinsic_gas_rejects simpleHost (simpleCtx 1 2 20) (fundedState 1000000 5)
        (callTx 5 0 1000 20) 1000000 1 rfl (by decide) (by decide) (by decide)).1,
    (TransitionDb_intrinsic_gas_rejects simpleHost (simpleCtx 1 2 20) (fundedState 1000000 5)
        (callTx 5 0 1000 20) 1000000 1 rfl (by decide) (by decide) (by decide)).2.2 (by decide)⟩

/-- C27 fails on the code. A call with gas limit `1000`, below the intrinsic gas of `21000`,
passes the pre-check, which takes `1000` from the gas pool, and is then rejected with
`ErrOutOfGas`: `ApplyMessage` and `ApplyTransaction` return the error with the pool at
`999000` instead of `1000000`, and `BlockBuilder.applyTransaction` reverts the state to its
snapshot but leaves the pool reduced. A call with gas price `0` and the whole pool as gas
limit, whose value the sender cannot pay, is rejected with `ErrInsufficientBalance` and leaves
the pool empty. -/
theorem TransitionDb_error_keeps_gas_from_pool :
    (ApplyMessage simpleHost (simpleCtx 1 2 20) (fundedState 1000000 5)
      (callTx 5 0 1000 20) 1000000).err = some Error.ErrOutOfGas ∧
    (ApplyMessage simpleHost (simpleCtx 1 2 20) (fundedState 1000000 5)
      (callTx 5 0 1000 20) 1000000).gp = 999000 ∧
    (match ApplyTransaction simpleHost 2 1000000 (fundedState 1000000 5) BlockHeader.zero
        (callTx 5 0 1000 20) 0 with
      | ApplyResult.failure e _ gp => (some e, gp)
      | ApplyResult.success _ _ _ gp _ => (none, gp)) = (some Error.ErrOutOfGas, 999000) ∧
    (sampleBuilder.applyTransaction simpleHost 2 (callTx 5 0 1000 20) 0).1 =
      some Error.ErrOutOfGas ∧
    (sampleBuilder.applyTransaction simpleHost 2 (callTx 5 0 1000 20) 0).2.gasPool = 999000 ∧
    (sampleBuilder.applyTransaction simpleHost 2 (callTx 5 0 1000 20) 0).2.statedb.GetBalance 1
      = 1000000 ∧
    (ApplyMessage simpleHost (simpleCtx 1 2 0) (fundedState 100 5)
      (callTx 5 101 10000000 0) 10000000).err = some Error.ErrInsufficientBalance ∧
    (ApplyMessage simpleHost (simpleCtx 1 2 0) (fundedState 100 5)
      (callTx 5 101 10000000 0) 10000000).gp = 0 := by
  refine ⟨by decide, by decide, by decide, by decide, by decide, by decide, by decide,
    by decide⟩

/-! ## Proposer schedule: the salt and the total weight (C28, C29) -/

theorem assignHeightsHashed_fst (E : Nat) (total : Int) (l : List Authority)
    (hashSum : List Byte) (heights : List Nat) :
    ∀ (schedule : Nat → Option Address) (asg : Address → Nat) (bhs : List (List Byte)),
      (assignHeightsHashed E total l hashSum heights schedule asg bhs).map Prod.fst =
        assignHeights E total l heights schedule asg := by
  induction heights with
  | nil => intro schedule asg bhs; rfl
  | cons h rest ih =>
    intro schedule asg bhs
    unfold assignHeightsHashed assignHeights
    cases hsel : selectAuthority E total asg l with
    | none => rfl
    | some o =>
      cases o with
      | none => exact ih _ _ _
      | some a => exact ih _ _ _

/-- C28: the table that `UpdateSchedule` builds does not depend on the salt. The salt only
enters the Keccak hashers, which the assignment loop never reads: for every Keccak function,
from-height, validator map and any two salts, the tables built are the same (the same proposer
or none at every height, or a panic in both runs), and they are the table of `UpdateSchedule`
without the hashers. -/
theorem UpdateSchedule_salt_independent (keccak : List Byte → List Byte) (E : Nat)
    (fromBlock : Nat) (auths : List (Address × Int)) (s1 s2 : List Byte) :
    (UpdateScheduleHashed keccak E s1 fromBlock auths).map Prod.fst =
      (UpdateScheduleHashed keccak E s2 fromBlock auths).map Prod.fst ∧
    (∀ h, (UpdateScheduleHashed keccak E s1 fromBlock auths).map (fun r => r.1.schedule h) =
      (UpdateScheduleHashed keccak E s2 fromBlock auths).map (fun r => r.1.schedule h)) ∧
    (UpdateScheduleHashed keccak E s1 fromBlock auths).map Prod.fst =
      UpdateSchedule E s1 fromBlock auths ∧
    UpdateSchedule E s1 fromBlock auths = UpdateSchedule E s2 fromBlock auths := by
  have key : ∀ s, (UpdateScheduleHashed keccak E s fromBlock auths).map Prod.fst =
      UpdateSchedule E s fromBlock auths := by
    intro s
    unfold UpdateScheduleHashed UpdateSchedule
    simp only [Option.map_map]
    rw [← assignHeightsHashed_fst E _ _ (keccak (s ++ bigBytes _)) _ _ _ [], Option.map_map]
    rfl
  have hsame : UpdateSchedule E s1 fromBlock auths = UpdateSchedule E s2 fromBlock auths := rfl
  have h12 : (UpdateScheduleHashed keccak E s1 fromBlock auths).map Prod.fst =
      (UpdateScheduleHashed keccak E s2 fromBlock auths).map Prod.fst := by
    rw [key s1, key s2, hsame]
  refine ⟨h12, ?_, key s1, hsame⟩
  intro h
  have := congrArg (fun o : Option ProposerSchedule => o.map (fun ps => ps.schedule h)) h12
  simpa [Option.map_map, Function.comp] using this

/-- The salt does reach the hashers: with the identity in place of Keccak, the first hasher
`blockHash` of a run starts with the first byte of the salt. -/
theorem UpdateScheduleHashed_reads_salt :
    (UpdateScheduleHashed (fun b => b) 2 [7] 10 [(1, 1)]).map
        (fun r => r.2.head?.bind List.head?) = some (some 7) ∧
    (UpdateScheduleHashed (fun b => b) 2 [8] 10 [(1, 1)]).map
        (fun r => r.2.head?.bind List.head?) = some (some 8) := by
  decide

/-- C29 fails on the code: for the validator map with the single validator `1` of weight `0`
(non-negative weights that sum to zero), from height `10` with an epoch of `100` heights, the
division by the total weight in the loop is a division by zero and `UpdateSchedule` panics
instead of returning nil; with the empty map it returns, and leaves every height without a
proposer. -/
theorem UpdateSchedule_zero_total_panics :
    (UpdateSchedule 100 [] 10 [(1, 0)]).isNone = true ∧
    assignedBlocks 100 0 0 = none ∧
    (UpdateSchedule 100 [] 10 []).isSome = true ∧
    (UpdateSchedule 100 [] 10 []).map (fun ps => GetProposer ps 10) =
      some (zeroAddress, some (Error.ErrNoProposer 10)) := by
  refine ⟨by decide, by decide, by decide, by decide⟩

/-! ## Block validator (C21, C22) -/

theorem bigBytes_length (x : Int) : (bigBytes x).length = (Nat.digits 256 x.natAbs).length := by
  unfold bigBytes
  rw [List.length_map, List.length_reverse]

theorem BytesToBloom_bigBytes_none (x : Int) (h : 2 ^ 2048 ≤ x.natAbs) :
    BytesToBloom (bigBytes x) = none := by
  unfold BytesToBloom
  rw [bigBytes_length]
  have h1 : ¬ (Nat.digits 256 x.natAbs).length ≤ 256 := by
    intro hle
    have hlt : x.natAbs < 256 ^ (Nat.digits 256 x.natAbs).length :=
      Nat.lt_base_pow_length_digits (by decide)
    have hmono : 256 ^ (Nat.digits 256 x.natAbs).length ≤ 256 ^ 256 :=
      Nat.pow_le_pow_right (by decide) hle
    have h2 : (256 : Nat) ^ 256 = 2 ^ 2048 := by norm_num
    omega
  rw [if_pos (by omega)]

theorem BytesToBloom_bigBytes_some (x : Int) (h : x.natAbs < 2 ^ 2048) :
    BytesToBloom (bigBytes x) = some x.natAbs := by
  unfold BytesToBloom
  rw [bigBytes_length]
  have h1 : (Nat.digits 256 x.natAbs).length ≤ 256 := by
    by_cases h0 : x.natAbs = 0
    · rw [h0]; simp
    · have hle := Nat.base_pow_length_digits_le 256 x.natAbs (by decide) h0
      have h2 : (256 : Nat) ^ 256 = 2 ^ 2048 := by norm_num
      have hlt : 256 ^ (Nat.digits 256 x.natAbs).length < 256 ^ 257 := by
        rw [Nat.pow_succ, h2]
        omega
      have := (Nat.pow_lt_pow_iff_right (by decide : 1 < 256)).1 hlt
      omega
  rw [if_neg (by omega)]
  have := setBytes_bigBytes x
  unfold setBytes at this
  congr 1
  exact_mod_cast this

theorem foldl_bytes_replicate_zero (k : Nat) :
    ∀ init : Nat, (List.replicate k (0 : Byte)).foldl (fun n x => n * 256 + x.val) init =
      init * 256 ^ k := by
  induction k with
  | zero => intro init; simp
  | succ k ih =>
    intro init
    rw [List.replicate_succ, List.foldl_cons, ih, Nat.pow_succ]
    simp only [Fin.val_zero, Nat.add_zero]
    ring

theorem ValidateState_no_bloom (chain : Chain) (keccak : List Byte → List Byte) (block : Block)
    (statedb : StateDB) (receipts : List Receipt) (usedGas : Nat)
    (hgas : block.Header.GasUsed = usedGas) (hbloom : block.Header.Bloom = none) :
    ValidateState chain keccak block statedb receipts usedGas = none := by
  unfold ValidateState
  simp only [hgas, hbloom, ne_eq, not_true_eq_false, if_false]

theorem ValidateState_wide_bloom (chain : Chain) (keccak : List Byte → List Byte)
    (block : Block) (statedb : StateDB) (receipts : List Receipt) (usedGas : Nat) (b : Int)
    (hgas : block.Header.GasUsed = usedGas) (hbloom : block.Header.Bloom = some b)
    (hwide : 2 ^ 2048 ≤ b.natAbs) :
    ValidateState chain keccak block statedb receipts usedGas = none := by
  unfold ValidateState
  simp only [hgas, hbloom, ne_eq, not_true_eq_false, if_false,
    BytesToBloom_bigBytes_none b hwide]

/-- C21 fails on the code: `ValidateState` does not return for every header. On a block with
no receipts and no gas used whose header has no bloom (a nil `*big.Int`, as in a header built
without the field), `header.Bloom.Bytes()` dereferences nil; on the header that `FromProto`
decodes from a message with a 257-byte bloom field, the bloom is `2 ^ 2048`, its `Bytes()` are
257 bytes and `BytesToBloom` panics with "bloom bytes too big". In both cases the call returns
neither nil nor an error. -/
theorem ValidateState_panics_on_bloom :
    BlockHeader.zero.Bloom = none ∧
    ValidateState (simpleChain [] []) (fun b => b)
      { Header := BlockHeader.zero, Transactions := [], Uncles := [] } StateDB.init [] 0 = none ∧
    wideBloomHeader.Bloom = some (2 ^ 2048) ∧
    ValidateState (simpleChain [] []) (fun b => b)
      { Header := wideBloomHeader, Transactions := [], Uncles := [] } StateDB.init [] 0 = none ∧
    ValidateState (simpleChain [] []) (fun b => b)
      { Header := { BlockHeader.zero with Bloom := some 0 }, Transactions := [], Uncles := [] }
      StateDB.init [] 0 = some none := by
  have hw : wideBloomHeader.Bloom = some (2 ^ 2048) := by
    unfold wideBloomHeader decodeHeader BlockHeader.FromProto setBytes
    simp only [List.foldl_cons, foldl_bytes_replicate_zero]
    norm_num
  refine ⟨rfl, ?_, hw, ?_, ?_⟩
  · exact ValidateState_no_bloom _ _ _ _ _ _ rfl rfl
  · exact ValidateState_wide_bloom _ _ _ _ _ _ (2 ^ 2048) rfl hw
      (by rw [Int.natAbs_pow]; exact Nat.le_refl _)
  · have hb : BytesToBloom (bigBytes 0) = some 0 := BytesToBloom_bigBytes_some 0 (by simp)
    unfold ValidateState
    simp only [hb]
    decide

/-- C22: for a chain view in which a block that is present with its state is present,
`ValidateBody` returns `ErrKnownBlock` when the chain has the block with its state; otherwise
`ErrUnknownAncestor` when the parent block (the parent hash at `Height - 1`) is missing, and
`ErrPrunedAncestor` when the parent block is present without its state; otherwise it returns an
error when `CalcUncleHash(uncles)` differs from `header.UncleHash` or `DeriveSha(transactions)`
is not `header.TransactionsRoot`; and it returns nil exactly when the block is not known, the
parent is present with its state, `VerifyUncles` passes, and the uncle hash and the transaction
root are those of the header. -/
theorem ValidateBody_spec (chain : Chain) (bl : Block)
    (hcons : ∀ h n, chain.HasBlockAndState h n = true → chain.HasBlock h n = true) :
    (chain.HasBlockAndState (chain.blockHash bl.Header) bl.Header.Height = true →
      ValidateBody chain bl = some ValidationError.ErrKnownBlock) ∧
    (chain.HasBlockAndState (chain.blockHash bl.Header) bl.Header.Height = false →
      chain.HasBlock bl.Header.ParentHash ((bl.Header.Height + uint64Size - 1) % uint64Size)
        = false →
      ValidateBody chain bl = some ValidationError.ErrUnknownAncestor) ∧
    (chain.HasBlockAndState (chain.blockHash bl.Header) bl.Header.Height = false →
      chain.HasBlock bl.Header.ParentHash ((bl.Header.Height + uint64Size - 1) % uint64Size)
        = true →
      chain.HasBlockAndState bl.Header.ParentHash
        ((bl.Header.Height + uint64Size - 1) % uint64Size) = false →
      ValidateBody chain bl = some ValidationError.ErrPrunedAncestor) ∧
    (chain.HasBlockAndState (chain.blockHash bl.Header) bl.Header.Height = false →
      chain.HasBlockAndState bl.Header.ParentHash
        ((bl.Header.Height + uint64Size - 1) % uint64Size) = true →
      (chain.CalcUncleHash bl.Uncles ≠ bl.Header.UncleHash ∨
        chain.DeriveShaTransactions bl.Transactions ≠ Except.ok bl.Header.TransactionsRoot) →
      (ValidateBody chain bl).isSome = true) ∧
    (ValidateBody chain bl = none ↔
      chain.HasBlockAndState (chain.blockHash bl.Header) bl.Header.Height = false ∧
      chain.HasBlock bl.Header.ParentHash ((bl.Header.Height + uint64Size - 1) % uint64Size)
        = true ∧
      chain.HasBlockAndState bl.Header.ParentHash
        ((bl.Header.Height + uint64Size - 1) % uint64Size) = true ∧
      chain.VerifyUncles bl = none ∧
      chain.CalcUncleHash bl.Uncles = bl.Header.UncleHash ∧
      chain.DeriveShaTransactions bl.Transactions = Except.ok bl.Header.TransactionsRoot) := by
  generalize hp : (bl.Header.Height + uint64Size - 1) % uint64Size = parentHeight
  have hc := hcons bl.Header.ParentHash parentHeight
  unfold ValidateBody
  rw [hp]
  cases hk : chain.HasBlockAndState (chain.blockHash bl.Header) bl.Header.Height <;>
  cases hps : chain.HasBlockAndState bl.Header.ParentHash parentHeight <;>
  cases hpb : chain.HasBlock bl.Header.ParentHash parentHeight <;>
  cases hv : chain.VerifyUncles bl <;>
  cases hd : chain.DeriveShaTransactions bl.Transactions <;>
  by_cases hu : chain.CalcUncleHash bl.Uncles = bl.Header.UncleHash <;>
  simp_all

/-- C22 on a chain that holds the parent `6` with its state: the block at height `7` with the
right roots is accepted. -/
theorem ValidateBody_spec_witness :
    ValidateBody (simpleChain [6] []) (bodyBlock 0 1) = none ∧
    ValidateBody (simpleChain [7, 6] []) (bodyBlock 0 1) = some ValidationError.ErrKnownBlock ∧
    ValidateBody (simpleChain [] []) (bodyBlock 0 1) = some ValidationError.ErrUnknownAncestor ∧
    ValidateBody (simpleChain [] [6]) (bodyBlock 0 1) = some ValidationError.ErrPrunedAncestor ∧
    (ValidateBody (simpleChain [6] []) (bodyBlock 0 2)).isSome = true :=
  ⟨(ValidateBody_spec (simpleChain [6] []) (bodyBlock 0 1)
      (fun h n hh => by simp [simpleChain] at hh ⊢; exact hh)).2.2.2.2.2
      ⟨by decide, by decide, by decide, by decide, by decide, rfl⟩,
    by decide, by decide, by decide, by decide⟩

/-! ## Builder and validator (C23) -/

theorem runVM_congr (host : Host) (ctx : EVMContext) (tx : Transaction) (s : Address)
    (st st' : StateTransition) (hstate : st.state = st'.state) (hgas : st.gas = st'.gas) :
    runVM host ctx tx s st = runVM host ctx tx s st' := by
  unfold runVM StateTransition.callInput StateTransition.recipient
  by_cases hto : tx.toAddress = zeroAddress
  · simp only [if_pos hto, hstate, hgas]
  · simp only [if_neg hto, hstate, hgas]
    by_cases hex : (st'.state.SetNonce s ((st'.state.GetNonce s + 1) % uint64Size)).Exist
        tx.toAddress = true
    · simp [hex]
    · simp [hex]

theorem runVM_ctx (host : Host) (hfixed : host.ReadsFixedHeader) (ctx1 ctx2 : EVMContext)
    (ho : ctx1.Origin = ctx2.Origin) (hp : ctx1.GasPrice = ctx2.GasPrice)
    (hc : ctx1.Coinbase = ctx2.Coinbase) (h1 : ctx1.Header.Height = ctx2.Header.Height)
    (h2 : ctx1.Header.ParentHash = ctx2.Header.ParentHash)
    (h3 : ctx1.Header.Timestamp = ctx2.Header.Timestamp)
    (h4 : ctx1.Header.Prevrandao = ctx2.Header.Prevrandao)
    (h5 : ctx1.Header.Proposer = ctx2.Header.Proposer)
    (tx : Transaction) (s : Address) (st : StateTransition) :
    runVM host ctx1 tx s st = runVM host ctx2 tx s st := by
  obtain ⟨hcall, hcreate⟩ := hfixed ctx1 ctx2 ho hp hc h1 h2 h3 h4 h5
  unfold runVM
  rw [hcall, hcreate]

theorem StateTransition.refundGas_eq (tx : Transaction) (s : Address)
    (hs : tx.sender = some s) (hg64 : tx.gas < uint64Size) (q rem : Nat) (state : StateDB)
    (hrem : rem ≤ tx.gas) (hq : q + tx.gas < uint64Size) :
    StateTransition.refundGas tx (StateTransition.mk q rem tx.gas state) =
      StateTransition.mk (q + (rem + min state.GetRefund ((tx.gas - rem) / 2)))
        (rem + min state.GetRefund ((tx.gas - rem) / 2)) tx.gas
        ((state.ensure s).AddBalance s
          (((rem + min state.GetRefund ((tx.gas - rem) / 2) : Nat) : Int) * tx.gasPrice)) := by
  have hused : (StateTransition.mk q rem tx.gas state).gasUsed = tx.gas - rem := by
    simp only [StateTransition.gasUsed]
    exact sub_mod_uint64 _ _ hg64 hrem
  have hrho : (if (tx.gas - rem) / 2 > state.GetRefund then state.GetRefund
      else (tx.gas - rem) / 2) = min state.GetRefund ((tx.gas - rem) / 2) := by
    by_cases hc : (tx.gas - rem) / 2 > state.GetRefund
    · rw [if_pos hc, Nat.min_eq_left (by omega)]
    · rw [if_neg hc, Nat.min_eq_right (by omega)]
  have hle : min state.GetRefund ((tx.gas - rem) / 2) ≤ (tx.gas - rem) / 2 :=
    Nat.min_le_right _ _
  unfold StateTransition.refundGas
  simp only [hused, hrho]
  have hm : (rem + min state.GetRefund ((tx.gas - rem) / 2)) % uint64Size =
      rem + min state.GetRefund ((tx.gas - rem) / 2) := Nat.mod_eq_of_lt (by omega)
  rw [hm, StateTransition.sender_eq tx _ s hs]
  simp only [AddGas]
  have hm2 : (q + (rem + min state.GetRefund ((tx.gas - rem) / 2))) % uint64Size =
      q + (rem + min state.GetRefund ((tx.gas - rem) / 2)) := Nat.mod_eq_of_lt (by omega)
  rw [hm2]

/-- The part of `TransitionDb` after the intrinsic gas, run from two gas pools: when the run
from the smaller pool returns no error, the run from the larger pool returns the same results
and state, with a pool that is at least as large. -/
theorem TransitionDb.execute_mono (host : Host) (hsound : host.GasSound) (ctx : EVMContext)
    (tx : Transaction) (s : Address) (hs : tx.sender = some s) (hg64 : tx.gas < uint64Size)
    (p p' g : Nat) (state : StateDB) (hg : g ≤ tx.gas) (hp : p ≤ p')
    (hp' : p' + tx.gas < uint64Size)
    (h : (TransitionDb.execute host ctx tx s
      { gp := p, gas := g, initialGas := tx.gas, state := state }).err = none) :
    (TransitionDb.execute host ctx tx s
      { gp := p', gas := g, initialGas := tx.gas, state := state }).err = none ∧
    (TransitionDb.execute host ctx tx s
      { gp := p', gas := g, initialGas := tx.gas, state := state }).ret =
      (TransitionDb.execute host ctx tx s
        { gp := p, gas := g, initialGas := tx.gas, state := state }).ret ∧
    (TransitionDb.execute host ctx tx s
      { gp := p', gas := g, initialGas := tx.gas, state := state }).usedGas =
      (TransitionDb.execute host ctx tx s
        { gp := p, gas := g, initialGas := tx.gas, state := state }).usedGas ∧
    (TransitionDb.execute host ctx tx s
      { gp := p', gas := g, initialGas := tx.gas, state := state }).failed =
      (TransitionDb.execute host ctx tx s
        { gp := p, gas := g, initialGas := tx.gas, state := state }).failed ∧
    (TransitionDb.execute host ctx tx s
      { gp := p', gas := g, initialGas := tx.gas, state := state }).state =
      (TransitionDb.execute host ctx tx s
        { gp := p, gas := g, initialGas := tx.gas, state := state }).state ∧
    (TransitionDb.execute host ctx tx s
      { gp := p, gas := g, initialGas := tx.gas, state := state }).gp ≤
      (TransitionDb.execute host ctx tx s
        { gp := p', gas := g, initialGas := tx.gas, state := state }).gp ∧
    (TransitionDb.execute host ctx tx s
      { gp := p', gas := g, initialGas := tx.gas, state := state }).gp ≤ p' + tx.gas := by
  have hr : runVM host ctx tx s { gp := p', gas := g, initialGas := tx.gas, state := state } =
      runVM host ctx tx s { gp := p, gas := g, initialGas := tx.gas, state := state } :=
    runVM_congr host ctx tx s _ _ rfl rfl
  have hrem : (runVM host ctx tx s
      { gp := p, gas := g, initialGas := tx.gas, state := state }).leftOverGas ≤ g :=
    runVM_leftOverGas host hsound ctx tx s _
  unfold TransitionDb.execute at h ⊢
  rw [hr]
  generalize runVM host ctx tx s { gp := p, gas := g, initialGas := tx.gas, state := state } = r
    at h hrem ⊢
  by_cases hib : r.err = some Error.ErrInsufficientBalance
  · simp [hib] at h
  · simp only [hib, if_false]
    have h1 := StateTransition.refundGas_eq tx s hs hg64 p r.leftOverGas r.state (by omega)
      (by omega)
    have h2 := StateTransition.refundGas_eq tx s hs hg64 p' r.leftOverGas r.state (by omega)
      (by omega)
    have hle : min r.state.GetRefund ((tx.gas - r.leftOverGas) / 2) ≤
        (tx.gas - r.leftOverGas) / 2 := Nat.min_le_right _ _
    rw [h1, h2]
    simp only [StateTransition.gasUsed]
    refine ⟨trivial, trivial, trivial, trivial, trivial, by omega, by omega⟩
theorem TransitionDb.execute_ctx (host : Host) (hfixed : host.ReadsFixedHeader)
    (ctx1 ctx2 : EVMContext)
    (ho : ctx1.Origin = ctx2.Origin) (hp : ctx1.GasPrice = ctx2.GasPrice)
    (hc : ctx1.Coinbase = ctx2.Coinbase) (hh : ctx1.Header.SameFixed ctx2.Header)
    (tx : Transaction) (s : Address) (st : StateTransition) :
    TransitionDb.execute host ctx1 tx s st = TransitionDb.execute host ctx2 tx s st := by
  obtain ⟨h1, h2, h3, h4, h5⟩ := hh
  unfold TransitionDb.execute
  rw [runVM_ctx host hfixed ctx1 ctx2 ho hp hc h1 h2 h3 h4 h5, hc]

/-- The function `ApplyMessage` from two gas pools and under two contexts that agree on what
the virtual machine reads: when the call from the smaller pool returns no error, the call from
the larger pool returns the same results and state, and its pool stays at least as large. -/
theorem ApplyMessage_mono (host : Host) (hsound : host.GasSound)
    (hfixed : host.ReadsFixedHeader) (ctx1 ctx2 : EVMContext)
    (ho : ctx1.Origin = ctx2.Origin) (hp : ctx1.GasPrice = ctx2.GasPrice)
    (hc : ctx1.Coinbase = ctx2.Coinbase) (hh : ctx1.Header.SameFixed ctx2.Header)
    (statedb : StateDB) (tx : Transaction) (gp1 gp2 : Nat) (s : Address)
    (hs : tx.sender = some s) (hg64 : tx.gas < uint64Size) (hle : gp1 ≤ gp2)
    (hgp2 : gp2 < uint64Size)
    (h : (ApplyMessage host ctx1 statedb tx gp1).err = none) :
    (ApplyMessage host ctx2 statedb tx gp2).err = none ∧
    (ApplyMessage host ctx2 statedb tx gp2).ret = (ApplyMessage host ctx1 statedb tx gp1).ret ∧
    (ApplyMessage host ctx2 statedb tx gp2).usedGas =
      (ApplyMessage host ctx1 statedb tx gp1).usedGas ∧
    (ApplyMessage host ctx2 statedb tx gp2).failed =
      (ApplyMessage host ctx1 statedb tx gp1).failed ∧
    (ApplyMessage host ctx2 statedb tx gp2).state =
      (ApplyMessage host ctx1 statedb tx gp1).state ∧
    (ApplyMessage host ctx1 statedb tx gp1).gp ≤ (ApplyMessage host ctx2 statedb tx gp2).gp ∧
    (ApplyMessage host ctx2 statedb tx gp2).gp ≤ gp2 := by
  have e1 := ApplyMessage_eq host ctx1 statedb tx gp1 s hs hg64
  have e2 := ApplyMessage_eq host ctx2 statedb tx gp2 s hs hg64
  by_cases h1 : statedb.GetNonce s < tx.nonce
  · rw [e1, if_pos h1] at h; simp at h
  by_cases h2 : statedb.GetNonce s > tx.nonce
  · rw [e1, if_neg h1, if_pos h2] at h; simp at h
  by_cases h3 : statedb.GetBalance s < (tx.gas : Int) * tx.gasPrice
  · rw [e1, if_neg h1, if_neg h2, if_pos h3] at h; simp at h
  by_cases h4 : gp1 < tx.gas
  · rw [e1, if_neg h1, if_neg h2, if_neg h3, if_pos h4] at h; simp at h
  have h4' : ¬ gp2 < tx.gas := by omega
  by_cases h5 : tx.gas < (IntrinsicGas tx.data (tx.toAddress == zeroAddress)).1
  · rw [e1, if_neg h1, if_neg h2, if_neg h3, if_neg h4, if_pos h5] at h; simp at h
  rw [if_neg h1, if_neg h2, if_neg h3, if_neg h4, if_neg h5] at e1
  rw [if_neg h1, if_neg h2, if_neg h3, if_neg h4', if_neg h5,
    ← TransitionDb.execute_ctx host hfixed ctx1 ctx2 ho hp hc hh] at e2
  rw [e1] at h ⊢
  rw [e2]
  have key := TransitionDb.execute_mono host hsound ctx1 tx s hs hg64 (gp1 - tx.gas)
    (gp2 - tx.gas) (tx.gas - (IntrinsicGas tx.data (tx.toAddress == zeroAddress)).1)
    ((statedb.ensure s).SubBalance s ((tx.gas : Int) * tx.gasPrice)) (by omega) (by omega)
    (by omega) h
  obtain ⟨k1, k2, k3, k4, k5, k6, k7⟩ := key
  exact ⟨k1, k2, k3, k4, k5, k6, by omega⟩

/-- An `ApplyMessage` that returns an error leaves no more gas in the pool than there was. -/
theorem ApplyMessage_gp_le (host : Host) (ctx : EVMContext) (statedb : StateDB)
    (tx : Transaction) (gp : Nat) (s : Address) (hs : tx.sender = some s)
    (hg64 : tx.gas < uint64Size) (e : Error)
    (h : (ApplyMessage host ctx statedb tx gp).err = some e) :
    (ApplyMessage host ctx statedb tx gp).gp ≤ gp := by
  rw [ApplyMessage_eq host ctx statedb tx gp s hs hg64] at h ⊢
  by_cases h1 : statedb.GetNonce s < tx.nonce
  · rw [if_pos h1]
  rw [if_neg h1] at h ⊢
  by_cases h2 : statedb.GetNonce s > tx.nonce
  · rw [if_pos h2]
  rw [if_neg h2] at h ⊢
  by_cases h3 : statedb.GetBalance s < (tx.gas : Int) * tx.gasPrice
  · rw [if_pos h3]
  rw [if_neg h3] at h ⊢
  by_cases h4 : gp < tx.gas
  · rw [if_pos h4]
  rw [if_neg h4] at h ⊢
  by_cases h5 : tx.gas < (IntrinsicGas tx.data (tx.toAddress == zeroAddress)).1
  · rw [if_pos h5]; exact Nat.sub_le _ _
  rw [if_neg h5] at h ⊢
  unfold TransitionDb.execute at h ⊢
  generalize runVM host ctx tx s _ = r at h ⊢
  by_cases hib : r.err = some Error.ErrInsufficientBalance
  · simp only [hib, if_true]; exact Nat.sub_le _ _
  · simp [hib] at h

theorem ApplyTransaction_failure_gp (host : Host) (author : Address) (gp : Nat)
    (statedb : StateDB) (header : BlockHeader) (tx : Transaction) (usedGas : Nat)
    (hg64 : tx.gas < uint64Size) (e : Error) (sdb : StateDB) (gp1 : Nat)
    (h : ApplyTransaction host author gp statedb header tx usedGas =
      ApplyResult.failure e sdb gp1) : gp1 ≤ gp := by
  unfold ApplyTransaction at h
  cases hs : tx.sender with
  | none =>
    rw [hs] at h
    simp only at h
    injection h with _ _ h3
    omega
  | some s =>
    rw [hs] at h
    simp only at h
    cases he : (ApplyMessage host (NewEVMContext s tx.gasPrice header author) statedb tx gp).err
      with
    | none => rw [he] at h; simp at h
    | some e1 =>
      rw [he] at h
      simp only at h
      injection h with _ _ h3
      have := ApplyMessage_gp_le host _ statedb tx gp s hs hg64 e1 he
      omega

/-- A successful `ApplyTransaction` of the builder, repeated from a gas pool that is at least
as large and under a header that agrees on the fixed fields, succeeds with the same receipt,
gas, state and cumulative gas. -/
theorem ApplyTransaction_mono (host : Host) (hsound : host.GasSound)
    (hfixed : host.ReadsFixedHeader) (author : Address) (gp1 gp2 : Nat) (statedb : StateDB)
    (header1 header2 : BlockHeader) (hh : header1.SameFixed header2) (tx : Transaction)
    (usedGas : Nat) (hg64 : tx.gas < uint64Size) (hle : gp1 ≤ gp2) (hgp2 : gp2 < uint64Size)
    (rc : Receipt) (gas : Nat) (sdb : StateDB) (gp1' used1 : Nat)
    (h : ApplyTransaction host author gp1 statedb header1 tx usedGas =
      ApplyResult.success rc gas sdb gp1' used1) :
    ∃ gp2', ApplyTransaction host author gp2 statedb header2 tx usedGas =
        ApplyResult.success rc gas sdb gp2' used1 ∧ gp1' ≤ gp2' ∧ gp2' ≤ gp2 := by
  obtain ⟨s, hs, herr, -⟩ :=
    ApplyTransaction_success_inv host author gp1 statedb header1 tx usedGas rc gas sdb gp1'
      used1 h
  obtain ⟨k1, -, k3, k4, k5, k6, k7⟩ :=
    ApplyMessage_mono host hsound hfixed (NewEVMContext s tx.gasPrice header1 author)
      (NewEVMContext s tx.gasPrice header2 author) rfl rfl rfl hh statedb tx gp1 gp2 s hs hg64
      hle hgp2 herr
  rw [ApplyTransaction_of_ok host author gp1 statedb header1 tx usedGas s hs herr] at h
  rw [ApplyTransaction_of_ok host author gp2 statedb header2 tx usedGas s hs k1]
  injection h with e1 e2 e3 e4 e5
  refine ⟨_, ?_, ?_, k7⟩
  · rw [k3, k4, k5, e1, e3]
    rw [e2] at e5 ⊢
    rw [e5]
  · rw [← e4]; exact k6

theorem StateDB.prepare_congr (s t : StateDB) (thash bhash : Hash) (ti : Nat)
    (ha : s.accounts = t.accounts) (hr : s.refund = t.refund) (hl : s.logs = t.logs) :
    s.Prepare thash bhash ti = t.Prepare thash bhash ti := by
  cases s; cases t
  simp only [StateDB.Prepare] at *
  simp [ha, hr, hl]

/-- One turn of the inner loop of `GenerateBlock` keeps the builder in step with `Process`. -/
theorem GenerateBlock.step_sim (host : Host) (hsound : host.GasSound)
    (hfixed : host.ReadsFixedHeader) (coinBase : Address) (header : BlockHeader)
    (statedb : StateDB) (acc : BlockBuilder × Nat) (tx : Transaction) (hwf : tx.WellFormed)
    (hsim : GenerateBlock.Sim host coinBase header statedb acc) :
    GenerateBlock.Sim host coinBase header statedb (GenerateBlock.step host coinBase acc tx) := by
  obtain ⟨bb, k⟩ := acc
  obtain ⟨hh, hprop, gpV, sV, logsV, hgp, hgpV, hacc, href, hlogs, hloop⟩ := hsim
  simp only at hh hgp hacc href hlogs hloop
  unfold GenerateBlock.step DeepVerify BlockBuilder.applyTransaction
  simp only
  cases hA : ApplyTransaction host coinBase bb.gasPool
      (bb.statedb.Prepare tx.hash bb.currentHeader.ParentHash k) bb.currentHeader tx
      bb.currentHeader.GasUsed with
  | failure e sdb2 gp' =>
    have hle := ApplyTransaction_failure_gp host coinBase bb.gasPool _ _ tx _ hwf.2 e sdb2 gp' hA
    refine ⟨hh, hprop, gpV, sV, logsV, ?_, hgpV, hacc, href, hlogs, hloop⟩
    simp only
    omega
  | success rc g sdb2 gp' used' =>
    obtain ⟨gpV', hV, hle1, hle2⟩ :=
      ApplyTransaction_mono host hsound hfixed coinBase bb.gasPool gpV _ bb.currentHeader header
        hh tx bb.currentHeader.GasUsed hwf.2 hgp hgpV rc g sdb2 gp' used' hA
    have hprep : bb.statedb.Prepare tx.hash bb.currentHeader.ParentHash k =
        sV.Prepare tx.hash header.ParentHash k := by
      rw [hh.2.1]
      exact StateDB.prepare_congr _ _ _ _ _ hacc.symm href.symm hlogs.symm
    rw [hprep, ← hprop] at hV
    refine ⟨hh, hprop, gpV', sdb2, logsV ++ rc.Logs, hle1, by omega, rfl, rfl, rfl, ?_⟩
    intro rest
    simp only [List.append_assoc, List.singleton_append]
    rw [hloop (tx :: rest)]
    simp only [Process.loop, hV]

theorem GenerateBlock.foldl_sim (host : Host) (hsound : host.GasSound)
    (hfixed : host.ReadsFixedHeader) (coinBase : Address) (header : BlockHeader)
    (statedb : StateDB) (mAddressTxs : List (List Transaction))
    (hwf : ∀ txs ∈ mAddressTxs, ∀ tx ∈ txs, tx.WellFormed) :
    ∀ acc : BlockBuilder × Nat, GenerateBlock.Sim host coinBase header statedb acc →
      GenerateBlock.Sim host coinBase header statedb
        (mAddressTxs.foldl (fun acc txs => txs.foldl (GenerateBlock.step host coinBase) acc)
          acc) := by
  have inner : ∀ (txs : List Transaction), (∀ tx ∈ txs, tx.WellFormed) →
      ∀ acc : BlockBuilder × Nat, GenerateBlock.Sim host coinBase header statedb acc →
        GenerateBlock.Sim host coinBase header statedb
          (txs.foldl (GenerateBlock.step host coinBase) acc) := by
    intro txs
    induction txs with
    | nil => intro _ acc h; exact h
    | cons tx rest ih =>
      intro hw acc h
      exact ih (fun t ht => hw t (List.mem_cons_of_mem _ ht)) _
        (GenerateBlock.step_sim host hsound hfixed coinBase header statedb acc tx
          (hw tx (List.mem_cons_self _ _)) h)
  induction mAddressTxs with
  | nil => intro acc h; exact h
  | cons txs rest ih =>
    intro acc h
    exact ih (fun l hl => hwf l (List.mem_cons_of_mem _ hl)) _
      (inner txs (hwf txs (List.mem_cons_self _ _)) acc h)

/-- The loop of `GenerateBlock` leaves the fixed fields of `bb.currentHeader` as they were. -/
theorem GenerateBlock.foldl_header (host : Host) (coinBase : Address)
    (mAddressTxs : List (List Transaction)) :
    ∀ acc : BlockBuilder × Nat,
      (mAddressTxs.foldl (fun acc txs => txs.foldl (GenerateBlock.step host coinBase) acc)
        acc).1.currentHeader.SameFixed acc.1.currentHeader := by
  have hstep : ∀ (acc : BlockBuilder × Nat) (tx : Transaction),
      (GenerateBlock.step host coinBase acc tx).1.currentHeader.SameFixed
        acc.1.currentHeader := by
    intro acc tx
    unfold GenerateBlock.step DeepVerify BlockBuilder.applyTransaction
    simp only
    cases ApplyTransaction host coinBase acc.1.gasPool
      (acc.1.statedb.Prepare tx.hash acc.1.currentHeader.ParentHash acc.2) acc.1.currentHeader tx
      acc.1.currentHeader.GasUsed with
    | failure e sdb2 gp' => exact ⟨rfl, rfl, rfl, rfl, rfl⟩
    | success rc g sdb2 gp' used' => exact ⟨rfl, rfl, rfl, rfl, rfl⟩
  have htrans : ∀ a b c : BlockHeader, a.SameFixed b → b.SameFixed c → a.SameFixed c := by
    intro a b c ⟨h1, h2, h3, h4, h5⟩ ⟨g1, g2, g3, g4, g5⟩
    exact ⟨h1.trans g1, h2.trans g2, h3.trans g3, h4.trans g4, h5.trans g5⟩
  have inner : ∀ (txs : List Transaction) (acc : BlockBuilder × Nat),
      (txs.foldl (GenerateBlock.step host coinBase) acc).1.currentHeader.SameFixed
        acc.1.currentHeader := by
    intro txs
    induction txs with
    | nil => intro acc; exact ⟨rfl, rfl, rfl, rfl, rfl⟩
    | cons tx rest ih =>
      intro acc
      exact htrans _ _ _ (ih _) (hstep acc tx)
  induction mAddressTxs with
  | nil => intro acc; exact ⟨rfl, rfl, rfl, rfl, rfl⟩
  | cons txs rest ih =>
    intro acc
    exact htrans _ _ _ (ih _) (inner txs acc)

theorem CreateBloom_lt (keccak : List Byte → List Byte) (receipts : List Receipt) :
    CreateBloom keccak receipts < 2 ^ 2048 := by
  unfold CreateBloom
  exact foldl_or_lt (fun receipt : Receipt => LogsBloom keccak receipt.Logs) 2048
    (fun r => LogsBloom_lt keccak r.Logs) receipts 0 (Nat.pow_pos (by decide))

theorem setBytes_bloom_bytes (n : Nat) (h : n < 2 ^ 2048) :
    setBytes (bytesBE 256 n) = (n : Int) := by
  unfold setBytes
  rw [foldl_bytesBE]
  have h2 : (256 : Nat) ^ 256 = 2 ^ 2048 := by norm_num
  rw [h2, Nat.mod_eq_of_lt h]
theorem simpleHost_readsFixedHeader : simpleHost.ReadsFixedHeader := by
  intro ctx1 ctx2 _ _ _ _ _ _ _ _
  exact ⟨rfl, rfl⟩

/-- C23: for every parent header, parent state (the state that `Reset` loads) and pending
transactions, when `GenerateBlock` returns a block, `Process` on that block from the parent
state returns no error, the receipts of the builder and the gas total that the builder
recorded in `header.GasUsed`, and `ValidateState` on that result returns nil: the bloom of the
header, converted back from its big integer, is `CreateBloom(receipts)`, and the receipt root
and the state root are those of the header. The assumptions are on the collaborators that are
not among the sources: the virtual machine returns no more gas than it is given and reads from
the header only the fields that the builder has set before execution, the gas limit is a
`uint64`, the state root depends on the accounts only, and the pending transactions are well
formed. -/
theorem GenerateBlock_accepted (host : Host) (chain : Chain) (coinBase : Address)
    (timestamp : Nat) (prevrandao : Hash) (lastBlockHeader : BlockHeader)
    (mAddressTxs : List (List Transaction))
    (hsound : host.GasSound) (hfixed : host.ReadsFixedHeader)
    (hlimit : host.TempGasLimit < uint64Size)
    (hwf : ∀ txs ∈ mAddressTxs, ∀ tx ∈ txs, tx.WellFormed)
    (hroot : ∀ s t : StateDB, s.accounts = t.accounts →
      chain.IntermediateRoot s = chain.IntermediateRoot t)
    (bl : Block)
    (hgen : GenerateBlock host chain coinBase timestamp prevrandao lastBlockHeader mAddressTxs =
      Except.ok bl) :
    bl.Transactions =
      (GenerateBlock.filled host chain coinBase timestamp prevrandao lastBlockHeader
        mAddressTxs).txs ∧
    (Process host bl (chain.Reset lastBlockHeader.StateRoot)).err = none ∧
    (Process host bl (chain.Reset lastBlockHeader.StateRoot)).receipts =
      (GenerateBlock.filled host chain coinBase timestamp prevrandao lastBlockHeader
        mAddressTxs).receipts ∧
    (Process host bl (chain.Reset lastBlockHeader.StateRoot)).usedGas = bl.Header.GasUsed ∧
    bl.Header.Bloom = some ((CreateBloom host.Keccak256
      (Process host bl (chain.Reset lastBlockHeader.StateRoot)).receipts : Nat) : Int) ∧
    chain.DeriveShaReceipts (Process host bl (chain.Reset lastBlockHeader.StateRoot)).receipts =
      Except.ok bl.Header.ReceiptRoot ∧
    chain.IntermediateRoot (Process host bl (chain.Reset lastBlockHeader.StateRoot)).statedb =
      bl.Header.StateRoot ∧
    ValidateState chain host.Keccak256 bl
      (Process host bl (chain.Reset lastBlockHeader.StateRoot)).statedb
      (Process host bl (chain.Reset lastBlockHeader.StateRoot)).receipts
      (Process host bl (chain.Reset lastBlockHeader.StateRoot)).usedGas = some none := by
  unfold GenerateBlock at hgen
  generalize hbb : GenerateBlock.filled host chain coinBase timestamp prevrandao lastBlockHeader
    mAddressTxs = bb at hgen ⊢
  cases hT : chain.DeriveShaTransactions bb.txs with
  | error e => simp [hT] at hgen
  | ok transactionsRoot =>
    cases hR : chain.DeriveShaReceipts bb.receipts with
    | error e => simp [hT, hR] at hgen
    | ok receiptRoot =>
      simp only [hT, hR, Except.ok.injEq] at hgen
      -- the header of the block agrees with the initial header on the fixed fields
      have hhdr : bb.currentHeader.SameFixed
          (GenerateBlock.initialHeader chain coinBase timestamp prevrandao lastBlockHeader) := by
        rw [← hbb]
        exact GenerateBlock.foldl_header host coinBase mAddressTxs _
      have hfix : bb.currentHeader.SameFixed bl.Header := by
        rw [← hgen]
        exact ⟨rfl, rfl, rfl, rfl, rfl⟩
      have hprop : bl.Header.Proposer = coinBase := by
        rw [← hfix.2.2.2.2, hhdr.2.2.2.2]
        rfl
      -- the builder has been in step with `Process` under that header
      have hsim0 : GenerateBlock.Sim host coinBase bl.Header
          (chain.Reset lastBlockHeader.StateRoot)
          ({ statedb := chain.Reset lastBlockHeader.StateRoot, gasPool := host.TempGasLimit,
             currentHeader :=
               GenerateBlock.initialHeader chain coinBase timestamp prevrandao lastBlockHeader,
             txs := [], receipts := [] }, 0) := by
        refine ⟨?_, hprop, AddGas 0 host.TempGasLimit, chain.Reset lastBlockHeader.StateRoot, [],
          ?_, ?_, rfl, rfl, rfl, ?_⟩
        · obtain ⟨a1, a2, a3, a4, a5⟩ := hhdr
          obtain ⟨b1, b2, b3, b4, b5⟩ := hfix
          exact ⟨a1.symm.trans b1, a2.symm.trans b2, a3.symm.trans b3, a4.symm.trans b4,
            a5.symm.trans b5⟩
        · simp only [AddGas, Nat.zero_add, Nat.mod_eq_of_lt hlimit]
          exact Nat.le_refl _
        · simp only [AddGas, Nat.zero_add]
          exact Nat.mod_lt _ (by unfold uint64Size; norm_num)
        · intro rest
          rfl
      have hend := GenerateBlock.foldl_sim host hsound hfixed coinBase bl.Header
        (chain.Reset lastBlockHeader.StateRoot) mAddressTxs hwf _ hsim0
      obtain ⟨-, -, gpV, sV, logsV, -, -, hacc, -, -, hloop⟩ := hend
      have hfilled : (mAddressTxs.foldl
          (fun acc txs => txs.foldl (GenerateBlock.step host coinBase) acc)
          ({ statedb := chain.Reset lastBlockHeader.StateRoot, gasPool := host.TempGasLimit,
             currentHeader :=
               GenerateBlock.initialHeader chain coinBase timestamp prevrandao lastBlockHeader,
             txs := [], receipts := [] }, 0)).1 = bb := hbb
      rw [hfilled] at hacc hloop
      have hproc : Process host bl (chain.Reset lastBlockHeader.StateRoot) =
          { receipts := bb.receipts, logs := logsV, usedGas := bb.currentHeader.GasUsed,
            err := none, statedb := sV } := by
        have htx : bl.Transactions = bb.txs := by rw [← hgen]
        unfold Process
        rw [htx]
        have := hloop []
        rw [List.append_nil] at this
        rw [this]
        rfl
      have hgas : bl.Header.GasUsed = bb.currentHeader.GasUsed := by rw [← hgen]
      have hbloom : bl.Header.Bloom =
          some ((CreateBloom host.Keccak256 bb.receipts : Nat) : Int) := by
        rw [← hgen]
        simp only
        rw [setBytes_bloom_bytes _ (CreateBloom_lt _ _)]
      have hrr : bl.Header.ReceiptRoot = receiptRoot := by rw [← hgen]
      have hsr : bl.Header.StateRoot = chain.IntermediateRoot bb.statedb := by rw [← hgen]
      have hrootV : chain.IntermediateRoot sV = chain.IntermediateRoot bb.statedb :=
        hroot sV bb.statedb hacc
      rw [hproc]
      simp only
      refine ⟨by rw [← hgen], trivial, trivial, hgas.symm, hbloom, by rw [hR, hrr],
        by rw [hrootV, hsr], ?_⟩
      unfold ValidateState
      have hb2 : BytesToBloom (bigBytes ((CreateBloom host.Keccak256 bb.receipts : Nat) : Int)) =
          some (CreateBloom host.Keccak256 bb.receipts) := by
        rw [BytesToBloom_bigBytes_some _ (by
          rw [Int.natAbs_ofNat]; exact CreateBloom_lt _ _), Int.natAbs_ofNat]
      simp only [hgas, hbloom, hb2, hR, hrr, hsr, hrootV, ne_eq, not_true_eq_false, if_false]

set_option maxRecDepth 100000 in
/-- C23 on a transfer-only virtual machine: the builder includes the calls with nonces `5` and
`6`, skips the call with the stale nonce, and the validator accepts the block. -/
theorem GenerateBlock_accepted_witness :
    ∃ bl, GenerateBlock simpleHost (simpleChain [] []) 2 100 7 BlockHeader.zero samplePending =
        Except.ok bl ∧
      bl.Transactions = [callTx 5 10 30000 20, callTx 6 10 30000 20] ∧
      bl.Header.GasUsed = 42000 ∧
      (Process simpleHost bl ((simpleChain [] []).Reset BlockHeader.zero.StateRoot)).usedGas =
        bl.Header.GasUsed ∧
      ValidateState (simpleChain [] []) simpleHost.Keccak256 bl
        (Process simpleHost bl ((simpleChain [] []).Reset BlockHeader.zero.StateRoot)).statedb
        (Process simpleHost bl ((simpleChain [] []).Reset BlockHeader.zero.StateRoot)).receipts
        (Process simpleHost bl ((simpleChain [] []).Reset BlockHeader.zero.StateRoot)).usedGas =
        some none :=
  ⟨_, rfl, by decide, by decide,
    (GenerateBlock_accepted simpleHost (simpleChain [] []) 2 100 7 BlockHeader.zero samplePending
      simpleHost_gasSound simpleHost_readsFixedHeader (by decide) (by decide)
      (fun s t h => by simp [simpleChain, StateDB.GetBalance, h]) _ rfl).2.2.2.1,
    (GenerateBlock_accepted simpleHost (simpleChain [] []) 2 100 7 BlockHeader.zero samplePending
      simpleHost_gasSound simpleHost_readsFixedHeader (by decide) (by decide)
      (fun s t h => by simp [simpleChain, StateDB.GetBalance, h]) _ rfl).2.2.2.2.2.2.2⟩

/-! ## Proposer schedule: contiguous runs (C26) -/

theorem nextOwner_zero (E : Nat) (total : Int) (asg : Address → Nat) (l : List Authority) :
    nextOwner E total asg l 0 =
      (l.find? (fun a => decide (asg a.address < quotaOf E total a))).map
        (fun a => a.address) := by
  induction l with
  | nil => rfl
  | cons a t ih =>
    simp only [nextOwner, List.find?_cons]
    by_cases h : asg a.address < quotaOf E total a
    · have h1 : 0 < quotaOf E total a - asg a.address := by omega
      simp [h, h1]
    · have h1 : ¬ 0 < quotaOf E total a - asg a.address := by omega
      have h2 : quotaOf E total a - asg a.address = 0 := by omega
      simp only [h, h1, if_false, decide_False, h2, Nat.sub_zero]
      exact ih

theorem nextOwner_none (E : Nat) (total : Int) (asg : Address → Nat) (l : List Authority)
    (h : l.find? (fun a => decide (asg a.address < quotaOf E total a)) = none) :
    ∀ j, nextOwner E total asg l j = none := by
  induction l with
  | nil => intro j; rfl
  | cons a t ih =>
    intro j
    rw [List.find?_cons] at h
    by_cases ha : asg a.address < quotaOf E total a
    · simp [ha] at h
    · simp only [ha, decide_False] at h
      have h2 : quotaOf E total a - asg a.address = 0 := by omega
      simp only [nextOwner, h2, Nat.not_lt_zero, if_false, Nat.sub_zero]
      exact ih h j

theorem nextOwner_congr (E : Nat) (total : Int) (asg asg' : Address → Nat)
    (l : List Authority) (h : ∀ a ∈ l, asg a.address = asg' a.address) :
    ∀ j, nextOwner E total asg l j = nextOwner E total asg' l j := by
  induction l with
  | nil => intro j; rfl
  | cons a t ih =>
    intro j
    simp only [nextOwner, h a (List.mem_cons_self _ _)]
    rw [ih (fun b hb => h b (List.mem_cons_of_mem _ hb))]

theorem nextOwner_bump (E : Nat) (total : Int) (asg : Address → Nat) (l : List Authority)
    (hnd : (l.map (fun a => a.address)).Nodup) (a0 : Authority)
    (hf : l.find? (fun a => decide (asg a.address < quotaOf E total a)) = some a0) :
    ∀ j, nextOwner E total (bump asg a0.address) l j = nextOwner E total asg l (j + 1) := by
  induction l with
  | nil => simp at hf
  | cons a t ih =>
    intro j
    simp only [List.map_cons, List.nodup_cons] at hnd
    rw [List.find?_cons] at hf
    by_cases ha : asg a.address < quotaOf E total a
    · simp only [ha, decide_True, Option.some.injEq] at hf
      subst hf
      have hq := quotaOf_lt E total a
      have hb : bump asg a.address a.address = asg a.address + 1 := by
        simp only [bump, if_true]
        exact Nat.mod_eq_of_lt (by omega)
      have hrest : ∀ i, nextOwner E total (bump asg a.address) t i = nextOwner E total asg t i := by
        apply nextOwner_congr
        intro b hb1
        have hne : b.address ≠ a.address := by
          intro e
          exact hnd.1 (e ▸ List.mem_map.2 ⟨b, hb1, rfl⟩)
        simp [bump, hne]
      simp only [nextOwner, hb, hrest]
      by_cases hj : j + 1 < quotaOf E total a - asg a.address
      · have hj' : j < quotaOf E total a - (asg a.address + 1) := by omega
        rw [if_pos hj, if_pos hj']
      · have hj' : ¬ j < quotaOf E total a - (asg a.address + 1) := by omega
        rw [if_neg hj, if_neg hj']
        congr 1
        omega
    · simp only [ha, decide_False] at hf
      have hmem : a0 ∈ t := List.mem_of_find?_eq_some hf
      have hne : a.address ≠ a0.address := by
        intro e
        exact hnd.1 (e ▸ List.mem_map.2 ⟨a0, hmem, rfl⟩)
      have hb : bump asg a0.address a.address = asg a.address := by
        simp [bump, hne]
      have h2 : quotaOf E total a - asg a.address = 0 := by omega
      simp only [nextOwner, hb, h2, Nat.not_lt_zero, if_false, Nat.sub_zero]
      exact ih hnd.2 hf j

/-- The greedy loop of `UpdateSchedule` gives the `j`-th height to `nextOwner ... j`. -/
theorem assignHeights_owner (E : Nat) (total : Int) (ht : total ≠ 0) (l : List Authority)
    (hnd : (l.map (fun a => a.address)).Nodup) :
    ∀ (hs : List Nat) (sched : Nat → Option Address) (asg : Address → Nat),
      hs.Nodup → (∀ h ∈ hs, sched h = none) →
      ∃ sched1, assignHeights E total l hs sched asg = some sched1 ∧
        ∀ j h, hs[j]? = some h → sched1 h = nextOwner E total asg l j := by
  intro hs
  induction hs with
  | nil =>
    intro sched asg _ _
    exact ⟨sched, rfl, fun j h hj => by simp at hj⟩
  | cons h0 hs ih =>
    intro sched asg hnodup hnone
    rw [List.nodup_cons] at hnodup
    obtain ⟨hh0, hnodup1⟩ := hnodup
    simp only [assignHeights, selectAuthority_eq E total ht asg l]
    cases hf : l.find? (fun a => decide (asg a.address < quotaOf E total a)) with
    | none =>
      simp only [Option.map_none']
      obtain ⟨sched1, hrun, hown⟩ := ih sched asg hnodup1
        (fun h hh => hnone h (List.mem_cons_of_mem _ hh))
      refine ⟨sched1, hrun, ?_⟩
      intro j h hj
      rw [nextOwner_none E total asg l hf j]
      cases j with
      | zero =>
        simp only [List.getElem?_cons_zero, Option.some.injEq] at hj
        subst hj
        rw [(assignHeights_frame E total l hs sched asg sched1 hrun).1 h0 hh0]
        exact hnone h0 (List.mem_cons_self _ _)
      | succ j =>
        simp only [List.getElem?_cons_succ] at hj
        rw [hown j h hj, nextOwner_none E total asg l hf j]
    | some a0 =>
      simp only [Option.map_some']
      obtain ⟨sched1, hrun, hown⟩ := ih (fun k => if k = h0 then some a0.address else sched k)
        (bump asg a0.address) hnodup1
        (fun h hh => by
          have hne : h ≠ h0 := fun e => hh0 (e ▸ hh)
          simp only [hne, if_false]
          exact hnone h (List.mem_cons_of_mem _ hh))
      refine ⟨sched1, hrun, ?_⟩
      intro j h hj
      cases j with
      | zero =>
        simp only [List.getElem?_cons_zero, Option.some.injEq] at hj
        subst hj
        rw [(assignHeights_frame E total l hs _ _ sched1 hrun).1 h0 hh0, nextOwner_zero, hf]
        simp
      | succ j =>
        simp only [List.getElem?_cons_succ] at hj
        rw [hown j h hj, nextOwner_bump E total asg l hnd a0 hf j]

theorem nextOwner_run (E : Nat) (total : Int) (l : List Authority) :
    ∀ (i : Nat) (hi : i < l.length) (j : Nat),
      ((l.take i).map (fun a => quotaOf E total a)).sum ≤ j →
      j < ((l.take (i + 1)).map (fun a => quotaOf E total a)).sum →
      nextOwner E total (fun _ => 0) l j = some (l.get ⟨i, hi⟩).address := by
  induction l with
  | nil => intro i hi; simp at hi
  | cons a t ih =>
    intro i hi j hlo hhi
    cases i with
    | zero =>
      simp only [List.take_succ_cons, List.take_zero, List.map_cons, List.map_nil, List.sum_cons,
        List.sum_nil, Nat.add_zero] at hhi
      simp only [nextOwner, Nat.sub_zero, if_pos hhi]
      rfl
    | succ i =>
      simp only [List.take_succ_cons, List.map_cons, List.sum_cons] at hlo hhi
      have hnot : ¬ j < quotaOf E total a := by omega
      simp only [nextOwner, Nat.sub_zero, if_neg hnot]
      have hi' : i < t.length := by simpa using hi
      rw [ih i hi' (j - quotaOf E total a) (by omega) (by omega)]
      rfl

theorem assignHeights_nil (E : Nat) (total : Int) :
    ∀ (hs : List Nat) (sched : Nat → Option Address) (asg : Address → Nat),
      assignHeights E total [] hs sched asg = some sched := by
  intro hs
  induction hs with
  | nil => intro sched asg; rfl
  | cons h0 hs ih =>
    intro sched asg
    simp only [assignHeights, selectAuthority]
    exact ih sched asg

theorem quotaOf_eq_floorQuota (E : Nat) (auths : List (Address × Int))
    (hpos : ∀ p ∈ auths, 0 < p.2) (hE : E < uint64Size) (p : Address × Int) (hp : p ∈ auths) :
    quotaOf E (auths.map Prod.snd).sum { address := p.1, weight := p.2 } =
      floorQuota E auths p.2 := by
  have hw := hpos p hp
  have hle : p.2 ≤ (auths.map Prod.snd).sum :=
    List.single_le_sum (fun x hx => by
      obtain ⟨q, hq, rfl⟩ := List.mem_map.1 hx
      exact le_of_lt (hpos q hq)) p.2 (List.mem_map.2 ⟨p, hp, rfl⟩)
  have htpos : 0 < (auths.map Prod.snd).sum := by omega
  have hnn : 0 ≤ p.2 * (E : Int) / (auths.map Prod.snd).sum :=
    Int.ediv_nonneg (mul_nonneg (le_of_lt hw) (Int.ofNat_nonneg _)) (le_of_lt htpos)
  have hub : p.2 * (E : Int) / (auths.map Prod.snd).sum ≤ (E : Int) := by
    apply Int.ediv_le_of_le_mul htpos
    have : p.2 * (E : Int) ≤ (auths.map Prod.snd).sum * (E : Int) :=
      mul_le_mul_of_nonneg_right hle (Int.ofNat_nonneg _)
    linarith [mul_comm (E : Int) (auths.map Prod.snd).sum]
  unfold quotaOf floorQuota
  simp only
  have h1 : Int.natAbs (p.2 * (E : Int) / (auths.map Prod.snd).sum) =
      Int.toNat (p.2 * (E : Int) / (auths.map Prod.snd).sum) := by omega
  rw [h1]
  apply Nat.mod_eq_of_lt
  have : Int.toNat (p.2 * (E : Int) / (auths.map Prod.snd).sum) ≤ E := by omega
  omega
theorem sum_take_le (l : List Nat) (n : Nat) : (l.take n).sum ≤ l.sum := by
  have h : ((l.take n) ++ (l.drop n)).sum = l.sum := by rw [List.take_append_drop]
  rw [List.sum_append] at h
  omega

/-- C26 (amended): for every validator map with pairwise distinct positive weights and every
from-height with `from + EPOCH_LENGTH` not overflowing `uint64`, listing the validators
`v_1..v_n` by descending weight with quotas `q_i = floor(weight_i * EPOCH_LENGTH / sum of
weights)`, `UpdateSchedule` ends and assigns heights in contiguous runs: every height in
`[from + q_1 + ... + q_(i-1), from + q_1 + ... + q_i)` is assigned to `v_i`; in particular
`schedule[from]` is the heaviest validator whenever its quota is positive. -/
theorem UpdateSchedule_contiguous_runs (E : Nat) (salt : List Byte) (fromBlock : Nat)
    (auths : List (Address × Int)) (hnd : (auths.map Prod.fst).Nodup)
    (hpos : ∀ p ∈ auths, 0 < p.2) (hdist : (auths.map Prod.snd).Nodup)
    (hov : fromBlock + E < uint64Size)
    (v : List (Address × Int)) (hperm : v.Perm auths)
    (hsorted : v.Sorted (fun a b => a.2 > b.2)) :
    ∃ ps, UpdateSchedule E salt fromBlock auths = some ps ∧
      (∀ (i : Nat) (hi : i < v.length) (h : Nat),
        fromBlock + quotaBefore E auths v i ≤ h →
        h < fromBlock + quotaBefore E auths v (i + 1) →
        ps.schedule h = some (v.get ⟨i, hi⟩).1) ∧
      (∀ p rest, v = p :: rest → 0 < floorQuota E auths p.2 →
        ps.schedule fromBlock = some p.1) := by
  have hheights : scheduleHeights E fromBlock = List.range' fromBlock E := by
    unfold scheduleHeights
    rw [Nat.mod_eq_of_lt hov, Nat.add_sub_cancel_left]
  -- the runs imply the statement on the first height
  have hfirst : ∀ ps : ProposerSchedule,
      (∀ (i : Nat) (hi : i < v.length) (h : Nat),
        fromBlock + quotaBefore E auths v i ≤ h →
        h < fromBlock + quotaBefore E auths v (i + 1) →
        ps.schedule h = some (v.get ⟨i, hi⟩).1) →
      ∀ p rest, v = p :: rest → 0 < floorQuota E auths p.2 →
        ps.schedule fromBlock = some p.1 := by
    intro ps hruns p rest hv hq
    subst hv
    have := hruns 0 (by simp) fromBlock (by simp [quotaBefore])
      (by simp [quotaBefore]; exact hq)
    simpa using this
  by_cases hne : auths = []
  · subst hne
    have hv : v = [] := List.Perm.eq_nil hperm
    subst hv
    refine ⟨{ schedule := fun _ => none }, ?_, ?_, ?_⟩
    · unfold UpdateSchedule
      simp only [List.map_nil, sortAuthorities, List.insertionSort, assignHeights_nil,
        Option.map_some']
    · intro i hi; simp at hi
    · intro p rest hv; simp at hv
  -- the sorted authorities are the list `v`
  set l0 : List Authority := auths.map (fun p => { address := p.1, weight := p.2 }) with hl0
  set lv : List Authority := v.map (fun p => { address := p.1, weight := p.2 }) with hlv
  have hperm0 : (sortAuthorities l0).Perm l0 := List.perm_insertionSort _ _
  have hpermv : lv.Perm l0 := hperm.map _
  have hwts : (l0.map (fun a => a.weight)) = auths.map Prod.snd := by
    rw [hl0, List.map_map]; rfl
  have haddr : (l0.map (fun a => a.address)) = auths.map Prod.fst := by
    rw [hl0, List.map_map]; rfl
  have hsv : lv.Sorted (fun a b => a.weight > b.weight) := by
    rw [hlv]
    exact List.pairwise_map.2 hsorted
  have hs0 : (sortAuthorities l0).Sorted (fun a b => a.weight > b.weight) := by
    have hT : IsTotal Authority (fun a b => a.weight ≥ b.weight) :=
      ⟨fun a b => le_total b.weight a.weight⟩
    have hR : IsTrans Authority (fun a b => a.weight ≥ b.weight) :=
      ⟨fun a b c hab hbc => le_trans hbc hab⟩
    have h1 : (sortAuthorities l0).Sorted (fun a b => a.weight ≥ b.weight) :=
      List.sorted_insertionSort (fun a b : Authority => a.weight ≥ b.weight) l0
    have h2 : ((sortAuthorities l0).map (fun a => a.weight)).Nodup := by
      rw [(hperm0.map _).nodup_iff, hwts]; exact hdist
    have h3 : (sortAuthorities l0).Pairwise (fun a b => a.weight ≠ b.weight) :=
      List.pairwise_map.1 h2
    exact (List.Pairwise.and h1 h3).imp (fun ⟨hge, hne⟩ => lt_of_le_of_ne hge (Ne.symm hne))
  haveI : IsAntisymm Authority (fun a b => a.weight > b.weight) :=
    ⟨fun a b h1 h2 => absurd h1 (not_lt.2 (le_of_lt h2))⟩
  have hsame : sortAuthorities l0 = lv :=
    List.eq_of_perm_of_sorted (hperm0.trans hpermv.symm) hs0 hsv
  have hndl : (lv.map (fun a => a.address)).Nodup := by
    rw [(hpermv.map _).nodup_iff, haddr]; exact hnd
  -- the total weight
  have htotal : (lv.map (fun auth => auth.weight)).foldl (· + ·) 0 =
      (auths.map Prod.snd).sum := by
    rw [← List.sum_eq_foldl, (hpermv.map _).sum_eq, hwts]
  have htpos : 0 < (auths.map Prod.snd).sum := by
    obtain ⟨p, hp⟩ := List.exists_mem_of_ne_nil auths hne
    have h1 : p.2 ≤ (auths.map Prod.snd).sum :=
      List.single_le_sum (fun x hx => by
        obtain ⟨q, hq, rfl⟩ := List.mem_map.1 hx
        exact le_of_lt (hpos q hq)) p.2 (List.mem_map.2 ⟨p, hp, rfl⟩)
    have := hpos p hp
    omega
  have hE : E < uint64Size := by omega
  -- the quotas of the loop are the quotas of the claim
  have hquota : ∀ n, ((lv.take n).map (fun a => quotaOf E (auths.map Prod.snd).sum a)).sum =
      quotaBefore E auths v n := by
    intro n
    unfold quotaBefore
    rw [hlv, ← List.map_take, List.map_map]
    congr 1
    apply List.map_congr_left
    intro p hp
    exact quotaOf_eq_floorQuota E auths hpos hE p (hperm.mem_iff.1 (List.mem_of_mem_take hp))
  have hqle : ∀ n, quotaBefore E auths v n ≤ E := by
    intro n
    obtain ⟨_, _, _, hqs, _⟩ := UpdateSchedule_spec E salt fromBlock auths hnd hne hpos hov
    have h1 : quotaBefore E auths v n ≤ (v.map (fun p => floorQuota E auths p.2)).sum := by
      unfold quotaBefore
      rw [List.map_take]
      exact sum_take_le _ _
    have h2 : (v.map (fun p => floorQuota E auths p.2)).sum = quotaSum E auths := by
      unfold quotaSum
      exact (hperm.map _).sum_eq
    omega
  -- the greedy loop
  obtain ⟨sched1, hrun, hown⟩ :=
    assignHeights_owner E (auths.map Prod.snd).sum (ne_of_gt htpos) lv hndl
      (List.range' fromBlock E) (fun _ => none) (fun _ => 0)
      (List.nodup_range' fromBlock E) (fun _ _ => rfl)
  have hps : UpdateSchedule E salt fromBlock auths = some { schedule := sched1 } := by
    unfold UpdateSchedule
    simp only [← hl0, hsame, htotal, hheights, hrun, Option.map_some']
  have hruns : ∀ (i : Nat) (hi : i < v.length) (h : Nat),
      fromBlock + quotaBefore E auths v i ≤ h →
      h < fromBlock + quotaBefore E auths v (i + 1) →
      sched1 h = some (v.get ⟨i, hi⟩).1 := by
    intro i hi h hlo hhi
    have hlt : h - fromBlock < E := by
      have := hqle (i + 1)
      omega
    have hj : (List.range' fromBlock E)[h - fromBlock]? = some h := by
      rw [List.getElem?_range' fromBlock 1 hlt]
      congr 1; omega
    have hil : i < lv.length := by rw [hlv, List.length_map]; exact hi
    rw [hown (h - fromBlock) h hj,
      nextOwner_run E (auths.map Prod.snd).sum lv i hil (h - fromBlock)
        (by rw [hquota]; omega) (by rw [hquota]; omega)]
    simp [hlv]
  exact ⟨{ schedule := sched1 }, hps, hruns, hfirst _ hruns⟩

/-- C26 (amended) on the validators of the test, from height `10` with an epoch of `100`
heights: the heights from `10` go to the validator of weight `200`. -/
theorem UpdateSchedule_contiguous_runs_witness :
    ∃ ps, UpdateSchedule 100 [] 10 testAuthorities = some ps ∧
      (∀ (i : Nat) (hi : i < testAuthoritiesSorted.length) (h : Nat),
        10 + quotaBefore 100 testAuthorities testAuthoritiesSorted i ≤ h →
        h < 10 + quotaBefore 100 testAuthorities testAuthoritiesSorted (i + 1) →
        ps.schedule h = some (testAuthoritiesSorted.get ⟨i, hi⟩).1) ∧
      (∀ p rest, testAuthoritiesSorted = p :: rest → 0 < floorQuota 100 testAuthorities p.2 →
        ps.schedule 10 = some p.1) :=
  UpdateSchedule_contiguous_runs 100 [] 10 testAuthorities (by decide) (by decide) (by decide)
    (by decide) testAuthoritiesSorted (by decide) (by decide)

/-- C26 as stated fails when `from + EPOCH_LENGTH` overflows `uint64`: from height
`2 ^ 64 - 50` with an epoch of `100` heights the loop bound wraps to `50`, no height is
visited, and `schedule[from]` is empty although the quota of the heaviest validator of the test
is `57`. -/
theorem UpdateSchedule_overflow_no_runs :
    floorQuota 100 testAuthorities 200 = 57 ∧
    (UpdateSchedule 100 [] (2 ^ 64 - 50) testAuthorities).map
      (fun ps => ps.schedule (2 ^ 64 - 50)) = some none := by
  refine ⟨by decide, by decide⟩

end Fichain
